import Mathlib

/-!
# Shallow embedding of `src/usr/xio/xio_ev_loop.c`

The reactor of `xio_ev_loop.c` is embedded as pure functions on an explicit
`State`.  Everything the C code gets from outside (the kernel, the allocator,
the clock and the behaviour of application callbacks) is an oracle in `Env`
that answers from the history of observable actions (`State.log`), so a
statement quantified over every `Env` speaks about every kernel and every
callback behaviour.

Loops that need not terminate in C (`list_for_each_entry_safe` in
`xio_ev_loop_exec_scheduled`, the `retry` loop and the shutdown drain in
`xio_ev_loop_run_helper`) take a fuel argument and return `none` when it runs
out.
-/

namespace XioEvLoop

/-! ## Constants and event masks -/

/-- The capacity of `deleted_events` (`#define MAX_DELETED_EVENTS 1024`). -/
def MAX_DELETED_EVENTS : Nat := 1024

/-- The value of `ENOENT` in `errno.h`. -/
def ENOENT : Int := 2

/-- The value of `EINTR` in `errno.h`. -/
def EINTR : Int := 4

/-- The value of `EEXIST` in `errno.h`. -/
def EEXIST : Int := 17

/-- Modelled from the spec: the bit constants `XIO_POLLIN`, `XIO_POLLOUT`,
`XIO_POLLRDHUP`, `XIO_POLLET`, `XIO_ONESHOT` of `libxio.h` are not part of the
source file; a library mask is embedded as the set of the five abstract flags
of the translation table (readable, writable, peer-closed, edge-triggered,
one-shot) it holds. -/
structure XioEvents where
  pollin : Bool
  pollout : Bool
  pollrdhup : Bool
  pollet : Bool
  oneshot : Bool
deriving DecidableEq, Repr

/-- Modelled from the spec: the kernel constants `EPOLLIN`, `EPOLLOUT`,
`EPOLLRDHUP`, `EPOLLET`, `EPOLLONESHOT` of `sys/epoll.h` are not part of the
source file; a kernel mask (`ev.events`) is embedded as the set of flags it
holds. -/
structure EpollEvents where
  epollin : Bool
  epollout : Bool
  epollrdhup : Bool
  epollet : Bool
  epolloneshot : Bool
deriving DecidableEq, Repr

/-- The mask translation at the head of `xio_ev_loop_add` and in
`xio_ev_loop_modify`: `memset(&ev, 0, ..)` followed by one
`if (events & XIO_x) ev.events |= EPOLLx` per flag. -/
def translate_events (events : XioEvents) : EpollEvents :=
  { epollin := events.pollin
    epollout := events.pollout
    epollrdhup := events.pollrdhup
    epollet := events.pollet
    epolloneshot := events.oneshot }

/-- The mask `XIO_POLLIN | XIO_ONESHOT` that `xio_ev_loop_stop` passes. -/
def XIO_POLLIN_ONESHOT : XioEvents :=
  { pollin := true, pollout := false, pollrdhup := false, pollet := false, oneshot := true }

/-! ## Observable actions and the environment -/

/-- One entry of `struct epoll_event events[]` as filled by `epoll_wait`:
`data.ptr` (0 is `NULL`) and the observed `events` word. -/
structure EpollEvent where
  ptr : Nat
  events : Nat
deriving DecidableEq, Repr

/-- What `epoll_wait` answers: `nevent < 0` with an `errno`, or the batch
`events[0 .. nevent)` (the empty batch is `nevent == 0`). -/
inductive WaitResult where
  | error (errno : Int)
  | ready (batch : List EpollEvent)
deriving DecidableEq, Repr

/-- The observable actions of the reactor, recorded newest first in
`State.log`.  All kernel calls are made on `loop->efd`. -/
inductive Trace where
  | ucalloc
  | ufree (ptr : Nat)
  | epoll_ctl_add (fd : Int) (ev : EpollEvents) (ptr : Nat)
  | epoll_ctl_del (fd : Int)
  | epoll_ctl_mod (fd : Int) (ev : EpollEvents) (ptr : Nat)
  | epoll_wait (tmout : Int)
  | handler (tev : Nat) (fn : Nat) (fd : Int) (events : Nat) (data : Nat)
  | event_handler (tev : Nat) (fn : Nat) (data : Nat)
deriving DecidableEq, Repr

/-- The calls into the reactor that a callback can make. -/
inductive Op where
  | add (fd : Int) (events : XioEvents) (handler : Nat) (data : Nat)
  | del (fd : Int)
  | modify (fd : Int) (events : XioEvents)
  | add_event (evt : Nat)
  | remove_event (evt : Nat)
  | stop
deriving DecidableEq, Repr

/-- The world outside the reactor.  Every oracle is asked with the log as it
is right after the action it answers was recorded. -/
structure Env where
  /-- The pointer `ucalloc` returns (0 is `NULL`). -/
  ucalloc : List Trace → Nat
  /-- The return value of the `epoll_ctl` call just recorded. -/
  epoll_ctl : List Trace → Int
  /-- The value of `errno` after the system call just recorded. -/
  errno : List Trace → Int
  /-- The answer of the `epoll_wait` call just recorded. -/
  epoll_wait : List Trace → WaitResult
  /-- The `time_passed` value computed from `get_cycles()` after the wait
  just recorded. -/
  time_passed : List Trace → Int
  /-- The reactor calls made by the I/O callback invocation just recorded. -/
  handler : List Trace → List Op
  /-- The reactor calls made by the deferred-work callback invocation just
  recorded. -/
  event_handler : List Trace → List Op

/-! ## The state -/

/-- The memory of the `struct list_head` nodes of the deferred-work list.
The node `none` is the list head `loop->events_list`; `some i` is the
`events_list_entry` of work item `i`. -/
structure Links where
  next : Option Nat → Option Nat
  prev : Option Nat → Option Nat

/-- The reactor and the memory it reads and writes.

* `wakeup_event` to `poll_events_list` are the fields of `struct xio_ev_loop`;
  the `int` flags only ever hold 0 or 1 and are booleans here; the Registry
  `poll_events_list` is the list of the record addresses it links, first
  entry first; `events_list` is the deferred-work list, node by node.
* `tev_fd`, `tev_handler`, `tev_data` are the fields of the handler record at
  an address.
* `scheduled`, `evt_handler`, `evt_data` are the fields of a work item.
* `xio_errno` is the value last passed to `xio_set_error`.
* `log` is the history of observable actions, newest first. -/
structure State where
  wakeup_event : Int
  in_dispatch : Bool
  stop_loop : Bool
  wakeup_armed : Bool
  deleted_events_nr : Nat
  deleted_events : Nat → Nat
  poll_events_list : List Nat
  events_list : Links
  tev_fd : Nat → Int
  tev_handler : Nat → Nat
  tev_data : Nat → Nat
  scheduled : Nat → Bool
  evt_handler : Nat → Nat
  evt_data : Nat → Nat
  xio_errno : Int
  log : List Trace

/-! ## The list primitives of `list.h` -/

/-- Modelled from the spec: the header `list.h` is not part of the source
file; its primitives are the ones of the Linux circular doubly linked list,
which the spec calls initialising the link, appending to the tail and
unlinking.  `INIT_LIST_HEAD(list)` is `list->next = list; list->prev = list`. -/
def INIT_LIST_HEAD (L : Links) (list : Option Nat) : Links :=
  let L1 : Links := { L with next := Function.update L.next list list }
  { L1 with prev := Function.update L1.prev list list }

/-- Modelled from the spec: `__list_add(new, prev, next)` of `list.h`:
`next->prev = new; new->next = next; new->prev = prev; prev->next = new`. -/
def list_add_between (L : Links) (new prev next : Option Nat) : Links :=
  let L1 : Links := { L with prev := Function.update L.prev next new }
  let L2 : Links := { L1 with next := Function.update L1.next new next }
  let L3 : Links := { L2 with prev := Function.update L2.prev new prev }
  { L3 with next := Function.update L3.next prev new }

/-- Modelled from the spec: `list_add_tail(new, head)` of `list.h`:
`__list_add(new, head->prev, head)`. -/
def list_add_tail (L : Links) (new head : Option Nat) : Links :=
  list_add_between L new (L.prev head) head

/-- Modelled from the spec: `__list_del(prev, next)` of `list.h`:
`next->prev = prev; prev->next = next`. -/
def list_del_between (L : Links) (prev next : Option Nat) : Links :=
  let L1 : Links := { L with prev := Function.update L.prev next prev }
  { L1 with next := Function.update L1.next prev next }

/-- Modelled from the spec: `list_del_init(entry)` of `list.h`:
`__list_del(entry->prev, entry->next); INIT_LIST_HEAD(entry)`. -/
def list_del_init (L : Links) (entry : Option Nat) : Links :=
  INIT_LIST_HEAD (list_del_between L (L.prev entry) (L.next entry)) entry

/-- Modelled from the spec: `list_empty(head)` of `list.h`:
`head->next == head`. -/
def list_empty (L : Links) (head : Option Nat) : Bool :=
  L.next head == head

/-! ## Registration: `xio_ev_loop_add`, `xio_event_lookup`, `xio_ev_loop_del`, `xio_ev_loop_modify` -/

/-- Appends an observable action to the history. -/
def record (s : State) (t : Trace) : State :=
  { s with log := t :: s.log }

/-- The part of `xio_ev_loop_add` from `ev.data.ptr = tev` on: the
`EPOLL_CTL_ADD` call and, when it fails, `list_del` of the record (the
Registry without the entry), `xio_set_error(errno)` and `ufree(tev)`. -/
def xio_ev_loop_add_ctl (env : Env) (s : State) (fd : Int) (ev : EpollEvents) (tev : Nat) :
    Int × State :=
  let s1 := record s (Trace.epoll_ctl_add fd ev tev)
  let err := env.epoll_ctl s1.log
  if err ≠ 0 then
    let s2 : State :=
      if fd ≠ s1.wakeup_event then
        { s1 with poll_events_list := s1.poll_events_list.erase tev }
      else s1
    let s3 : State := { s2 with xio_errno := env.errno s1.log }
    (err, record s3 (Trace.ufree tev))
  else (err, s1)

/-- The function `xio_ev_loop_add`.  For a descriptor other than the wakeup
descriptor a record is allocated, filled and put at the front of the Registry
(`list_add`); then the kernel is asked with the record address (or `NULL`) as
opaque pointer. -/
def xio_ev_loop_add (env : Env) (s : State) (fd : Int) (events : XioEvents)
    (handler : Nat) (data : Nat) : Int × State :=
  let ev := translate_events events
  if fd ≠ s.wakeup_event then
    let s1 := record s Trace.ucalloc
    let tev := env.ucalloc s1.log
    if tev = 0 then
      (-1, { s1 with xio_errno := env.errno s1.log })
    else
      let s2 : State :=
        { s1 with
          tev_data := Function.update s1.tev_data tev data
          tev_handler := Function.update s1.tev_handler tev handler
          tev_fd := Function.update s1.tev_fd tev fd
          poll_events_list := tev :: s1.poll_events_list }
      xio_ev_loop_add_ctl env s2 fd ev tev
  else
    xio_ev_loop_add_ctl env s fd ev 0

/-- The function `xio_event_lookup`: the first record of the Registry whose
`fd` is the one asked for, `none` for `NULL`. -/
def xio_event_lookup (s : State) (fd : Int) : Option Nat :=
  s.poll_events_list.find? (fun tev => s.tev_fd tev == fd)

/-- The part of `xio_ev_loop_del` from the `EPOLL_CTL_DEL` call on. -/
def xio_ev_loop_del_ctl (env : Env) (s : State) (fd : Int) : Int × State :=
  let s1 := record s (Trace.epoll_ctl_del fd)
  let ret := env.epoll_ctl s1.log
  if ret < 0 then (ret, { s1 with xio_errno := env.errno s1.log })
  else (ret, s1)

/-- The function `xio_ev_loop_del`. -/
def xio_ev_loop_del (env : Env) (s : State) (fd : Int) : Int × State :=
  if fd ≠ s.wakeup_event then
    match xio_event_lookup s fd with
    | none => (-1, { s with xio_errno := ENOENT })
    | some tev =>
      let s1 : State := { s with poll_events_list := s.poll_events_list.erase tev }
      let s2 : State :=
        if s1.deleted_events_nr < MAX_DELETED_EVENTS then
          { s1 with
            deleted_events := Function.update s1.deleted_events s1.deleted_events_nr tev
            deleted_events_nr := s1.deleted_events_nr + 1 }
        else s1
      xio_ev_loop_del_ctl env s2 fd
  else
    xio_ev_loop_del_ctl env s fd

/-- The part of `xio_ev_loop_modify` from `memset(&ev, ..)` on. -/
def xio_ev_loop_modify_ctl (env : Env) (s : State) (fd : Int) (events : XioEvents)
    (tev : Nat) : Int × State :=
  let s1 := record s (Trace.epoll_ctl_mod fd (translate_events events) tev)
  let retval := env.epoll_ctl s1.log
  if retval ≠ 0 then (retval, { s1 with xio_errno := env.errno s1.log })
  else (retval, s1)

/-- The function `xio_ev_loop_modify`. -/
def xio_ev_loop_modify (env : Env) (s : State) (fd : Int) (events : XioEvents) :
    Int × State :=
  if fd ≠ s.wakeup_event then
    match xio_event_lookup s fd with
    | none => (-1, { s with xio_errno := ENOENT })
    | some tev => xio_ev_loop_modify_ctl env s fd events tev
  else
    xio_ev_loop_modify_ctl env s fd events 0

/-! ## Deferred work: `xio_ev_loop_init_event`, `xio_ev_loop_add_event`, `xio_ev_loop_remove_event` -/

/-- The function `xio_ev_loop_init_event`. -/
def xio_ev_loop_init_event (s : State) (evt : Nat) (event_handler : Nat) (data : Nat) :
    State :=
  { s with
    evt_handler := Function.update s.evt_handler evt event_handler
    scheduled := Function.update s.scheduled evt false
    evt_data := Function.update s.evt_data evt data
    events_list := INIT_LIST_HEAD s.events_list (some evt) }

/-- The function `xio_ev_loop_add_event`. -/
def xio_ev_loop_add_event (s : State) (evt : Nat) : State :=
  if !s.scheduled evt then
    { s with
      scheduled := Function.update s.scheduled evt true
      events_list := list_add_tail s.events_list (some evt) none }
  else s

/-- The function `xio_ev_loop_remove_event`. -/
def xio_ev_loop_remove_event (s : State) (evt : Nat) : State :=
  if s.scheduled evt then
    { s with
      scheduled := Function.update s.scheduled evt false
      events_list := list_del_init s.events_list (some evt) }
  else s

/-! ## `xio_ev_loop_stop` -/

/-- The function `xio_ev_loop_stop` on a non-`NULL` handle. -/
def xio_ev_loop_stop (env : Env) (s : State) : State :=
  if s.stop_loop then s
  else
    let s1 : State := { s with stop_loop := true }
    if s1.in_dispatch || s1.wakeup_armed then s1
    else
      let s2 : State := { s1 with wakeup_armed := true }
      (xio_ev_loop_modify env s2 s2.wakeup_event XIO_POLLIN_ONESHOT).2

/-- The function `xio_ev_loop_is_stopping` on a non-`NULL` handle. -/
def xio_ev_loop_is_stopping (s : State) : Bool :=
  s.stop_loop

/-! ## Callbacks -/

/-- One call a callback makes into the reactor; return values are dropped. -/
def apply_op (env : Env) (s : State) : Op → State
  | Op.add fd events handler data => (xio_ev_loop_add env s fd events handler data).2
  | Op.del fd => (xio_ev_loop_del env s fd).2
  | Op.modify fd events => (xio_ev_loop_modify env s fd events).2
  | Op.add_event evt => xio_ev_loop_add_event s evt
  | Op.remove_event evt => xio_ev_loop_remove_event s evt
  | Op.stop => xio_ev_loop_stop env s

/-- The calls of one callback, in order. -/
def run_ops (env : Env) (s : State) (ops : List Op) : State :=
  ops.foldl (apply_op env) s

/-- The call `tev->event_handler(tev->data)` of `xio_ev_loop_exec_scheduled`. -/
def call_event_handler (env : Env) (s : State) (tev : Nat) : State :=
  let s1 := record s (Trace.event_handler tev (s.evt_handler tev) (s.evt_data tev))
  run_ops env s1 (env.event_handler s1.log)

/-- The action recorded for the call `tev->handler(tev->fd, events[i].events,
tev->data)`: the record, the function and the three arguments as read from
the record in state `s`. -/
def handler_trace (s : State) (tev : Nat) (events : Nat) : Trace :=
  Trace.handler tev (s.tev_handler tev) (s.tev_fd tev) events (s.tev_data tev)

/-- The call `tev->handler(tev->fd, events[i].events, tev->data)` of
`xio_ev_loop_run_helper`. -/
def call_handler (env : Env) (s : State) (tev : Nat) (events : Nat) : State :=
  let s1 := record s (handler_trace s tev events)
  run_ops env s1 (env.handler s1.log)

/-! ## `xio_ev_loop_exec_scheduled` -/

/-- The `list_for_each_entry_safe(tev, tevn, &loop->events_list, ..)` loop of
`xio_ev_loop_exec_scheduled` with the cursor `pos` (the node of `tev`) and the
saved successor `n` (the node of `tevn`).  The macro of `list.h` is
`for (pos = first, n = pos->next; &pos->member != head; pos = n, n = n->next)`:
the loop ends when the cursor is the list head, or by `break` after the entry
that is `last_sched`, and the step reads `n->next` after the body has run.
The body is `xio_ev_loop_remove_event(loop, tev); tev->event_handler(tev->data);
if (&tev->events_list_entry == last_sched) break;`. -/
def exec_scheduled_loop (env : Env) (last_sched : Option Nat) :
    Nat → State → Option Nat → Option Nat → Option State
  | 0, _, _, _ => none
  | fuel + 1, s, pos, n =>
    match pos with
    | none => some s
    | some tev =>
      let s1 := xio_ev_loop_remove_event s tev
      let s2 := call_event_handler env s1 tev
      if some tev = last_sched then some s2
      else exec_scheduled_loop env last_sched fuel s2 n (s2.events_list.next n)

/-- The function `xio_ev_loop_exec_scheduled`; the boolean is `work_remains`. -/
def xio_ev_loop_exec_scheduled (fuel : Nat) (env : Env) (s : State) : Option (Bool × State) :=
  if !list_empty s.events_list none then
    let last_sched := s.events_list.prev none
    let pos := s.events_list.next none
    match exec_scheduled_loop env last_sched fuel s pos (s.events_list.next pos) with
    | none => none
    | some s1 => some (!list_empty s1.events_list none, s1)
  else some (false, s)

/-! ## `xio_ev_loop_run_helper` -/

/-- The loop `while (loop->deleted_events_nr)
ufree(loop->deleted_events[--loop->deleted_events_nr])`, by the number of
rounds left. -/
def free_deleted_loop : Nat → State → State
  | 0, s => s
  | n + 1, s =>
    let s1 : State := { s with deleted_events_nr := s.deleted_events_nr - 1 }
    free_deleted_loop n (record s1 (Trace.ufree (s1.deleted_events s1.deleted_events_nr)))

/-- The two places of `xio_ev_loop_run_helper` (and the one of
`xio_ev_loop_destroy`) that free the deleted event handlers. -/
def free_deleted_events (s : State) : State :=
  free_deleted_loop s.deleted_events_nr s

/-- The scan `for (j = 0; j < loop->deleted_events_nr; j++) if
(loop->deleted_events[j] == tev) ..` guarded by `loop->deleted_events_nr`. -/
def deleted_found (s : State) (tev : Nat) : Bool :=
  (List.range s.deleted_events_nr).any (fun j => s.deleted_events j == tev)

/-- The body of the `for (i = 0; i < nevent; i++)` loop for one event. -/
def dispatch_event (env : Env) (s : State) (e : EpollEvent) : State :=
  if e.ptr ≠ 0 then
    if deleted_found s e.ptr then s
    else call_handler env s e.ptr e.events
  else
    if s.wakeup_armed then { s with wakeup_armed := false, stop_loop := true }
    else s

/-- The `for (i = 0; i < nevent; i++)` loop over the batch. -/
def dispatch_batch (env : Env) (s : State) : List EpollEvent → State
  | [] => s
  | e :: rest => dispatch_batch env (dispatch_event env s e) rest

/-- The shutdown drain `while (!list_empty(&loop->events_list))
xio_ev_loop_exec_scheduled(loop)`. -/
def run_helper_drain (env : Env) : Nat → State → Option State
  | 0, _ => none
  | fuel + 1, s =>
    if !list_empty s.events_list none then
      match xio_ev_loop_exec_scheduled fuel env s with
      | none => none
      | some r => run_helper_drain env fuel r.2
    else some s

/-- The end of `xio_ev_loop_run_helper` once `stop_loop` is set: the shutdown
drain, the free of the deleted event handlers, the reset of `stop_loop` and
`wakeup_armed`, and `return 0`. -/
def run_helper_exit (env : Env) (fuel : Nat) (s : State) : Option (Int × State) :=
  match run_helper_drain env fuel s with
  | none => none
  | some s1 =>
    let s2 := free_deleted_events s1
    some (0, { s2 with stop_loop := false, wakeup_armed := false })

/-- What `xio_ev_loop_run_helper` does with the answer `batch` of a successful
`epoll_wait`: dispatch under `in_dispatch` when `nevent > 0`, the timed-out
rule when `nevent == 0`. -/
def run_helper_events (env : Env) (s : State) (tmout timeout : Int)
    (batch : List EpollEvent) : State :=
  if batch ≠ [] then
    let s1 := dispatch_batch env { s with in_dispatch := true } batch
    { s1 with in_dispatch := false }
  else if tmout ≠ 0 ∨ timeout = 0 then { s with stop_loop := true }
  else s

/-- The value of a C `int` expression whose mathematical value is `x`: the
32-bit two's complement value, which wraps around on overflow. -/
def int_wrap (x : Int) : Int :=
  (x + 2147483648) % 4294967296 - 2147483648

/-- The block "calculate the remaining timeout" of `xio_ev_loop_run_helper`;
the result is the state and the new value of `timeout`.  `wait_time`,
`time_passed` and `timeout` are `int`s, so the difference
`wait_time - time_passed` is taken in 32-bit arithmetic. -/
def run_helper_remaining (env : Env) (s : State) (wait_time timeout : Int) : State × Int :=
  if timeout ≠ -1 ∧ s.stop_loop = false then
    let time_passed := env.time_passed s.log
    if time_passed ≥ wait_time then ({ s with stop_loop := true }, timeout)
    else (s, int_wrap (wait_time - time_passed))
  else (s, timeout)

/-- The block "free deleted event handlers" guarded by
`unlikely(loop->deleted_events_nr)`, followed by the call
`epoll_wait(loop->efd, events, ARRAY_SIZE(events), tmout)`: the state in which
the kernel is asked. -/
def run_helper_wait (s : State) (tmout : Int) : State :=
  record (if s.deleted_events_nr ≠ 0 then free_deleted_events s else s) (Trace.epoll_wait tmout)

/-- The function `xio_ev_loop_run_helper` from the label `retry` on, with
`wait_time` the timeout the caller gave and `timeout` its current value. -/
def run_helper_retry (env : Env) (wait_time : Int) : Nat → State → Int → Option (Int × State)
  | 0, _, _ => none
  | fuel + 1, s, timeout =>
    match xio_ev_loop_exec_scheduled fuel env s with
    | none => none
    | some (work_remains, s1) =>
      let tmout : Int := if work_remains then 0 else timeout
      let s3 := run_helper_wait s1 tmout
      match env.epoll_wait s3.log with
      | WaitResult.error errno =>
        if errno ≠ EINTR then some (-1, { s3 with xio_errno := errno })
        else run_helper_retry env wait_time fuel s3 timeout
      | WaitResult.ready batch =>
        let s4 := run_helper_events env s3 tmout timeout batch
        let r := run_helper_remaining env s4 wait_time timeout
        if r.1.stop_loop = false then run_helper_retry env wait_time fuel r.1 r.2
        else run_helper_exit env fuel r.1

/-- The function `xio_ev_loop_run_helper`. -/
def xio_ev_loop_run_helper (fuel : Nat) (env : Env) (s : State) (timeout : Int) :
    Option (Int × State) :=
  run_helper_retry env timeout fuel s timeout

/-- The function `xio_ev_loop_run_timeout`. -/
def xio_ev_loop_run_timeout (fuel : Nat) (env : Env) (s : State) (timeout_msec : Int) :
    Option (Int × State) :=
  xio_ev_loop_run_helper fuel env s timeout_msec

/-- The function `xio_ev_loop_run`. -/
def xio_ev_loop_run (fuel : Nat) (env : Env) (s : State) : Option (Int × State) :=
  xio_ev_loop_run_helper fuel env s (-1)

/-! ## `xio_ev_loop_create`, `xio_ev_loop_destroy`, `xio_ev_loop_handler` -/

/-- The empty mask `0` that `xio_ev_loop_create` passes for the wakeup
descriptor. -/
def XIO_NONE : XioEvents :=
  { pollin := false, pollout := false, pollrdhup := false, pollet := false, oneshot := false }

/-- The function `xio_ev_loop_create` in the memory `mem`, where `efd` is what
`epoll_create` returns, `wakeup_event` what `eventfd` returns and `retval`
what `eventfd_write` returns; `none` is the `NULL` result (the clean-up of the
failure paths is not part of the result).  The structure comes zeroed from
`ucalloc`; the two list heads are initialised (the Registry is the empty
list), then the wakeup descriptor is added with mask 0 and no callback. -/
def xio_ev_loop_create (env : Env) (mem : State) (efd wakeup_event retval : Int) :
    Option State :=
  let m1 := record mem Trace.ucalloc
  if env.ucalloc m1.log = 0 then none
  else
    let loop : State :=
      { m1 with
        wakeup_event := 0
        in_dispatch := false
        stop_loop := false
        wakeup_armed := false
        deleted_events_nr := 0
        deleted_events := fun _ => 0
        poll_events_list := []
        events_list := INIT_LIST_HEAD m1.events_list none }
    if efd = -1 then none
    else
      let loop1 : State := { loop with wakeup_event := wakeup_event }
      if wakeup_event = -1 then none
      else
        let loop2 := (xio_ev_loop_add env loop1 loop1.wakeup_event XIO_NONE 0 0).2
        if retval ≠ 0 then none else some loop2

/-- The first loop of `xio_ev_loop_destroy`:
`list_for_each_entry_safe(tev, tmp_tev, &loop->poll_events_list, ..)
xio_ev_loop_del(loop, tev->fd)`, over the entries `l` still to visit.  The
body unlinks at most the entry at the cursor (entries before the cursor that
are still linked carry the wakeup descriptor, so the first record with the
cursor's descriptor is the cursor), hence the saved successor is never
unlinked and the loop visits the entries the Registry has at the start, in
order. -/
def destroy_del_loop (env : Env) (s : State) : List Nat → State
  | [] => s
  | tev :: l => destroy_del_loop env (xio_ev_loop_del env s (s.tev_fd tev)).2 l

/-- The second loop of `xio_ev_loop_destroy`:
`list_for_each_entry_safe(tev, tmp_tev, &loop->events_list, ..)
xio_ev_loop_remove_event(loop, tev)`, with the cursor `pos` and the saved
successor `n` as in `exec_scheduled_loop`. -/
def destroy_events_loop : Nat → State → Option Nat → Option Nat → Option State
  | 0, _, _, _ => none
  | fuel + 1, s, pos, n =>
    match pos with
    | none => some s
    | some tev =>
      let s1 := xio_ev_loop_remove_event s tev
      destroy_events_loop fuel s1 n (s1.events_list.next n)

/-- The function `xio_ev_loop_destroy` on a non-`NULL` handle, up to the
release of the structure itself: the two loops, the free of the deleted event
handlers, the delete of the wakeup descriptor, and `wakeup_event = -1`. -/
def xio_ev_loop_destroy (fuel : Nat) (env : Env) (s : State) : Option State :=
  let s1 := destroy_del_loop env s s.poll_events_list
  match destroy_events_loop fuel s1 (s1.events_list.next none)
      (s1.events_list.next (s1.events_list.next none)) with
  | none => none
  | some s2 =>
    let s3 := free_deleted_events s2
    let s4 := (xio_ev_loop_del env s3 s3.wakeup_event).2
    some { s4 with wakeup_event := -1 }

/-- The trampoline `xio_ev_loop_handler(fd, events, data)` with `data` the
reactor: `loop->stop_loop = 1; xio_ev_loop_run_helper(loop, 0)`. -/
def xio_ev_loop_handler (fuel : Nat) (env : Env) (s : State) : Option State :=
  (xio_ev_loop_run_helper fuel env { s with stop_loop := true } 0).map (fun r => r.2)

/-! ## Initial states and views -/

/-- The reactor as `xio_ev_loop_create` leaves it after `ucalloc`, the two
`INIT_LIST_HEAD` calls and the flag initialisation, with wakeup descriptor
`wakeup_event`, in a memory where every work item is as
`xio_ev_loop_init_event` leaves it (`scheduled = 0`, entry linked to itself),
and with an empty history. -/
def State.init (wakeup_event : Int) : State :=
  { wakeup_event := wakeup_event
    in_dispatch := false
    stop_loop := false
    wakeup_armed := false
    deleted_events_nr := 0
    deleted_events := fun _ => 0
    poll_events_list := []
    events_list := { next := fun u => u, prev := fun u => u }
    tev_fd := fun _ => 0
    tev_handler := fun _ => 0
    tev_data := fun _ => 0
    scheduled := fun _ => false
    evt_handler := fun _ => 0
    evt_data := fun _ => 0
    xio_errno := 0
    log := [] }

/-- An environment in which every kernel call succeeds, `epoll_wait` reports
no event, no time passes and no callback calls into the reactor. -/
def Env.quiet : Env :=
  { ucalloc := fun lg => lg.length
    epoll_ctl := fun _ => 0
    errno := fun _ => 0
    epoll_wait := fun _ => WaitResult.ready []
    time_passed := fun _ => 0
    handler := fun _ => []
    event_handler := fun _ => [] }

/-- The work items met when following `next` from node `u` until the list
head, at most `fuel` of them. -/
def walk (L : Links) : Nat → Option Nat → List Nat
  | 0, _ => []
  | fuel + 1, u =>
    match L.next u with
    | none => []
    | some i => i :: walk L fuel (some i)

/-- The work items on the deferred-work queue, first `fuel` of them, in queue
order. -/
def queue_items (fuel : Nat) (s : State) : List Nat :=
  walk s.events_list fuel none

/-- The work items whose deferred-work callback a history records, oldest
invocation first. -/
def invoked_events : List Trace → List Nat
  | [] => []
  | Trace.event_handler tev _ _ :: lg => invoked_events lg ++ [tev]
  | _ :: lg => invoked_events lg

/-- The handler records whose I/O callback a history records, oldest
invocation first. -/
def invoked_handlers : List Trace → List Nat
  | [] => []
  | Trace.handler tev _ _ _ _ :: lg => invoked_handlers lg ++ [tev]
  | _ :: lg => invoked_handlers lg

/-- The waits (`epoll_wait` calls) a history records, oldest first. -/
def waits : List Trace → List Int
  | [] => []
  | Trace.epoll_wait tmout :: lg => waits lg ++ [tmout]
  | _ :: lg => waits lg

/-! ## Predicates on the deferred-work list -/

/-- The nodes from `a` to `b` are linked, in both directions, through exactly
the work items `l`, in this order. -/
def Seg (L : Links) : Option Nat → List Nat → Option Nat → Prop
  | a, [], b => L.next a = b ∧ L.prev b = a
  | a, x :: l, b => L.next a = some x ∧ L.prev (some x) = a ∧ Seg L (some x) l b

/-- The deferred-work list is the circular list of exactly the work items `l`,
in this order, each once. -/
def IsQueue (L : Links) (l : List Nat) : Prop :=
  Seg L none l none ∧ l.Nodup

/-- The queue invariant of the data model: the deferred-work list holds
exactly the work items `l`, each once, and a work item is on it if and only if
its `scheduled` flag is set. -/
def QueueInv (s : State) (l : List Nat) : Prop :=
  IsQueue s.events_list l ∧ ∀ i, i ∈ l ↔ s.scheduled i = true

/-- A reactor whose deferred-work queue is empty and whose work items are all
unscheduled. -/
def FreshQueue (s : State) : Prop :=
  s.events_list.next none = none ∧ s.events_list.prev none = none ∧
    ∀ i, s.scheduled i = false

/-- The states reached from an empty deferred-work queue by enqueue, dequeue
and drain-scheduled calls that return, whatever the callbacks do. -/
inductive Reachable : State → Prop
  | fresh (s : State) : FreshQueue s → Reachable s
  | add_event (s : State) (evt : Nat) : Reachable s → Reachable (xio_ev_loop_add_event s evt)
  | remove_event (s : State) (evt : Nat) :
      Reachable s → Reachable (xio_ev_loop_remove_event s evt)
  | exec_scheduled (fuel : Nat) (env : Env) (s : State) (r : Bool × State) :
      Reachable s → xio_ev_loop_exec_scheduled fuel env s = some r → Reachable r.2

/-- The queue after one call of a callback. -/
def queue_after (s : State) (l : List Nat) : Op → List Nat
  | Op.add_event evt => if s.scheduled evt = true then l else l ++ [evt]
  | Op.remove_event evt => l.erase evt
  | _ => l

/-- The actions that the registration calls and `stop` record: allocator calls
and `epoll_ctl` calls. -/
def Trace.isCtl : Trace → Bool
  | Trace.ucalloc => true
  | Trace.ufree _ => true
  | Trace.epoll_ctl_add _ _ _ => true
  | Trace.epoll_ctl_del _ => true
  | Trace.epoll_ctl_mod _ _ _ => true
  | Trace.epoll_wait _ => false
  | Trace.handler _ _ _ _ _ => false
  | Trace.event_handler _ _ _ => false

/-- The history `lg1` is the history `lg` followed by allocator and
`epoll_ctl` calls only. -/
def CtlExt (lg lg1 : List Trace) : Prop :=
  ∃ new, lg1 = new ++ lg ∧ ∀ t ∈ new, t.isCtl = true

/-! ## Concrete reactors and environments -/

/-- The empty reactor after enqueueing work items 1 and 2. -/
def queue12 : State :=
  xio_ev_loop_add_event (xio_ev_loop_add_event (State.init 0) 1) 2

/-- The empty reactor after enqueueing work items 1, 2 and 3. -/
def queue123 : State :=
  xio_ev_loop_add_event queue12 3

/-- The quiet environment, except that the deferred-work callback of work
item 1 makes the calls `ops`. -/
def env_item1 (ops : List Op) : Env :=
  { Env.quiet with
    event_handler := fun lg =>
      match lg with
      | Trace.event_handler 1 _ _ :: _ => ops
      | _ => [] }

/-- The quiet environment, except that the deferred-work callback of work
item 1 enqueues itself again, enqueues work item 4 and dequeues itself. -/
def env_requeue : Env :=
  env_item1 [Op.add_event 1, Op.add_event 4, Op.remove_event 1]

/-- An environment whose allocator returns the address 7 and whose kernel
rejects every `epoll_ctl` call with `EEXIST`. -/
def env_reject : Env :=
  { Env.quiet with
    ucalloc := fun _ => 7
    epoll_ctl := fun _ => -1
    errno := fun _ => EEXIST }

/-- The record address `tev` is in the occupied part of the deletion-deferral
buffer. -/
def InDeleted (s : State) (tev : Nat) : Prop :=
  ∃ j, j < s.deleted_events_nr ∧ s.deleted_events j = tev

/-- The actions recorded outside batch dispatch and outside the kernel wait:
allocator calls, `epoll_ctl` calls and deferred-work callbacks. -/
def Trace.isDeferred : Trace → Bool
  | Trace.event_handler _ _ _ => true
  | t => t.isCtl

/-- The history `lg1` is the history `lg` followed by actions that satisfy
`p` only. -/
def LogExt (p : Trace → Bool) (lg lg1 : List Trace) : Prop :=
  ∃ new, lg1 = new ++ lg ∧ ∀ t ∈ new, p t = true

/-- A reactor with wakeup descriptor 0 and two registered descriptors 1 and 2
(the record of a descriptor is at the address of the same number) whose
deletion-deferral buffer is full: it holds the 1024 records 100 .. 1123,
unregistered since the last kernel wait. -/
def full_buffer : State :=
  { State.init 0 with
    in_dispatch := true
    deleted_events_nr := 1024
    deleted_events := fun j => j + 100
    poll_events_list := [1, 2]
    tev_fd := fun tev => tev }

/-- The quiet environment, except that the I/O callback of the record at
address 1 makes the calls `ops`. -/
def env_record1 (ops : List Op) : Env :=
  { Env.quiet with
    handler := fun lg =>
      match lg with
      | Trace.handler 1 _ _ _ _ :: _ => ops
      | _ => [] }

/-- The environment of `env_record1 ops` with a kernel whose every wait
answers the two events of records 1 and 2. -/
def env_batch (ops : List Op) : Env :=
  { env_record1 ops with
    epoll_wait := fun _ => WaitResult.ready [{ ptr := 1, events := 1 }, { ptr := 2, events := 1 }] }

/-- An environment whose kernel answers every wait with the event of record 1,
whose I/O callbacks call `stop` and enqueue work item 1, and whose
deferred-work callbacks enqueue work item 1 again. -/
def env_spin : Env :=
  { Env.quiet with
    epoll_wait := fun _ => WaitResult.ready [{ ptr := 1, events := 1 }]
    handler := fun _ => [Op.stop, Op.add_event 1]
    event_handler := fun _ => [Op.add_event 1] }

/-- The value of `EBADF` in `errno.h`. -/
def EBADF : Int := 9

/-- An environment whose kernel fails every wait with `EBADF`. -/
def env_wait_fails : Env :=
  { Env.quiet with epoll_wait := fun _ => WaitResult.error EBADF }

/-! ## Invariants of callbacks and runs -/

/-- The property `P` of states is kept by every call a callback can make, by
recording a callback invocation or a kernel wait, and by any change of the
three flags and the error code. -/
structure CallbackInv (env : Env) (P : State → Prop) : Prop where
  op : ∀ (s : State) (o : Op), P s → P (apply_op env s o)
  call : ∀ (s : State) (t : Trace), t.isCtl = false → P s → P (record s t)
  flags : ∀ (s : State) (b1 b2 b3 : Bool) (e : Int), P s →
    P { s with in_dispatch := b1, stop_loop := b2, wakeup_armed := b3, xio_errno := e }

/-- The property `P` is a `CallbackInv` that is also kept by the free of the
deleted event handlers. -/
structure RunInv (env : Env) (P : State → Prop) : Prop where
  callback : CallbackInv env P
  free : ∀ s : State, P s → P (free_deleted_events s)

/-- The states a reactor can be in: what `xio_ev_loop_create` returns, and
from there what any call of a callback (`xio_ev_loop_add`, `xio_ev_loop_del`,
`xio_ev_loop_modify`, `xio_ev_loop_add_event`, `xio_ev_loop_remove_event`,
`xio_ev_loop_stop`), any run or trampoline call that returns, and, inside a
run, any drain, wait or batch dispatch leads to. -/
inductive LoopReachable (env : Env) : State → Prop
  | create (mem : State) (efd wakeup_event retval : Int) (s : State) :
      xio_ev_loop_create env mem efd wakeup_event retval = some s → LoopReachable env s
  | op (s : State) (o : Op) : LoopReachable env s → LoopReachable env (apply_op env s o)
  | run (fuel : Nat) (s : State) (timeout : Int) (r : Int × State) :
      LoopReachable env s → xio_ev_loop_run_helper fuel env s timeout = some r →
      LoopReachable env r.2
  | handler (fuel : Nat) (s s1 : State) :
      LoopReachable env s → xio_ev_loop_handler fuel env s = some s1 → LoopReachable env s1
  | exec_scheduled (fuel : Nat) (s : State) (r : Bool × State) :
      LoopReachable env s → xio_ev_loop_exec_scheduled fuel env s = some r →
      LoopReachable env r.2
  | wait (s : State) (tmout : Int) : LoopReachable env s → LoopReachable env (run_helper_wait s tmout)
  | dispatch (s : State) (batch : List EpollEvent) :
      LoopReachable env s →
      LoopReachable env (dispatch_batch env { s with in_dispatch := true } batch)

/-- Scenario S3 of the spec: work items 1 and 2 are queued, the callback of
item 1 enqueues item 3, and the reactor is run with timeout 0. -/
def scenario_s3 : Option (Int × State) :=
  xio_ev_loop_run_helper 6 (env_item1 [Op.add_event 3]) queue12 0

/-- The reactor created in the empty memory by a kernel that gives the epoll
descriptor 3 and the wakeup descriptor 4. -/
def created : Option State :=
  xio_ev_loop_create Env.quiet (State.init 0) 3 4 0

/-- The state of `created` when it is not `NULL`, the empty memory else. -/
def created_loop : State :=
  created.getD (State.init 0)

/-- The reactor `created_loop` after the registration of descriptor 5. -/
def registered5 : State :=
  apply_op Env.quiet created_loop (Op.add 5 XIO_POLLIN_ONESHOT 11 12)

/-- The kernel waits among the recorded actions. -/
def Trace.isWait : Trace → Bool
  | Trace.epoll_wait _ => true
  | _ => false

/-! ## The reference behaviour of one generation -/

/-- The work items a callback enqueues, in the order of its calls. -/
def enqueued_items : List Op → List Nat
  | [] => []
  | Op.add_event evt :: ops => evt :: enqueued_items ops
  | _ :: ops => enqueued_items ops

/-- The reference behaviour of one generation, after the words of the spec,
on a queue of work items: the items `pending` of the snapshot are popped from
the head one by one and their callbacks invoked, and what a callback enqueues
is appended to the tail of the queue `queue` of the items enqueued during the
drain.  The result is the history and the queue left, callbacks doing nothing
but enqueueing.  The callback and datum of an item are read in `s`. -/
def reference_generation (env : Env) (s : State) :
    List Trace → List Nat → List Nat → List Trace × List Nat
  | lg, [], queue => (lg, queue)
  | lg, x :: pending, queue =>
    reference_generation env s
      (Trace.event_handler x (s.evt_handler x) (s.evt_data x) :: lg) pending
      (queue ++ enqueued_items
        (env.event_handler (Trace.event_handler x (s.evt_handler x) (s.evt_data x) :: lg)))

/-- The callbacks of the items `pending`, run in this order from the history
`lg`, only enqueue, and only work items that are not scheduled at that
moment: not pending and not already enqueued in `queue`. -/
def OnlyFreshEnqueues (env : Env) (s : State) : List Trace → List Nat → List Nat → Prop
  | _, [], _ => True
  | lg, x :: pending, queue =>
    (∀ o ∈ env.event_handler (Trace.event_handler x (s.evt_handler x) (s.evt_data x) :: lg),
      ∃ evt, o = Op.add_event evt) ∧
    (pending ++ (queue ++ enqueued_items
      (env.event_handler
        (Trace.event_handler x (s.evt_handler x) (s.evt_data x) :: lg)))).Nodup ∧
    OnlyFreshEnqueues env s
      (Trace.event_handler x (s.evt_handler x) (s.evt_data x) :: lg) pending
      (queue ++ enqueued_items
        (env.event_handler (Trace.event_handler x (s.evt_handler x) (s.evt_data x) :: lg)))

/-- The reactor `full_buffer` outside batch dispatch: two registered
descriptors 1 and 2 and 1024 records in the deletion-deferral buffer. -/
def full_idle : State :=
  { full_buffer with in_dispatch := false }

/-- The reactor `registered5` after enqueueing work item 1. -/
def registered5_work : State :=
  xio_ev_loop_add_event registered5 1

/-! ## The allocator and the kernel watch set -/

/-- The addresses that the allocator `alloc` has handed out and that have not
been freed since, after the history `lg`: a `ucalloc` that does not return
`NULL` adds its result, `ufree(p)` removes `p`. -/
def live (alloc : List Trace → Nat) : List Trace → List Nat
  | [] => []
  | Trace.ucalloc :: lg =>
    if alloc (Trace.ucalloc :: lg) = 0 then live alloc lg
    else alloc (Trace.ucalloc :: lg) :: live alloc lg
  | Trace.ufree p :: lg => (live alloc lg).filter (fun q => decide (q ≠ p))
  | Trace.epoll_ctl_add _ _ _ :: lg => live alloc lg
  | Trace.epoll_ctl_del _ :: lg => live alloc lg
  | Trace.epoll_ctl_mod _ _ _ :: lg => live alloc lg
  | Trace.epoll_wait _ :: lg => live alloc lg
  | Trace.handler _ _ _ _ _ :: lg => live alloc lg
  | Trace.event_handler _ _ _ :: lg => live alloc lg

/-- The watch set of the epoll instance after the history `lg`, as pairs of a
descriptor and its opaque pointer, for a kernel whose `epoll_ctl` answers are
`ctl`: the set changes only through the `epoll_ctl` calls of the history that
the kernel answered with 0.  `EPOLL_CTL_ADD` adds the pair, `EPOLL_CTL_DEL`
removes the descriptor, `EPOLL_CTL_MOD` replaces the opaque pointer of the
descriptor. -/
def kwatch (ctl : List Trace → Int) : List Trace → List (Int × Nat)
  | [] => []
  | Trace.epoll_ctl_add fd ev ptr :: lg =>
    if ctl (Trace.epoll_ctl_add fd ev ptr :: lg) = 0 then (fd, ptr) :: kwatch ctl lg
    else kwatch ctl lg
  | Trace.epoll_ctl_del fd :: lg =>
    if ctl (Trace.epoll_ctl_del fd :: lg) = 0 then
      (kwatch ctl lg).filter (fun e => decide (e.1 ≠ fd))
    else kwatch ctl lg
  | Trace.epoll_ctl_mod fd ev ptr :: lg =>
    if ctl (Trace.epoll_ctl_mod fd ev ptr :: lg) = 0 then
      (kwatch ctl lg).map (fun e => if e.1 = fd then (fd, ptr) else e)
    else kwatch ctl lg
  | Trace.ucalloc :: lg => kwatch ctl lg
  | Trace.ufree _ :: lg => kwatch ctl lg
  | Trace.epoll_wait _ :: lg => kwatch ctl lg
  | Trace.handler _ _ _ _ _ :: lg => kwatch ctl lg
  | Trace.event_handler _ _ _ :: lg => kwatch ctl lg

/-- The descriptors of the kernel watch set. -/
def kwatch_fds (ctl : List Trace → Int) (lg : List Trace) : List Int :=
  (kwatch ctl lg).map Prod.fst

/-- The allocator never returns an address that is allocated and not yet
freed. -/
def AllocatorFresh (env : Env) : Prop :=
  ∀ lg, env.ucalloc (Trace.ucalloc :: lg) ∉ live env.ucalloc lg

/-- The kernel rejects an `EPOLL_CTL_ADD` for a descriptor that is in its
watch set. -/
def RejectsWatchedAdd (env : Env) : Prop :=
  ∀ lg fd ev ptr, fd ∈ kwatch_fds env.epoll_ctl lg →
    env.epoll_ctl (Trace.epoll_ctl_add fd ev ptr :: lg) ≠ 0

/-- No record of the Registry carries the wakeup descriptor. -/
def WakeInv (s : State) : Prop :=
  ∀ p ∈ s.poll_events_list, s.tev_fd p ≠ s.wakeup_event

/-- The records of the Registry are distinct and allocated; the records of
the deletion-deferral buffer are allocated and not in the Registry. -/
structure MemInv (env : Env) (s : State) : Prop where
  nodup : s.poll_events_list.Nodup
  reg_live : ∀ p ∈ s.poll_events_list, p ∈ live env.ucalloc s.log
  del_live : ∀ p, InDeleted s p → p ∈ live env.ucalloc s.log ∧ p ∉ s.poll_events_list

/-- The descriptors of the records of the Registry are distinct and in the
kernel watch set. -/
structure FdInv (env : Env) (s : State) : Prop where
  fds : (s.poll_events_list.map s.tev_fd).Nodup
  watched : ∀ p ∈ s.poll_events_list, s.tev_fd p ∈ kwatch_fds env.epoll_ctl s.log

/-- The watch set of a kernel that accepts an `EPOLL_CTL_ADD` exactly for a
descriptor it does not watch, and an `EPOLL_CTL_DEL` or `EPOLL_CTL_MOD`
exactly for a descriptor it watches. -/
def kernel_set : List Trace → List (Int × Nat)
  | [] => []
  | Trace.epoll_ctl_add fd _ ptr :: lg =>
    if fd ∈ (kernel_set lg).map Prod.fst then kernel_set lg else (fd, ptr) :: kernel_set lg
  | Trace.epoll_ctl_del fd :: lg => (kernel_set lg).filter (fun e => decide (e.1 ≠ fd))
  | Trace.epoll_ctl_mod fd _ ptr :: lg =>
    (kernel_set lg).map (fun e => if e.1 = fd then (fd, ptr) else e)
  | Trace.ucalloc :: lg => kernel_set lg
  | Trace.ufree _ :: lg => kernel_set lg
  | Trace.epoll_wait _ :: lg => kernel_set lg
  | Trace.handler _ _ _ _ _ :: lg => kernel_set lg
  | Trace.event_handler _ _ _ :: lg => kernel_set lg

/-- The `epoll_ctl` answers of that kernel: -1 for the add of a watched
descriptor and for the delete or modify of a descriptor that is not watched,
0 else. -/
def kernel_ctl : List Trace → Int
  | Trace.epoll_ctl_add fd _ _ :: lg => if fd ∈ (kernel_set lg).map Prod.fst then -1 else 0
  | Trace.epoll_ctl_del fd :: lg => if fd ∈ (kernel_set lg).map Prod.fst then 0 else -1
  | Trace.epoll_ctl_mod fd _ _ :: lg => if fd ∈ (kernel_set lg).map Prod.fst then 0 else -1
  | _ => 0

/-- The `epoll_wait` answers of that kernel when every watched descriptor is
readable: one event per entry of the watch set, with its opaque pointer. -/
def kernel_wait : List Trace → WaitResult
  | Trace.epoll_wait _ :: lg =>
    WaitResult.ready ((kernel_set lg).map (fun e => { ptr := e.2, events := 1 }))
  | _ => WaitResult.ready []

/-- The quiet environment with the kernel `kernel_ctl`, `kernel_wait`. -/
def env_kernel : Env :=
  { Env.quiet with
    epoll_ctl := kernel_ctl
    errno := fun _ => EEXIST
    epoll_wait := kernel_wait }

/-- The reactor created under `env_kernel` with epoll descriptor 3 and wakeup
descriptor 4 (the empty memory when creation fails). -/
def kernel_created : State :=
  (xio_ev_loop_create env_kernel (State.init 0) 3 4 0).getD (State.init 0)

/-- The reactor `kernel_created` after two registrations of descriptor 5 and
one of descriptor 6. -/
def kernel_registered : State :=
  run_ops env_kernel kernel_created
    [Op.add 5 XIO_POLLIN_ONESHOT 11 12, Op.add 5 XIO_POLLIN_ONESHOT 13 14,
      Op.add 6 XIO_POLLIN_ONESHOT 15 16]

/-- The environment `env_kernel` with I/O callbacks that unregister
descriptor 5. -/
def env_kernel_del : Env :=
  { env_kernel with handler := fun _ => [Op.del 5] }

/-! ## The reference queue of a drain -/

/-- The queue `l` after one call of a callback, on the list of queued work
items alone: `xio_ev_loop_add_event` appends an item that is not queued,
`xio_ev_loop_remove_event` takes the item off, the other calls leave the
queue as it is. -/
def queue_step (l : List Nat) : Op → List Nat
  | Op.add_event evt => if evt ∈ l then l else l ++ [evt]
  | Op.remove_event evt => l.erase evt
  | _ => l

/-- The reference queue of a drain: the queue `q` of the start, replayed
through the deferred-work callbacks of the history `new` (newest first) that
follows the history `base`: an item is taken off the queue when its callback
is invoked, and the calls of the callback are applied in order. -/
def drain_queue (env : Env) (base : List Trace) : List Trace → List Nat → List Nat
  | [], q => q
  | Trace.event_handler tev fn data :: new, q =>
    (env.event_handler (Trace.event_handler tev fn data :: (new ++ base))).foldl queue_step
      ((drain_queue env base new q).erase tev)
  | Trace.ucalloc :: new, q => drain_queue env base new q
  | Trace.ufree _ :: new, q => drain_queue env base new q
  | Trace.epoll_ctl_add _ _ _ :: new, q => drain_queue env base new q
  | Trace.epoll_ctl_del _ :: new, q => drain_queue env base new q
  | Trace.epoll_ctl_mod _ _ _ :: new, q => drain_queue env base new q
  | Trace.epoll_wait _ :: new, q => drain_queue env base new q
  | Trace.handler _ _ _ _ _ :: new, q => drain_queue env base new q

/-- The work items that the deferred-work callbacks of the history `new`
(newest first, following the history `base`) asked to enqueue. -/
def drain_enqueued (env : Env) (base : List Trace) : List Trace → List Nat
  | [] => []
  | Trace.event_handler tev fn data :: new =>
    drain_enqueued env base new ++
      enqueued_items (env.event_handler (Trace.event_handler tev fn data :: (new ++ base)))
  | Trace.ucalloc :: new => drain_enqueued env base new
  | Trace.ufree _ :: new => drain_enqueued env base new
  | Trace.epoll_ctl_add _ _ _ :: new => drain_enqueued env base new
  | Trace.epoll_ctl_del _ :: new => drain_enqueued env base new
  | Trace.epoll_ctl_mod _ _ _ :: new => drain_enqueued env base new
  | Trace.epoll_wait _ :: new => drain_enqueued env base new
  | Trace.handler _ _ _ _ _ :: new => drain_enqueued env base new

/-! # Theorems -/

/-! ## The list primitives keep the list a list -/

theorem seg_append_cons (L : Links) (l1 : List Nat) (x : Nat) (l2 : List Nat) :
    ∀ a b, Seg L a (l1 ++ x :: l2) b ↔ Seg L a l1 (some x) ∧ Seg L (some x) l2 b := by
  induction l1 with
  | nil =>
    intro a b
    simp only [List.nil_append, Seg]
    tauto
  | cons y l1 ih =>
    intro a b
    rw [List.cons_append]
    simp only [Seg]
    rw [ih]
    tauto

theorem seg_snoc (L : Links) (l : List Nat) (z : Nat) (a b : Option Nat) :
    Seg L a (l ++ [z]) b ↔ Seg L a l (some z) ∧ L.next (some z) = b ∧ L.prev b = some z := by
  rw [seg_append_cons]
  simp only [Seg]

theorem seg_frame (L L1 : Links) (l : List Nat) :
    ∀ a b, Seg L a l b →
      (∀ u, (u = a ∨ ∃ i ∈ l, u = some i) → L1.next u = L.next u) →
      (∀ v, (v = b ∨ ∃ i ∈ l, v = some i) → L1.prev v = L.prev v) →
      Seg L1 a l b := by
  induction l with
  | nil =>
    intro a b h hn hp
    simp only [Seg] at h ⊢
    rw [hn a (Or.inl rfl), hp b (Or.inl rfl)]
    exact h
  | cons x l ih =>
    intro a b h hn hp
    simp only [Seg] at h ⊢
    refine ⟨?_, ?_, ?_⟩
    · rw [hn a (Or.inl rfl)]; exact h.1
    · rw [hp (some x) (Or.inr ⟨x, List.mem_cons_self _ _, rfl⟩)]; exact h.2.1
    · apply ih _ _ h.2.2
      · intro u hu
        apply hn
        rcases hu with hu | ⟨i, hi, hu⟩
        · exact Or.inr ⟨x, List.mem_cons_self _ _, hu⟩
        · exact Or.inr ⟨i, List.mem_cons_of_mem _ hi, hu⟩
      · intro v hv
        apply hp
        rcases hv with hv | ⟨i, hi, hv⟩
        · exact Or.inl hv
        · exact Or.inr ⟨i, List.mem_cons_of_mem _ hi, hv⟩

theorem seg_prev_mem (L : Links) (l : List Nat) :
    ∀ a b, Seg L a l b → L.prev b = a ∨ ∃ i ∈ l, L.prev b = some i := by
  intro a b h
  rcases List.eq_nil_or_concat l with rfl | ⟨l1, z, rfl⟩
  · exact Or.inl h.2
  · rw [List.concat_eq_append] at h ⊢
    rw [seg_snoc] at h
    exact Or.inr ⟨z, by simp, h.2.2⟩

theorem seg_retarget (L L1 : Links) (l : List Nat) (a b c : Option Nat)
    (h : Seg L a l b) (hd : ∀ i ∈ l, a ≠ some i) (hl : l.Nodup)
    (hn : ∀ u, (u = a ∨ ∃ i ∈ l, u = some i) → u ≠ L.prev b → L1.next u = L.next u)
    (hp : ∀ i ∈ l, L1.prev (some i) = L.prev (some i))
    (h1 : L1.next (L.prev b) = c) (h2 : L1.prev c = L.prev b) :
    Seg L1 a l c := by
  rcases List.eq_nil_or_concat l with rfl | ⟨l1, z, rfl⟩
  · simp only [Seg] at h ⊢
    rw [h.2] at h1 h2
    exact ⟨h1, h2⟩
  · rw [List.concat_eq_append] at h hd hl hn hp ⊢
    rw [seg_snoc] at h ⊢
    obtain ⟨hs, hz, hb⟩ := h
    rw [hb] at h1 h2 hn
    refine ⟨?_, h1, h2⟩
    have hl1 : z ∉ l1 := by
      intro hz1
      have := List.nodup_append.1 hl
      exact this.2.2 hz1 (List.mem_singleton_self z) 
    apply seg_frame L L1 l1 a (some z) hs
    · intro u hu
      rcases hu with hu | ⟨i, hi, hu⟩
      · apply hn u (Or.inl hu)
        rw [hu]
        exact hd z (by simp)
      · apply hn u (Or.inr ⟨i, by simp [hi], hu⟩)
        rw [hu]
        intro e
        exact hl1 (by cases e; exact hi)
    · intro v hv
      rcases hv with hv | ⟨i, hi, hv⟩
      · rw [hv]; exact hp z (by simp)
      · rw [hv]; exact hp i (by simp [hi])


theorem isQueue_add_tail (L : Links) (l : List Nat) (x : Nat)
    (h : IsQueue L l) (hx : x ∉ l) :
    IsQueue (list_add_tail L (some x) none) (l ++ [x]) := by
  obtain ⟨hs, hl⟩ := h
  have hpx : L.prev none ≠ some x := by
    rcases seg_prev_mem L l none none hs with e | ⟨i, hi, e⟩
    · rw [e]; simp
    · rw [e]; intro c; cases c; exact hx hi
  refine ⟨?_, ?_⟩
  · rw [seg_snoc]
    refine ⟨?_, ?_, ?_⟩
    · apply seg_retarget L _ l none none (some x) hs (by simp) hl
      · intro u hu hne
        have hux : u ≠ some x := by
          rcases hu with hu | ⟨i, hi, hu⟩
          · rw [hu]; simp
          · rw [hu]; intro c; cases c; exact hx hi
        simp [list_add_tail, list_add_between, Function.update_apply, hne, hux]
      · intro i hi
        have hix : i ≠ x := fun c => hx (c ▸ hi)
        simp [list_add_tail, list_add_between, Function.update_apply, hix]
      · simp [list_add_tail, list_add_between, Function.update_apply]
      · simp [list_add_tail, list_add_between, Function.update_apply]
    · simp [list_add_tail, list_add_between, Function.update_apply, hpx.symm]
    · simp [list_add_tail, list_add_between, Function.update_apply]
  · rw [List.nodup_append]
    refine ⟨hl, List.nodup_singleton x, ?_⟩
    intro a ha hb
    rw [List.mem_singleton] at hb
    exact hx (hb ▸ ha)

theorem isQueue_del_init (L : Links) (l1 l2 : List Nat) (x : Nat)
    (h : IsQueue L (l1 ++ x :: l2)) :
    IsQueue (list_del_init L (some x)) (l1 ++ l2) := by
  obtain ⟨hs, hl⟩ := h
  rw [seg_append_cons] at hs
  obtain ⟨hs1, hs2⟩ := hs
  have hl' := List.nodup_append.1 hl
  have hl1 : l1.Nodup := hl'.1
  have hl2 : l2.Nodup := (List.nodup_cons.1 hl'.2.1).2
  have hx1 : x ∉ l1 := fun c => hl'.2.2 c (List.mem_cons_self _ _)
  have hx2 : x ∉ l2 := (List.nodup_cons.1 hl'.2.1).1
  have h12 : ∀ i ∈ l1, ∀ j ∈ l2, i ≠ j := by
    intro i hi j hj c
    exact hl'.2.2 hi (c ▸ List.mem_cons_of_mem _ hj)
  have hpx : L.prev (some x) ≠ some x := by
    rcases seg_prev_mem L l1 none (some x) hs1 with e | ⟨i, hi, e⟩
    · rw [e]; simp
    · rw [e]; intro c; cases c; exact hx1 hi
  refine ⟨?_, ?_⟩
  · cases l2 with
    | nil =>
      simp only [Seg] at hs2
      rw [List.append_nil]
      apply seg_retarget L _ l1 none (some x) none hs1 (by simp) hl1
      · intro u hu hne
        have hux : u ≠ some x := by
          rcases hu with hu | ⟨i, hi, hu⟩
          · rw [hu]; simp
          · rw [hu]; intro c; cases c; exact hx1 hi
        simp [list_del_init, list_del_between, INIT_LIST_HEAD, Function.update_apply, hne, hux]
      · intro i hi
        have hix : i ≠ x := fun c => hx1 (c ▸ hi)
        simp [list_del_init, list_del_between, INIT_LIST_HEAD, Function.update_apply, hix, hs2.1]
      · simp [list_del_init, list_del_between, INIT_LIST_HEAD, Function.update_apply, hpx, hs2.1]
      · simp [list_del_init, list_del_between, INIT_LIST_HEAD, Function.update_apply, hs2.1]
    | cons y l2 =>
      simp only [Seg] at hs2
      obtain ⟨hxy, hyx, hs3⟩ := hs2
      have hyx' : y ≠ x := fun c => hx2 (c ▸ List.mem_cons_self _ _)
      have hy2 : y ∉ l2 := (List.nodup_cons.1 hl2).1
      rw [seg_append_cons]
      refine ⟨?_, ?_⟩
      · apply seg_retarget L _ l1 none (some x) (some y) hs1 (by simp) hl1
        · intro u hu hne
          have hux : u ≠ some x := by
            rcases hu with hu | ⟨i, hi, hu⟩
            · rw [hu]; simp
            · rw [hu]; intro c; cases c; exact hx1 hi
          simp [list_del_init, list_del_between, INIT_LIST_HEAD, Function.update_apply, hne, hux]
        · intro i hi
          have hix : i ≠ x := fun c => hx1 (c ▸ hi)
          have hiy : i ≠ y := h12 i hi y (List.mem_cons_self _ _)
          simp [list_del_init, list_del_between, INIT_LIST_HEAD, Function.update_apply, hix, hiy, hxy]
        · simp [list_del_init, list_del_between, INIT_LIST_HEAD, Function.update_apply, hpx, hxy]
        · simp [list_del_init, list_del_between, INIT_LIST_HEAD, Function.update_apply, hxy, hyx']
      · apply seg_frame L _ l2 (some y) none hs3
        · intro u hu
          have hux : u ≠ some x := by
            rcases hu with hu | ⟨i, hi, hu⟩
            · rw [hu]; intro c; cases c; exact hyx' rfl
            · rw [hu]; intro c; cases c; exact hx2 (List.mem_cons_of_mem _ hi)
          have hup : u ≠ L.prev (some x) := by
            rcases seg_prev_mem L l1 none (some x) hs1 with e | ⟨j, hj, e⟩
            · rw [e]
              rcases hu with hu | ⟨i, hi, hu⟩ <;> rw [hu] <;> simp
            · rw [e]
              rcases hu with hu | ⟨i, hi, hu⟩
              · rw [hu]; intro c; injection c with c
                exact h12 j hj y (List.mem_cons_self _ _) c.symm
              · rw [hu]; intro c; injection c with c
                exact h12 j hj i (List.mem_cons_of_mem _ hi) c.symm
          simp [list_del_init, list_del_between, INIT_LIST_HEAD, Function.update_apply, hux, hup]
        · intro v hv
          have hvx : v ≠ some x := by
            rcases hv with hv | ⟨i, hi, hv⟩
            · rw [hv]; simp
            · rw [hv]; intro c; cases c; exact hx2 (List.mem_cons_of_mem _ hi)
          have hvy : v ≠ some y := by
            rcases hv with hv | ⟨i, hi, hv⟩
            · rw [hv]; simp
            · rw [hv]; intro c; cases c; exact hy2 hi
          simp [list_del_init, list_del_between, INIT_LIST_HEAD, Function.update_apply, hvx, hvy, hxy]
  · rw [List.nodup_append]
    exact ⟨hl1, hl2, fun a ha hb => hl'.2.2 ha (List.mem_cons_of_mem _ hb)⟩


/-! ## Enqueue and dequeue keep the queue invariant -/

theorem queueInv_add_event (s : State) (l : List Nat) (evt : Nat) (h : QueueInv s l) :
    QueueInv (xio_ev_loop_add_event s evt) (if s.scheduled evt = true then l else l ++ [evt]) := by
  unfold xio_ev_loop_add_event
  by_cases hs : s.scheduled evt = true
  · simp [hs, h]
  · have hx : evt ∉ l := fun c => hs ((h.2 evt).1 c)
    simp only [Bool.not_eq_true] at hs
    simp only [hs, Bool.not_false, if_true, if_false, Bool.false_eq_true]
    refine ⟨isQueue_add_tail _ _ _ h.1 hx, ?_⟩
    intro i
    by_cases hi : i = evt
    · subst hi; simp
    · simp [Function.update_apply, hi, h.2 i]

theorem queueInv_remove_event (s : State) (l : List Nat) (evt : Nat) (h : QueueInv s l) :
    QueueInv (xio_ev_loop_remove_event s evt) (l.erase evt) := by
  unfold xio_ev_loop_remove_event
  by_cases hs : s.scheduled evt = true
  · have hx : evt ∈ l := (h.2 evt).2 hs
    obtain ⟨l1, l2, hx1, hl, heq⟩ := List.exists_erase_eq hx
    subst hl
    simp only [hs, if_true]
    rw [heq]
    refine ⟨isQueue_del_init _ _ _ _ h.1, ?_⟩
    intro i
    have hnd := h.1.2
    by_cases hi : i = evt
    · subst hi
      have : i ∉ l1 ++ l2 := by
        have h1 := List.nodup_append.1 hnd
        simp only [List.mem_append, not_or]
        exact ⟨hx1, (List.nodup_cons.1 h1.2.1).1⟩
      simpa using this
    · have := h.2 i
      simp only [List.mem_append, List.mem_cons, hi, false_or] at this
      simp [Function.update_apply, hi, this]
  · have hx : evt ∉ l := fun c => hs ((h.2 evt).1 c)
    simp only [hs, if_false, Bool.false_eq_true]
    rw [List.erase_of_not_mem hx]
    exact h

/-! ## What the registration calls and `stop` leave alone -/

theorem add_ctl_queue (env : Env) (s : State) (fd : Int) (ev : EpollEvents) (tev : Nat) :
    (xio_ev_loop_add_ctl env s fd ev tev).2.events_list = s.events_list ∧
    (xio_ev_loop_add_ctl env s fd ev tev).2.scheduled = s.scheduled := by
  unfold xio_ev_loop_add_ctl record
  dsimp only
  split <;> [split; skip] <;> simp

theorem add_queue (env : Env) (s : State) (fd : Int) (events : XioEvents) (handler data : Nat) :
    (xio_ev_loop_add env s fd events handler data).2.events_list = s.events_list ∧
    (xio_ev_loop_add env s fd events handler data).2.scheduled = s.scheduled := by
  unfold xio_ev_loop_add
  dsimp only
  split
  · split
    · simp [record]
    · exact add_ctl_queue _ _ _ _ _
  · exact add_ctl_queue _ _ _ _ _

theorem del_ctl_queue (env : Env) (s : State) (fd : Int) :
    (xio_ev_loop_del_ctl env s fd).2.events_list = s.events_list ∧
    (xio_ev_loop_del_ctl env s fd).2.scheduled = s.scheduled := by
  unfold xio_ev_loop_del_ctl record
  dsimp only
  split <;> simp

theorem del_queue (env : Env) (s : State) (fd : Int) :
    (xio_ev_loop_del env s fd).2.events_list = s.events_list ∧
    (xio_ev_loop_del env s fd).2.scheduled = s.scheduled := by
  unfold xio_ev_loop_del
  split
  · split
    · simp
    · dsimp only
      split
      · exact del_ctl_queue _ _ _
      · exact del_ctl_queue _ _ _
  · exact del_ctl_queue _ _ _

theorem modify_ctl_queue (env : Env) (s : State) (fd : Int) (events : XioEvents) (tev : Nat) :
    (xio_ev_loop_modify_ctl env s fd events tev).2.events_list = s.events_list ∧
    (xio_ev_loop_modify_ctl env s fd events tev).2.scheduled = s.scheduled := by
  unfold xio_ev_loop_modify_ctl record
  dsimp only
  split <;> simp

theorem modify_queue (env : Env) (s : State) (fd : Int) (events : XioEvents) :
    (xio_ev_loop_modify env s fd events).2.events_list = s.events_list ∧
    (xio_ev_loop_modify env s fd events).2.scheduled = s.scheduled := by
  unfold xio_ev_loop_modify
  split
  · split
    · simp
    · exact modify_ctl_queue _ _ _ _ _
  · exact modify_ctl_queue _ _ _ _ _

theorem stop_queue (env : Env) (s : State) :
    (xio_ev_loop_stop env s).events_list = s.events_list ∧
    (xio_ev_loop_stop env s).scheduled = s.scheduled := by
  unfold xio_ev_loop_stop
  split
  · simp
  · dsimp only
    split
    · simp
    · exact modify_queue _ _ _ _

theorem queueInv_congr (s t : State) (l : List Nat)
    (h : t.events_list = s.events_list ∧ t.scheduled = s.scheduled) (hs : QueueInv s l) :
    QueueInv t l := by
  unfold QueueInv at hs ⊢
  rw [h.1, h.2]
  exact hs

theorem queueInv_apply_op (env : Env) (s : State) (l : List Nat) (op : Op) (h : QueueInv s l) :
    QueueInv (apply_op env s op) (queue_after s l op) := by
  cases op with
  | add fd events handler data => exact queueInv_congr _ _ _ (add_queue _ _ _ _ _ _) h
  | del fd => exact queueInv_congr _ _ _ (del_queue _ _ _) h
  | modify fd events => exact queueInv_congr _ _ _ (modify_queue _ _ _ _) h
  | add_event evt => exact queueInv_add_event _ _ _ h
  | remove_event evt => exact queueInv_remove_event _ _ _ h
  | stop => exact queueInv_congr _ _ _ (stop_queue _ _) h

theorem queueInv_run_ops (env : Env) (ops : List Op) :
    ∀ (s : State) (l : List Nat), QueueInv s l → ∃ l1, QueueInv (run_ops env s ops) l1 := by
  induction ops with
  | nil => intro s l h; exact ⟨l, h⟩
  | cons op ops ih =>
    intro s l h
    exact ih _ _ (queueInv_apply_op env s l op h)

theorem queueInv_record (s : State) (t : Trace) (l : List Nat) (h : QueueInv s l) :
    QueueInv (record s t) l := h

theorem queueInv_call_event_handler (env : Env) (s : State) (tev : Nat) (l : List Nat)
    (h : QueueInv s l) : ∃ l1, QueueInv (call_event_handler env s tev) l1 :=
  queueInv_run_ops env _ _ l (queueInv_record s _ l h)

theorem queueInv_exec_scheduled_loop (env : Env) (last_sched : Option Nat) :
    ∀ (fuel : Nat) (s : State) (pos n : Option Nat) (s1 : State) (l : List Nat),
      QueueInv s l → exec_scheduled_loop env last_sched fuel s pos n = some s1 →
      ∃ l1, QueueInv s1 l1 := by
  intro fuel
  induction fuel with
  | zero => intro s pos n s1 l _ h; simp [exec_scheduled_loop] at h
  | succ fuel ih =>
    intro s pos n s1 l hq h
    cases pos with
    | none =>
      simp only [exec_scheduled_loop, Option.some.injEq] at h
      exact ⟨l, h ▸ hq⟩
    | some tev =>
      simp only [exec_scheduled_loop] at h
      obtain ⟨l2, h2⟩ := queueInv_call_event_handler env _ tev _
        (queueInv_remove_event s l tev hq)
      split at h
      · simp only [Option.some.injEq] at h
        exact ⟨l2, h ▸ h2⟩
      · exact ih _ _ _ _ _ h2 h

theorem queueInv_exec_scheduled (fuel : Nat) (env : Env) (s : State) (r : Bool × State)
    (l : List Nat) (hq : QueueInv s l) (h : xio_ev_loop_exec_scheduled fuel env s = some r) :
    ∃ l1, QueueInv r.2 l1 := by
  unfold xio_ev_loop_exec_scheduled at h
  split at h
  · dsimp only at h
    split at h
    · simp at h
    · rename_i s1 hs1
      simp only [Option.some.injEq] at h
      subst h
      exact queueInv_exec_scheduled_loop env _ _ _ _ _ _ _ hq hs1
  · simp only [Option.some.injEq] at h
    subst h
    exact ⟨l, hq⟩

theorem queueInv_fresh (s : State) (h : FreshQueue s) : QueueInv s [] := by
  refine ⟨⟨⟨h.1, h.2.1⟩, List.nodup_nil⟩, ?_⟩
  intro i
  simp [h.2.2 i]

theorem walk_of_seg (L : Links) (l : List Nat) :
    ∀ (a : Option Nat) (fuel : Nat), Seg L a l none → l.length ≤ fuel → walk L fuel a = l := by
  induction l with
  | nil =>
    intro a fuel h _
    cases fuel with
    | zero => rfl
    | succ fuel => simp [walk, h.1]
  | cons x l ih =>
    intro a fuel h hf
    cases fuel with
    | zero => simp at hf
    | succ fuel =>
      simp only [Seg] at h
      simp only [walk, h.1]
      rw [ih (some x) fuel h.2.2 (by simpa using hf)]

theorem queue_items_eq (s : State) (l : List Nat) (h : QueueInv s l) (fuel : Nat)
    (hf : l.length ≤ fuel) : queue_items fuel s = l :=
  walk_of_seg _ _ _ _ h.1.1 hf

theorem add_event_scheduled (s : State) (evt i : Nat)
    (h : s.scheduled i = true ∨ i = evt) : (xio_ev_loop_add_event s evt).scheduled i = true := by
  unfold xio_ev_loop_add_event
  by_cases hs : s.scheduled evt = true
  · rcases h with h | h
    · simp [hs, h]
    · simp [hs, h]
  · simp only [Bool.not_eq_true] at hs
    rcases h with h | h
    · simp [hs, Function.update_apply, h]
    · simp [hs, Function.update_apply, h]

theorem foldl_add_event_scheduled (evts : List Nat) :
    ∀ (s : State) (i : Nat), s.scheduled i = true ∨ i ∈ evts →
      (evts.foldl xio_ev_loop_add_event s).scheduled i = true := by
  induction evts with
  | nil => intro s i h; simpa using h
  | cons e evts ih =>
    intro s i h
    simp only [List.foldl_cons]
    apply ih
    rcases h with h | h
    · exact Or.inl (add_event_scheduled s e i (Or.inl h))
    · rcases List.mem_cons.1 h with h | h
      · exact Or.inl (add_event_scheduled s e i (Or.inr h))
      · exact Or.inr h

theorem foldl_add_event_queueInv (evts : List Nat) :
    ∀ (s : State) (l : List Nat), QueueInv s l →
      ∃ l1, QueueInv (evts.foldl xio_ev_loop_add_event s) l1 := by
  induction evts with
  | nil => intro s l h; exact ⟨l, h⟩
  | cons e evts ih =>
    intro s l h
    exact ih _ _ (queueInv_add_event s l e h)

/-! ## C1 and C2 -/

/-- C1: `xio_ev_loop_add_event` on a work item whose `scheduled` flag is set
returns the state unchanged (queue and item); on an unscheduled item it sets
the flag and, the deferred-work list being the queue `l`, makes it the queue
`l` followed by the item.  Consequently, after any sequence of enqueues that
contains the item (five times the same item, say) the queue holds it exactly
once. -/
theorem C1_add_event_idempotent (s : State) (evt : Nat) :
    (s.scheduled evt = true → xio_ev_loop_add_event s evt = s) ∧
    (s.scheduled evt = false →
      (xio_ev_loop_add_event s evt).scheduled evt = true ∧
      ∀ l, QueueInv s l → QueueInv (xio_ev_loop_add_event s evt) (l ++ [evt])) ∧
    (∀ (l evts : List Nat), QueueInv s l → evt ∈ evts →
      ∃ l1, QueueInv (evts.foldl xio_ev_loop_add_event s) l1 ∧ l1.count evt = 1 ∧
        ∀ fuel, l1.length ≤ fuel →
          queue_items fuel (evts.foldl xio_ev_loop_add_event s) = l1) := by
  refine ⟨?_, ?_, ?_⟩
  · intro h
    simp [xio_ev_loop_add_event, h]
  · intro h
    refine ⟨add_event_scheduled s evt evt (Or.inr rfl), ?_⟩
    intro l hq
    have := queueInv_add_event s l evt hq
    simpa [h] using this
  · intro l evts hq he
    obtain ⟨l1, h1⟩ := foldl_add_event_queueInv evts s l hq
    refine ⟨l1, h1, ?_, fun fuel hf => queue_items_eq _ _ h1 fuel hf⟩
    have hm : evt ∈ l1 := (h1.2 evt).2 (foldl_add_event_scheduled evts s evt (Or.inr he))
    exact List.count_eq_one_of_mem h1.1.2 hm

/-- C1 at the empty reactor: five enqueues of work item 1. -/
theorem C1_add_event_idempotent_witness :
    ∃ l1, QueueInv ([1, 1, 1, 1, 1].foldl xio_ev_loop_add_event (State.init 0)) l1 ∧
      l1.count 1 = 1 ∧
      ∀ fuel, l1.length ≤ fuel →
        queue_items fuel ([1, 1, 1, 1, 1].foldl xio_ev_loop_add_event (State.init 0)) = l1 :=
  (C1_add_event_idempotent (State.init 0) 1).2.2 [] [1, 1, 1, 1, 1]
    (queueInv_fresh _ ⟨rfl, rfl, fun _ => rfl⟩) (by decide)

/-- C2: in every state reached from an empty deferred-work queue with
unscheduled work items by enqueues, dequeues and drains that return (whatever
the callbacks call), the deferred-work list is a queue `l` without repetition
and a work item is on it if and only if its `scheduled` flag is set. -/
theorem C2_queue_invariant (s : State) (h : Reachable s) :
    ∃ l, IsQueue s.events_list l ∧ l.Nodup ∧ (∀ i, i ∈ l ↔ s.scheduled i = true) ∧
      ∀ fuel, l.length ≤ fuel → queue_items fuel s = l := by
  have key : ∃ l, QueueInv s l := by
    induction h with
    | fresh s hs => exact ⟨[], queueInv_fresh s hs⟩
    | add_event s evt _ ih =>
      obtain ⟨l, hl⟩ := ih
      exact ⟨_, queueInv_add_event s l evt hl⟩
    | remove_event s evt _ ih =>
      obtain ⟨l, hl⟩ := ih
      exact ⟨_, queueInv_remove_event s l evt hl⟩
    | exec_scheduled fuel env s r _ hr ih =>
      obtain ⟨l, hl⟩ := ih
      exact queueInv_exec_scheduled fuel env s r l hl hr
  obtain ⟨l, hl⟩ := key
  exact ⟨l, hl.1, hl.1.2, hl.2, fun fuel hf => queue_items_eq s l hl fuel hf⟩

/-- C2 at the state reached by enqueueing work items 1 and 2 and dequeueing 1. -/
theorem C2_queue_invariant_witness :
    ∃ l, IsQueue (xio_ev_loop_remove_event (xio_ev_loop_add_event
          (xio_ev_loop_add_event (State.init 0) 1) 2) 1).events_list l ∧ l.Nodup ∧
      (∀ i, i ∈ l ↔ (xio_ev_loop_remove_event (xio_ev_loop_add_event
          (xio_ev_loop_add_event (State.init 0) 1) 2) 1).scheduled i = true) ∧
      ∀ fuel, l.length ≤ fuel → queue_items fuel (xio_ev_loop_remove_event
          (xio_ev_loop_add_event (xio_ev_loop_add_event (State.init 0) 1) 2) 1) = l :=
  C2_queue_invariant _
    (Reachable.remove_event _ 1 (Reachable.add_event _ 2 (Reachable.add_event _ 1
      (Reachable.fresh _ ⟨rfl, rfl, fun _ => rfl⟩))))

/-! ## What the calls of a callback add to the history -/

theorem ctlExt_refl (lg : List Trace) : CtlExt lg lg :=
  ⟨[], rfl, by simp⟩

theorem ctlExt_trans (a b c : List Trace) (h1 : CtlExt a b) (h2 : CtlExt b c) : CtlExt a c := by
  obtain ⟨n1, e1, p1⟩ := h1
  obtain ⟨n2, e2, p2⟩ := h2
  refine ⟨n2 ++ n1, by rw [e2, e1, List.append_assoc], ?_⟩
  intro t ht
  rcases List.mem_append.1 ht with h | h
  · exact p2 t h
  · exact p1 t h

theorem ctlExt_cons (lg : List Trace) (t : Trace) (h : t.isCtl = true) : CtlExt lg (t :: lg) :=
  ⟨[t], rfl, by simpa using h⟩

theorem add_ctl_log (env : Env) (s : State) (fd : Int) (ev : EpollEvents) (tev : Nat) :
    CtlExt s.log (xio_ev_loop_add_ctl env s fd ev tev).2.log := by
  unfold xio_ev_loop_add_ctl record
  dsimp only
  split
  · split
    · exact ⟨[Trace.ufree tev, Trace.epoll_ctl_add fd ev tev], rfl, by simp [Trace.isCtl]⟩
    · exact ⟨[Trace.ufree tev, Trace.epoll_ctl_add fd ev tev], rfl, by simp [Trace.isCtl]⟩
  · exact ctlExt_cons _ _ rfl

theorem add_log (env : Env) (s : State) (fd : Int) (events : XioEvents) (handler data : Nat) :
    CtlExt s.log (xio_ev_loop_add env s fd events handler data).2.log := by
  unfold xio_ev_loop_add
  dsimp only
  split
  · split
    · exact ctlExt_cons _ _ rfl
    · exact ctlExt_trans _ _ _ (ctlExt_cons s.log Trace.ucalloc rfl) (add_ctl_log _ _ _ _ _)
  · exact add_ctl_log _ _ _ _ _

theorem del_ctl_log (env : Env) (s : State) (fd : Int) :
    CtlExt s.log (xio_ev_loop_del_ctl env s fd).2.log := by
  unfold xio_ev_loop_del_ctl record
  dsimp only
  split <;> exact ctlExt_cons _ _ rfl

theorem del_log (env : Env) (s : State) (fd : Int) :
    CtlExt s.log (xio_ev_loop_del env s fd).2.log := by
  unfold xio_ev_loop_del
  split
  · split
    · exact ctlExt_refl _
    · dsimp only
      split
      · exact del_ctl_log _ _ _
      · exact del_ctl_log _ _ _
  · exact del_ctl_log _ _ _

theorem modify_ctl_log (env : Env) (s : State) (fd : Int) (events : XioEvents) (tev : Nat) :
    CtlExt s.log (xio_ev_loop_modify_ctl env s fd events tev).2.log := by
  unfold xio_ev_loop_modify_ctl record
  dsimp only
  split <;> exact ctlExt_cons _ _ rfl

theorem modify_log (env : Env) (s : State) (fd : Int) (events : XioEvents) :
    CtlExt s.log (xio_ev_loop_modify env s fd events).2.log := by
  unfold xio_ev_loop_modify
  split
  · split
    · exact ctlExt_refl _
    · exact modify_ctl_log _ _ _ _ _
  · exact modify_ctl_log _ _ _ _ _

theorem stop_log (env : Env) (s : State) : CtlExt s.log (xio_ev_loop_stop env s).log := by
  unfold xio_ev_loop_stop
  split
  · exact ctlExt_refl _
  · dsimp only
    split
    · exact ctlExt_refl _
    · exact modify_log _ _ _ _

theorem add_event_log (s : State) (evt : Nat) : (xio_ev_loop_add_event s evt).log = s.log := by
  unfold xio_ev_loop_add_event
  split <;> rfl

theorem remove_event_log (s : State) (evt : Nat) :
    (xio_ev_loop_remove_event s evt).log = s.log := by
  unfold xio_ev_loop_remove_event
  split <;> rfl

theorem apply_op_log (env : Env) (s : State) (op : Op) :
    CtlExt s.log (apply_op env s op).log := by
  cases op with
  | add fd events handler data => exact add_log _ _ _ _ _ _
  | del fd => exact del_log _ _ _
  | modify fd events => exact modify_log _ _ _ _
  | add_event evt => simp only [apply_op, add_event_log]; exact ctlExt_refl _
  | remove_event evt => simp only [apply_op, remove_event_log]; exact ctlExt_refl _
  | stop => exact stop_log _ _

theorem run_ops_log (env : Env) (ops : List Op) :
    ∀ s : State, CtlExt s.log (run_ops env s ops).log := by
  induction ops with
  | nil => intro s; exact ctlExt_refl _
  | cons op ops ih =>
    intro s
    exact ctlExt_trans _ _ _ (apply_op_log env s op) (ih _)

theorem invoked_events_append (a b : List Trace) :
    invoked_events (a ++ b) = invoked_events b ++ invoked_events a := by
  induction a with
  | nil => simp [invoked_events]
  | cons t a ih =>
    cases t <;> simp [invoked_events, ih]

theorem invoked_handlers_append (a b : List Trace) :
    invoked_handlers (a ++ b) = invoked_handlers b ++ invoked_handlers a := by
  induction a with
  | nil => simp [invoked_handlers]
  | cons t a ih =>
    cases t <;> simp [invoked_handlers, ih]

theorem waits_append (a b : List Trace) : waits (a ++ b) = waits b ++ waits a := by
  induction a with
  | nil => simp [waits]
  | cons t a ih =>
    cases t <;> simp [waits, ih]

theorem ctl_views (new : List Trace) (h : ∀ t ∈ new, t.isCtl = true) :
    invoked_events new = [] ∧ invoked_handlers new = [] ∧ waits new = [] := by
  induction new with
  | nil => exact ⟨rfl, rfl, rfl⟩
  | cons t new ih =>
    have ht := h t (List.mem_cons_self _ _)
    have ih1 := ih (fun u hu => h u (List.mem_cons_of_mem _ hu))
    cases t <;> simp [Trace.isCtl] at ht <;>
      simp [invoked_events, invoked_handlers, waits, ih1]

/-! ## One drain when no callback dequeues a pending work item -/

theorem run_ops_pending (env : Env) (rest : List Nat) (ops : List Op) :
    ∀ (s : State) (extra : List Nat), QueueInv s (rest ++ extra) →
      (∀ evt, Op.remove_event evt ∈ ops → evt ∉ rest) →
      ∃ extra1, QueueInv (run_ops env s ops) (rest ++ extra1) := by
  induction ops with
  | nil => intro s extra h _; exact ⟨extra, h⟩
  | cons op ops ih =>
    intro s extra h hr
    have h1 := queueInv_apply_op env s _ op h
    have hr1 : ∀ evt, Op.remove_event evt ∈ ops → evt ∉ rest :=
      fun evt he => hr evt (List.mem_cons_of_mem _ he)
    have key : ∃ extra1, queue_after s (rest ++ extra) op = rest ++ extra1 := by
      cases op with
      | add fd events handler data => exact ⟨extra, rfl⟩
      | del fd => exact ⟨extra, rfl⟩
      | modify fd events => exact ⟨extra, rfl⟩
      | add_event evt =>
        by_cases hs : s.scheduled evt = true
        · exact ⟨extra, by simp [queue_after, hs]⟩
        · exact ⟨extra ++ [evt], by simp [queue_after, hs]⟩
      | remove_event evt =>
        have hn : evt ∉ rest := hr evt (List.mem_cons_self _ _)
        exact ⟨extra.erase evt, by simp [queue_after, List.erase_append_right _ hn]⟩
      | stop => exact ⟨extra, rfl⟩
    obtain ⟨extra1, he⟩ := key
    rw [he] at h1
    exact ih _ extra1 h1 hr1

theorem call_event_handler_log (env : Env) (s : State) (tev : Nat) :
    ∃ lg, (call_event_handler env s tev).log =
        lg ++ Trace.event_handler tev (s.evt_handler tev) (s.evt_data tev) :: s.log ∧
      ∀ t ∈ lg, t.isCtl = true := by
  obtain ⟨lg, h1, h2⟩ := run_ops_log env
    (env.event_handler (record s (Trace.event_handler tev (s.evt_handler tev)
      (s.evt_data tev))).log)
    (record s (Trace.event_handler tev (s.evt_handler tev) (s.evt_data tev)))
  exact ⟨lg, h1, h2⟩

theorem queueInv_next_head (s : State) (x : Nat) (l : List Nat) (h : QueueInv s (x :: l)) :
    s.events_list.next none = some x :=
  h.1.1.1

theorem queueInv_next_second (s : State) (x y : Nat) (l : List Nat)
    (h : QueueInv s (x :: y :: l)) : s.events_list.next (some x) = some y :=
  h.1.1.2.2.1

theorem seg_prev_last (L : Links) (l : List Nat) (a b : Option Nat) (hne : l ≠ [])
    (h : Seg L a l b) : L.prev b = some (l.getLast hne) := by
  rcases List.eq_nil_or_concat l with e | ⟨l1, z, e⟩
  · exact absurd e hne
  · subst e
    have h1 := h
    rw [List.concat_eq_append, seg_snoc] at h1
    rw [h1.2.2]
    simp

theorem exec_scheduled_loop_pending (env : Env) (lg0 : List Trace) (q : List Nat) (last : Nat)
    (hH : ∀ new evt, Op.remove_event evt ∈ env.event_handler (new ++ lg0) → evt ∈ q →
      evt ∈ invoked_events new) (hq : q.Nodup) :
    ∀ (rest : List Nat) (x : Nat) (s : State) (extra done : List Nat) (new : List Trace),
      QueueInv s (x :: rest ++ extra) →
      s.log = new ++ lg0 →
      invoked_events new = done →
      q = done ++ x :: rest →
      (x :: rest).getLast (List.cons_ne_nil _ _) = last →
      ∀ fuel, rest.length < fuel →
      ∃ s1 new1 extra1,
        exec_scheduled_loop env (some last) fuel s (some x) (s.events_list.next (some x))
          = some s1 ∧
        s1.log = new1 ++ lg0 ∧ invoked_events new1 = q ∧ QueueInv s1 extra1 := by
  intro rest
  induction rest with
  | nil =>
    intro x s extra done new hs hlog hdone hqe hlast fuel hfuel
    obtain ⟨fuel, rfl⟩ : ∃ f, fuel = f + 1 := ⟨fuel - 1, by omega⟩
    simp only [List.getLast_singleton] at hlast
    subst hlast
    simp only [exec_scheduled_loop, if_true]
    have hrm := queueInv_remove_event s _ x hs
    simp only [List.cons_append, List.erase_cons_head, List.nil_append] at hrm
    obtain ⟨extra1, h1⟩ := queueInv_call_event_handler env _ x _ hrm
    obtain ⟨lg, hl1, hl2⟩ := call_event_handler_log env (xio_ev_loop_remove_event s x) x
    refine ⟨_, lg ++ Trace.event_handler x ((xio_ev_loop_remove_event s x).evt_handler x)
      ((xio_ev_loop_remove_event s x).evt_data x) :: new, extra1, rfl, ?_, ?_, h1⟩
    · rw [hl1, remove_event_log, hlog]; simp
    · rw [invoked_events_append, (ctl_views lg hl2).1]
      simp [invoked_events, hdone, hqe]
  | cons y rest ih =>
    intro x s extra done new hs hlog hdone hqe hlast fuel hfuel
    obtain ⟨fuel, rfl⟩ : ∃ f, fuel = f + 1 := ⟨fuel - 1, by omega⟩
    have hn : s.events_list.next (some x) = some y := queueInv_next_second s x y _ hs
    have hrm := queueInv_remove_event s _ x hs
    simp only [List.cons_append, List.erase_cons_head] at hrm
    obtain ⟨lg, hl1, hl2⟩ := call_event_handler_log env (xio_ev_loop_remove_event s x) x
    have hlogr : (record (xio_ev_loop_remove_event s x)
        (Trace.event_handler x ((xio_ev_loop_remove_event s x).evt_handler x)
          ((xio_ev_loop_remove_event s x).evt_data x))).log
        = (Trace.event_handler x ((xio_ev_loop_remove_event s x).evt_handler x)
          ((xio_ev_loop_remove_event s x).evt_data x) :: new) ++ lg0 := by
      simp [record, remove_event_log, hlog]
    have hnd : ∀ evt, evt ∈ y :: rest → evt ∉ done ++ [x] := by
      intro evt he hc
      rw [hqe] at hq
      have h1 := List.nodup_append.1 hq
      rcases List.mem_append.1 hc with hc | hc
      · exact h1.2.2 hc (List.mem_cons_of_mem _ he)
      · rw [List.mem_singleton] at hc
        subst hc
        exact (List.nodup_cons.1 h1.2.1).1 he
    have hops : ∀ evt, Op.remove_event evt ∈ env.event_handler
        (record (xio_ev_loop_remove_event s x)
          (Trace.event_handler x ((xio_ev_loop_remove_event s x).evt_handler x)
            ((xio_ev_loop_remove_event s x).evt_data x))).log → evt ∉ y :: rest := by
      intro evt he hc
      rw [hlogr] at he
      have hin := hH _ evt he (by rw [hqe]; simp; right; right; simpa using hc)
      simp only [invoked_events, hdone] at hin
      exact hnd evt hc hin
    obtain ⟨extra1, h1⟩ := run_ops_pending env (y :: rest) _ _ extra
      (queueInv_record _ _ _ hrm) hops
    have hxl : (some x : Option Nat) ≠ some last := by
      intro c
      injection c with c
      rw [List.getLast_cons_cons] at hlast
      have hm : last ∈ y :: rest := hlast ▸ List.getLast_mem _
      exact hnd last hm (by simp [c])
    have hlast1 : (y :: rest).getLast (List.cons_ne_nil _ _) = last := by
      rw [List.getLast_cons_cons] at hlast
      exact hlast
    obtain ⟨s1, new1, extra2, e1, e2, e3, e4⟩ :=
      ih y (call_event_handler env (xio_ev_loop_remove_event s x) x) extra1 (done ++ [x])
        (lg ++ Trace.event_handler x ((xio_ev_loop_remove_event s x).evt_handler x)
          ((xio_ev_loop_remove_event s x).evt_data x) :: new)
        h1 (by rw [hl1, remove_event_log, hlog]; simp)
        (by rw [invoked_events_append, (ctl_views lg hl2).1]; simp [invoked_events, hdone])
        (by rw [hqe]; simp) hlast1 fuel (by simpa using hfuel)
    refine ⟨s1, new1, extra2, ?_, e2, e3, e4⟩
    simp only [exec_scheduled_loop, hxl, if_false, hn]
    exact e1

theorem queueInv_list_empty (s : State) (l : List Nat) (h : QueueInv s l) :
    list_empty s.events_list none = true ↔ l = [] := by
  unfold list_empty
  cases l with
  | nil => simp [h.1.1.1]
  | cons x l => simp [queueInv_next_head s x l h]

theorem queueInv_add_event_new (s : State) (l : List Nat) (evt : Nat) (h : QueueInv s l)
    (hs : s.scheduled evt = false) : QueueInv (xio_ev_loop_add_event s evt) (l ++ [evt]) := by
  have := queueInv_add_event s l evt h
  simpa [hs] using this

theorem queueInv_queue12 : QueueInv queue12 [1, 2] :=
  queueInv_add_event_new _ [1] 2
    (queueInv_add_event_new _ [] 1 (queueInv_fresh _ ⟨rfl, rfl, fun _ => rfl⟩) rfl) rfl

theorem queueInv_queue123 : QueueInv queue123 [1, 2, 3] :=
  queueInv_add_event_new _ [1, 2] 3 queueInv_queue12 rfl

theorem exec_scheduled_pending (env : Env) (s : State) (q : List Nat) (hq : QueueInv s q)
    (hH : ∀ new evt, Op.remove_event evt ∈ env.event_handler (new ++ s.log) → evt ∈ q →
      evt ∈ invoked_events new)
    (fuel : Nat) (hf : q.length < fuel) :
    ∃ work_remains s1 new extra,
      xio_ev_loop_exec_scheduled fuel env s = some (work_remains, s1) ∧
      s1.log = new ++ s.log ∧ invoked_events new = q ∧ QueueInv s1 extra ∧
      (work_remains = true ↔ extra ≠ []) := by
  cases q with
  | nil =>
    refine ⟨false, s, [], [], ?_, rfl, rfl, hq, by simp⟩
    have := (queueInv_list_empty s [] hq).2 rfl
    simp [xio_ev_loop_exec_scheduled, this]
  | cons x rest =>
    have hne : list_empty s.events_list none = false := by
      cases h : list_empty s.events_list none with
      | false => rfl
      | true => exact absurd ((queueInv_list_empty s _ hq).1 h) (by simp)
    have hlast := seg_prev_last s.events_list (x :: rest) none none (List.cons_ne_nil _ _) hq.1.1
    have hhead := queueInv_next_head s x rest hq
    obtain ⟨s1, new1, extra1, e1, e2, e3, e4⟩ :=
      exec_scheduled_loop_pending env s.log (x :: rest)
        ((x :: rest).getLast (List.cons_ne_nil _ _)) hH hq.1.2 rest x s [] [] []
        (by simpa using hq) rfl rfl rfl rfl fuel (by simp at hf; omega)
    refine ⟨!list_empty s1.events_list none, s1, new1, extra1, ?_, e2, e3, e4, ?_⟩
    · simp only [xio_ev_loop_exec_scheduled, hne, Bool.not_false, if_true, hlast, hhead]
      rw [e1]
    · rw [← not_iff_not]
      simp only [Bool.not_eq_true, Bool.not_eq_false_eq_eq_true, not_not, ne_eq]
      rw [← queueInv_list_empty s1 extra1 e4]

/-! ## One drain against the reference queue -/

theorem int_wrap_of_int (x : Int) (h1 : -2147483648 ≤ x) (h2 : x < 2147483648) :
    int_wrap x = x := by
  unfold int_wrap
  omega

theorem queue_after_eq_step (s : State) (l : List Nat) (op : Op) (h : QueueInv s l) :
    queue_after s l op = queue_step l op := by
  cases op with
  | add_event evt =>
    simp only [queue_after, queue_step]
    by_cases hs : s.scheduled evt = true
    · rw [if_pos hs, if_pos ((h.2 evt).2 hs)]
    · rw [if_neg hs, if_neg (fun hm => hs ((h.2 evt).1 hm))]
  | add fd events handler data => rfl
  | del fd => rfl
  | modify fd events => rfl
  | remove_event evt => rfl
  | stop => rfl

theorem run_ops_queue_step (env : Env) (ops : List Op) :
    ∀ (s : State) (l : List Nat), QueueInv s l →
      QueueInv (run_ops env s ops) (ops.foldl queue_step l) := by
  induction ops with
  | nil => intro s l h; exact h
  | cons op ops ih =>
    intro s l h
    have h1 := queueInv_apply_op env s l op h
    rw [queue_after_eq_step s l op h] at h1
    exact ih _ _ h1

theorem drain_queue_ctl (env : Env) (base : List Trace) (q : List Nat) (new : List Trace) :
    ∀ lg : List Trace, (∀ t ∈ lg, t.isCtl = true) →
      drain_queue env base (lg ++ new) q = drain_queue env base new q ∧
      drain_enqueued env base (lg ++ new) = drain_enqueued env base new := by
  intro lg
  induction lg with
  | nil => intro _; exact ⟨rfl, rfl⟩
  | cons t lg ih =>
    intro h
    have h1 := ih (fun u hu => h u (List.mem_cons_of_mem _ hu))
    have ht := h t (List.mem_cons_self _ _)
    cases t <;> simp [Trace.isCtl] at ht <;>
      simpa only [List.cons_append, drain_queue, drain_enqueued] using h1

/-- The queue after a callback invocation is the reference queue of the
history with that invocation. -/
theorem call_event_handler_reference (env : Env) (base : List Trace) (q : List Nat)
    (s : State) (tev : Nat) (new : List Trace)
    (hq : QueueInv s (drain_queue env base new q)) (hlog : s.log = new ++ base) :
    ∃ new1, (call_event_handler env (xio_ev_loop_remove_event s tev) tev).log = new1 ++ base ∧
      QueueInv (call_event_handler env (xio_ev_loop_remove_event s tev) tev)
        (drain_queue env base new1 q) ∧
      invoked_events new1 = invoked_events new ++ [tev] ∧
      drain_enqueued env base new1 = drain_enqueued env base new ++
        enqueued_items (env.event_handler
          (Trace.event_handler tev ((xio_ev_loop_remove_event s tev).evt_handler tev)
            ((xio_ev_loop_remove_event s tev).evt_data tev) :: (new ++ base))) := by
  have hrm := queueInv_remove_event s _ tev hq
  obtain ⟨lg, hl1, hl2⟩ := call_event_handler_log env (xio_ev_loop_remove_event s tev) tev
  have hrun := run_ops_queue_step env
    (env.event_handler (record (xio_ev_loop_remove_event s tev)
      (Trace.event_handler tev ((xio_ev_loop_remove_event s tev).evt_handler tev)
        ((xio_ev_loop_remove_event s tev).evt_data tev))).log)
    (record (xio_ev_loop_remove_event s tev)
      (Trace.event_handler tev ((xio_ev_loop_remove_event s tev).evt_handler tev)
        ((xio_ev_loop_remove_event s tev).evt_data tev))) _
    (queueInv_record _ _ _ hrm)
  have hrl : (record (xio_ev_loop_remove_event s tev)
      (Trace.event_handler tev ((xio_ev_loop_remove_event s tev).evt_handler tev)
        ((xio_ev_loop_remove_event s tev).evt_data tev))).log =
      Trace.event_handler tev ((xio_ev_loop_remove_event s tev).evt_handler tev)
        ((xio_ev_loop_remove_event s tev).evt_data tev) :: (new ++ base) := by
    simp [record, remove_event_log, hlog]
  have key : drain_queue env base
      (Trace.event_handler tev ((xio_ev_loop_remove_event s tev).evt_handler tev)
        ((xio_ev_loop_remove_event s tev).evt_data tev) :: new) q =
      List.foldl queue_step ((drain_queue env base new q).erase tev)
        (env.event_handler (record (xio_ev_loop_remove_event s tev)
          (Trace.event_handler tev ((xio_ev_loop_remove_event s tev).evt_handler tev)
            ((xio_ev_loop_remove_event s tev).evt_data tev))).log) := by
    rw [hrl]
    rfl
  obtain ⟨c1, c2⟩ := drain_queue_ctl env base q
    (Trace.event_handler tev ((xio_ev_loop_remove_event s tev).evt_handler tev)
      ((xio_ev_loop_remove_event s tev).evt_data tev) :: new) lg hl2
  refine ⟨lg ++ Trace.event_handler tev ((xio_ev_loop_remove_event s tev).evt_handler tev)
    ((xio_ev_loop_remove_event s tev).evt_data tev) :: new, ?_, ?_, ?_, ?_⟩
  · rw [hl1, remove_event_log, hlog]; simp
  · rw [c1, key]
    exact hrun
  · rw [invoked_events_append, (ctl_views lg hl2).1]
    simp [invoked_events]
  · rw [c2]
    rfl

/-- A drain that returns leaves the reference queue of its history, whatever
the callbacks do. -/
theorem exec_scheduled_loop_queue (env : Env) (base : List Trace) (q : List Nat)
    (last_sched : Option Nat) :
    ∀ (fuel : Nat) (s : State) (pos n : Option Nat) (s1 : State) (new : List Trace),
      QueueInv s (drain_queue env base new q) → s.log = new ++ base →
      exec_scheduled_loop env last_sched fuel s pos n = some s1 →
      ∃ new1, s1.log = new1 ++ base ∧ QueueInv s1 (drain_queue env base new1 q) := by
  intro fuel
  induction fuel with
  | zero => intro s pos n s1 new _ _ h; simp [exec_scheduled_loop] at h
  | succ fuel ih =>
    intro s pos n s1 new hq hlog h
    cases pos with
    | none =>
      simp only [exec_scheduled_loop, Option.some.injEq] at h
      subst h
      exact ⟨new, hlog, hq⟩
    | some tev =>
      obtain ⟨new1, e1, e2, _, _⟩ := call_event_handler_reference env base q s tev new hq hlog
      simp only [exec_scheduled_loop] at h
      by_cases hl : some tev = last_sched
      · rw [if_pos hl] at h
        simp only [Option.some.injEq] at h
        subst h
        exact ⟨new1, e1, e2⟩
      · rw [if_neg hl] at h
        exact ih _ _ _ _ new1 e2 e1 h

theorem exec_scheduled_queue (env : Env) (fuel : Nat) (s : State) (q : List Nat)
    (r : Bool × State) (hq : QueueInv s q)
    (h : xio_ev_loop_exec_scheduled fuel env s = some r) :
    ∃ new, r.2.log = new ++ s.log ∧ QueueInv r.2 (drain_queue env s.log new q) := by
  unfold xio_ev_loop_exec_scheduled at h
  by_cases hl : (!list_empty s.events_list none) = true
  · rw [if_pos hl] at h
    dsimp only at h
    cases hloop : exec_scheduled_loop env (s.events_list.prev none) fuel s
        (s.events_list.next none) (s.events_list.next (s.events_list.next none)) with
    | none => rw [hloop] at h; simp at h
    | some s1 =>
      rw [hloop] at h
      simp only [Option.some.injEq] at h
      subst h
      exact exec_scheduled_loop_queue env s.log q _ fuel s _ _ s1 [] hq rfl hloop
  · rw [if_neg hl] at h
    simp only [Option.some.injEq] at h
    subst h
    exact ⟨[], rfl, hq⟩

theorem mem_foldl_queue_step (ops : List Op) :
    ∀ (l : List Nat) (x : Nat), l.Nodup → x ∈ ops.foldl queue_step l →
      (ops.foldl queue_step l).Nodup ∧ (x ∈ l ∨ x ∈ enqueued_items ops) := by
  induction ops with
  | nil => intro l x hn hx; exact ⟨hn, Or.inl hx⟩
  | cons op ops ih =>
    intro l x hn hx
    have hstep : (queue_step l op).Nodup ∧
        ∀ y, y ∈ queue_step l op → y ∈ l ∨ y ∈ enqueued_items [op] := by
      cases op with
      | add_event evt =>
        simp only [queue_step, enqueued_items]
        by_cases hm : evt ∈ l
        · rw [if_pos hm]
          exact ⟨hn, fun y hy => Or.inl hy⟩
        · rw [if_neg hm]
          refine ⟨?_, ?_⟩
          · exact List.nodup_append.2 ⟨hn, List.nodup_singleton _, by
              intro a ha hb
              rw [List.mem_singleton] at hb
              exact hm (hb ▸ ha)⟩
          · intro y hy
            rcases List.mem_append.1 hy with hy | hy
            · exact Or.inl hy
            · exact Or.inr hy
      | remove_event evt =>
        exact ⟨hn.erase evt, fun y hy => Or.inl (List.mem_of_mem_erase hy)⟩
      | add fd events handler data => exact ⟨hn, fun y hy => Or.inl hy⟩
      | del fd => exact ⟨hn, fun y hy => Or.inl hy⟩
      | modify fd events => exact ⟨hn, fun y hy => Or.inl hy⟩
      | stop => exact ⟨hn, fun y hy => Or.inl hy⟩
    obtain ⟨i1, i2⟩ := ih (queue_step l op) x hstep.1 hx
    refine ⟨i1, ?_⟩
    have hcons : ∀ y, y ∈ enqueued_items [op] ∨ y ∈ enqueued_items ops →
        y ∈ enqueued_items (op :: ops) := by
      intro y hy
      cases op <;> simp_all [enqueued_items]
    rcases i2 with i2 | i2
    · rcases hstep.2 x i2 with h | h
      · exact Or.inl h
      · exact Or.inr (hcons x (Or.inl h))
    · exact Or.inr (hcons x (Or.inr i2))

/-- An item of the reference queue is an item of the start that has not had
its turn, or an item that a callback asked to enqueue. -/
theorem drain_queue_mem (env : Env) (base : List Trace) (q : List Nat) (hq : q.Nodup) :
    ∀ (new : List Trace),
      (drain_queue env base new q).Nodup ∧
      ∀ x, x ∈ drain_queue env base new q →
        (x ∈ q ∧ x ∉ invoked_events new) ∨ x ∈ drain_enqueued env base new := by
  intro new
  induction new with
  | nil => exact ⟨hq, fun x hx => Or.inl ⟨hx, by simp [invoked_events]⟩⟩
  | cons t new ih =>
    cases t with
    | event_handler tev fn data =>
      simp only [drain_queue, drain_enqueued, invoked_events]
      have hne := ih.1.erase tev
      refine ⟨?_, ?_⟩
      · by_cases hnil : ∃ x, x ∈ List.foldl queue_step ((drain_queue env base new q).erase tev)
            (env.event_handler (Trace.event_handler tev fn data :: (new ++ base)))
        · obtain ⟨x, hx⟩ := hnil
          exact (mem_foldl_queue_step _ _ x hne hx).1
        · have : List.foldl queue_step ((drain_queue env base new q).erase tev)
              (env.event_handler (Trace.event_handler tev fn data :: (new ++ base))) = [] :=
            List.eq_nil_iff_forall_not_mem.2 (fun x hx => hnil ⟨x, hx⟩)
          rw [this]
          exact List.nodup_nil
      · intro x hx
        rcases (mem_foldl_queue_step _ _ x hne hx).2 with h | h
        · have hx1 := List.mem_of_mem_erase h
          have hxt : x ≠ tev := fun e => ih.1.not_mem_erase (e ▸ h)
          rcases ih.2 x hx1 with ⟨h1, h2⟩ | h1
          · left
            refine ⟨h1, ?_⟩
            simp only [List.mem_append, List.mem_singleton, not_or]
            exact ⟨h2, hxt⟩
          · exact Or.inr (List.mem_append_left _ h1)
        · exact Or.inr (List.mem_append_right _ h)
    | ucalloc => simpa only [drain_queue, drain_enqueued, invoked_events] using ih
    | ufree p => simpa only [drain_queue, drain_enqueued, invoked_events] using ih
    | epoll_ctl_add fd ev ptr => simpa only [drain_queue, drain_enqueued, invoked_events] using ih
    | epoll_ctl_del fd => simpa only [drain_queue, drain_enqueued, invoked_events] using ih
    | epoll_ctl_mod fd ev ptr => simpa only [drain_queue, drain_enqueued, invoked_events] using ih
    | epoll_wait tmout => simpa only [drain_queue, drain_enqueued, invoked_events] using ih
    | handler tev fn fd ev data =>
      simpa only [drain_queue, drain_enqueued, invoked_events] using ih

theorem queueInv_unique (s : State) (l1 l2 : List Nat) (h1 : QueueInv s l1)
    (h2 : QueueInv s l2) : l1 = l2 := by
  have e1 := queue_items_eq s l1 h1 (l1.length + l2.length) (Nat.le_add_right _ _)
  have e2 := queue_items_eq s l2 h2 (l1.length + l2.length) (Nat.le_add_left _ _)
  exact e1.symm.trans e2

/-! ## C3 and C4 -/

/-- C3, counterexample: on the queue of work items 1, 2, 3, where the callback
of item 1 dequeues item 3, one drain invokes two callbacks, those of items 1
and 2, for a queue of length three at the start of the drain. -/
theorem C3_counterexample :
    queue_items 3 queue123 = [1, 2, 3] ∧
    (xio_ev_loop_exec_scheduled 4 (env_item1 [Op.remove_event 3]) queue123).map
      (fun r => invoked_events r.2.log) = some [1, 2] := by
  decide

/-- C3, amended: when no callback dequeues a work item of the queue `q` at the
start of the drain before the callback of that item has been invoked in this
drain (callbacks may enqueue or re-enqueue any item, dequeue themselves, items
that already had their turn and items enqueued during the drain, and call the
registration functions and `stop`), one call of `xio_ev_loop_exec_scheduled`
returns, the callbacks it invokes are exactly those of the items of `q`, once
each and in queue order (so their number is the length of `q`), and the items
enqueued during the drain are not invoked: what is left on the queue is the
reference queue `drain_queue` of the drain, that is the queue `q` replayed
through the invocations and the enqueue and dequeue calls of the callbacks;
each of its items was enqueued by a callback of this drain, and
`work_remains` tells whether there are any. -/
theorem C3_exec_scheduled_one_generation (env : Env) (s : State) (q : List Nat)
    (hq : QueueInv s q)
    (hH : ∀ new evt, Op.remove_event evt ∈ env.event_handler (new ++ s.log) → evt ∈ q →
      evt ∈ invoked_events new)
    (fuel : Nat) (hf : q.length < fuel) :
    ∃ work_remains s1 new extra,
      xio_ev_loop_exec_scheduled fuel env s = some (work_remains, s1) ∧
      s1.log = new ++ s.log ∧ invoked_events new = q ∧
      (invoked_events new).length = q.length ∧ QueueInv s1 extra ∧
      (work_remains = true ↔ extra ≠ []) ∧
      extra = drain_queue env s.log new q ∧
      (∀ x ∈ extra, x ∈ drain_enqueued env s.log new) ∧
      (∀ fuel1, extra.length ≤ fuel1 → queue_items fuel1 s1 = extra) := by
  obtain ⟨wr, s1, new, extra, h1, h2, h3, h4, h5⟩ := exec_scheduled_pending env s q hq hH fuel hf
  obtain ⟨new1, g1, g2⟩ := exec_scheduled_queue env fuel s q (wr, s1) hq h1
  have hnew : new1 = new := List.append_cancel_right (g1.symm.trans h2)
  subst hnew
  have hextra : extra = drain_queue env s.log new1 q := queueInv_unique s1 _ _ h4 g2
  refine ⟨wr, s1, new1, extra, h1, h2, h3, by rw [h3], h4, h5, hextra, ?_,
    fun fuel1 hf1 => queue_items_eq s1 extra h4 fuel1 hf1⟩
  intro x hx
  rw [hextra] at hx
  rcases (drain_queue_mem env s.log q hq.1.2 new1).2 x hx with ⟨c1, c2⟩ | c
  · rw [h3] at c2
    exact absurd c1 c2
  · exact c

/-- C3, amended, on the queue of work items 1, 2, 3 where the callback of item
1 enqueues itself again, enqueues item 4 and dequeues itself: the callbacks of
1, 2, 3 are invoked, the callbacks asked to enqueue 1 and 4, and item 4 is
what is left on the queue. -/
theorem C3_exec_scheduled_one_generation_witness :
    QueueInv queue123 [1, 2, 3] ∧
    (∃ work_remains s1 new extra,
      xio_ev_loop_exec_scheduled 4 env_requeue queue123 = some (work_remains, s1) ∧
      s1.log = new ++ queue123.log ∧ invoked_events new = [1, 2, 3] ∧
      (invoked_events new).length = [1, 2, 3].length ∧ QueueInv s1 extra ∧
      (work_remains = true ↔ extra ≠ []) ∧
      extra = drain_queue env_requeue queue123.log new [1, 2, 3] ∧
      (∀ x ∈ extra, x ∈ drain_enqueued env_requeue queue123.log new) ∧
      (∀ fuel1, extra.length ≤ fuel1 → queue_items fuel1 s1 = extra)) ∧
    (xio_ev_loop_exec_scheduled 4 env_requeue queue123).map
      (fun r => (r.1, queue_items 5 r.2, invoked_events r.2.log,
        drain_queue env_requeue queue123.log r.2.log [1, 2, 3],
        drain_enqueued env_requeue queue123.log r.2.log)) =
      some (true, [4], [1, 2, 3], [4], [1, 4]) :=
  ⟨queueInv_queue123,
    C3_exec_scheduled_one_generation env_requeue queue123 [1, 2, 3] queueInv_queue123
      (by
        intro new evt h _
        have hlog : queue123.log = [] := rfl
        rw [hlog, List.append_nil] at h
        cases new with
        | nil => simp [env_requeue, env_item1, Env.quiet] at h
        | cons t new =>
          cases t <;> try (simp [env_requeue, env_item1, Env.quiet] at h)
          rename_i tev fn data
          by_cases ht : tev = 1
          · subst ht
            simp [env_requeue, env_item1, Env.quiet] at h
            subst h
            simp [invoked_events]
          · exfalso
            revert h
            show Op.remove_event evt ∈ (match Trace.event_handler tev fn data :: new with
              | Trace.event_handler 1 _ _ :: _ =>
                [Op.add_event 1, Op.add_event 4, Op.remove_event 1]
              | _ => []) → False
            split
            · rename_i heq
              simp at heq
              exact absurd heq.1.1 ht
            · simp)
      4 (by decide),
    by decide⟩

theorem exec_scheduled_loop_stuck (ops : List Op) :
    ∀ (fuel : Nat) (s : State), s.events_list.next (some 2) = some 2 → s.scheduled 2 = false →
      exec_scheduled_loop (env_item1 ops) (some 3) fuel s (some 2) (some 2) = none := by
  intro fuel
  induction fuel with
  | zero => intro s _ _; rfl
  | succ fuel ih =>
    intro s hn hs
    have hrm : xio_ev_loop_remove_event s 2 = s := by
      simp [xio_ev_loop_remove_event, hs]
    have hcall : call_event_handler (env_item1 ops) s 2 =
        record s (Trace.event_handler 2 (s.evt_handler 2) (s.evt_data 2)) := by
      simp [call_event_handler, env_item1, record, run_ops]
    simp only [exec_scheduled_loop, hrm, hcall]
    have h23 : (some 2 : Option Nat) ≠ some 3 := by decide
    simp only [h23, if_false]
    have hn1 : (record s (Trace.event_handler 2 (s.evt_handler 2)
        (s.evt_data 2))).events_list.next (some 2) = some 2 := hn
    rw [hn1]
    exact ih _ hn hs

/-- C4, the code at the failing inputs: on the queue of work items 1, 2, where
the callback of item 1 dequeues item 2 (the peer that follows it, which is
also the snapshotted tail), the drain still invokes the callback of item 2;
on the queue 1, 2, 3, where the callback of item 1 dequeues item 2, the drain
never returns, whatever the fuel. -/
theorem C4_dequeued_peer_invoked :
    queue_items 2 queue12 = [1, 2] ∧
    (xio_ev_loop_exec_scheduled 3 (env_item1 [Op.remove_event 2]) queue12).map
      (fun r => invoked_events r.2.log) = some [1, 2] ∧
    queue_items 3 queue123 = [1, 2, 3] ∧
    ∀ fuel, xio_ev_loop_exec_scheduled fuel (env_item1 [Op.remove_event 2]) queue123 = none := by
  refine ⟨by decide, by decide, by decide, ?_⟩
  intro fuel
  have hne : list_empty queue123.events_list none = false := by decide
  have hp : queue123.events_list.prev none = some 3 := by decide
  have hh : queue123.events_list.next none = some 1 := by decide
  have h1 : queue123.events_list.next (some 1) = some 2 := by decide
  simp only [xio_ev_loop_exec_scheduled, hne, Bool.not_false, if_true, hp, hh, h1]
  cases fuel with
  | zero => rfl
  | succ fuel =>
    have h13 : (some 1 : Option Nat) ≠ some 3 := by decide
    simp only [exec_scheduled_loop, h13, if_false]
    have hn2 : (call_event_handler (env_item1 [Op.remove_event 2])
        (xio_ev_loop_remove_event queue123 1) 1).events_list.next (some 2) = some 2 := by
      decide
    rw [hn2]
    rw [exec_scheduled_loop_stuck [Op.remove_event 2] fuel _ hn2 (by decide)]

/-! ## C8, C9 and C10: `stop`, not-found, and `add` -/

/-- C8: `xio_ev_loop_stop` (1) returns the state unchanged, so without a
kernel call, when `stop_loop` is set, hence is idempotent; (2) otherwise sets
`stop_loop` and, when `in_dispatch` or `wakeup_armed` is set, changes nothing
else; (3) otherwise also sets `wakeup_armed` and records exactly one kernel
call, `EPOLL_CTL_MOD` on the wakeup descriptor with the mask
`EPOLLIN | EPOLLONESHOT` and the `NULL` pointer.  The Registry, the
deferred-work list and flags, the deletion buffer and `in_dispatch` are the
same in every case. -/
theorem C8_stop (env : Env) (s : State) :
    (s.stop_loop = true → xio_ev_loop_stop env s = s) ∧
    xio_ev_loop_stop env (xio_ev_loop_stop env s) = xio_ev_loop_stop env s ∧
    (s.stop_loop = false → (s.in_dispatch = true ∨ s.wakeup_armed = true) →
      xio_ev_loop_stop env s = { s with stop_loop := true }) ∧
    (s.stop_loop = false → s.in_dispatch = false → s.wakeup_armed = false →
      (xio_ev_loop_stop env s).stop_loop = true ∧
      (xio_ev_loop_stop env s).wakeup_armed = true ∧
      (xio_ev_loop_stop env s).log =
        Trace.epoll_ctl_mod s.wakeup_event
          { epollin := true, epollout := false, epollrdhup := false, epollet := false,
            epolloneshot := true } 0 :: s.log) ∧
    ((xio_ev_loop_stop env s).poll_events_list = s.poll_events_list ∧
      (xio_ev_loop_stop env s).events_list = s.events_list ∧
      (xio_ev_loop_stop env s).scheduled = s.scheduled ∧
      (xio_ev_loop_stop env s).deleted_events = s.deleted_events ∧
      (xio_ev_loop_stop env s).deleted_events_nr = s.deleted_events_nr ∧
      (xio_ev_loop_stop env s).in_dispatch = s.in_dispatch ∧
      (xio_ev_loop_stop env s).wakeup_event = s.wakeup_event) := by
  have hstop : (xio_ev_loop_stop env s).stop_loop = true := by
    unfold xio_ev_loop_stop xio_ev_loop_modify xio_ev_loop_modify_ctl record
    by_cases h1 : s.stop_loop = true
    · simp [h1]
    · by_cases h2 : s.in_dispatch = true
      · simp [h1, h2]
      · by_cases h3 : s.wakeup_armed = true
        · simp [h1, h2, h3]
        · simp only [h1, h2, h3]
          simp
          split <;> rfl
  refine ⟨?_, ?_, ?_, ?_, ?_⟩
  · intro h
    simp [xio_ev_loop_stop, h]
  · generalize xio_ev_loop_stop env s = t at hstop
    simp [xio_ev_loop_stop, hstop]
  · intro h1 h2
    unfold xio_ev_loop_stop
    rcases h2 with h2 | h2 <;> simp [h1, h2]
  · intro h1 h2 h3
    refine ⟨hstop, ?_, ?_⟩
    · unfold xio_ev_loop_stop xio_ev_loop_modify xio_ev_loop_modify_ctl record
      simp only [h1, h2, h3]
      simp
      split <;> rfl
    · unfold xio_ev_loop_stop xio_ev_loop_modify xio_ev_loop_modify_ctl record
      simp only [h1, h2, h3]
      simp
      split <;> rfl
  · unfold xio_ev_loop_stop xio_ev_loop_modify xio_ev_loop_modify_ctl record
    by_cases h1 : s.stop_loop = true
    · simp [h1]
    · by_cases h2 : s.in_dispatch = true
      · simp [h1, h2]
      · by_cases h3 : s.wakeup_armed = true
        · simp [h1, h2, h3]
        · simp only [h1, h2, h3]
          simp
          split <;> simp

/-- C8 at the empty reactor with wakeup descriptor 3: the one kernel call. -/
theorem C8_stop_witness :
    (xio_ev_loop_stop Env.quiet (State.init 3)).stop_loop = true ∧
    (xio_ev_loop_stop Env.quiet (State.init 3)).wakeup_armed = true ∧
    (xio_ev_loop_stop Env.quiet (State.init 3)).log =
      Trace.epoll_ctl_mod (State.init 3).wakeup_event
        { epollin := true, epollout := false, epollrdhup := false, epollet := false,
          epolloneshot := true } 0 :: (State.init 3).log :=
  (C8_stop Env.quiet (State.init 3)).2.2.2.1 rfl rfl rfl

theorem lookup_none (s : State) (fd : Int)
    (h : ∀ tev ∈ s.poll_events_list, s.tev_fd tev ≠ fd) : xio_event_lookup s fd = none := by
  unfold xio_event_lookup
  rw [List.find?_eq_none]
  intro tev ht
  simpa using h tev ht

/-- C9: for a descriptor that is not the wakeup descriptor and is the `fd` of
no record of the Registry, `xio_ev_loop_modify` and `xio_ev_loop_del` return
-1 and leave the state as it was but for the error code, which is `ENOENT`:
no kernel call is recorded, and the Registry, the deletion buffer and its
count are unchanged. -/
theorem C9_not_found (env : Env) (s : State) (fd : Int) (events : XioEvents)
    (hfd : fd ≠ s.wakeup_event) (h : ∀ tev ∈ s.poll_events_list, s.tev_fd tev ≠ fd) :
    xio_ev_loop_modify env s fd events = (-1, { s with xio_errno := ENOENT }) ∧
    xio_ev_loop_del env s fd = (-1, { s with xio_errno := ENOENT }) ∧
    (xio_ev_loop_modify env s fd events).2.log = s.log ∧
    (xio_ev_loop_del env s fd).2.log = s.log ∧
    (xio_ev_loop_modify env s fd events).2.poll_events_list = s.poll_events_list ∧
    (xio_ev_loop_del env s fd).2.poll_events_list = s.poll_events_list ∧
    (xio_ev_loop_modify env s fd events).2.deleted_events = s.deleted_events ∧
    (xio_ev_loop_del env s fd).2.deleted_events = s.deleted_events ∧
    (xio_ev_loop_modify env s fd events).2.deleted_events_nr = s.deleted_events_nr ∧
    (xio_ev_loop_del env s fd).2.deleted_events_nr = s.deleted_events_nr := by
  have hl := lookup_none s fd h
  have hm : xio_ev_loop_modify env s fd events = (-1, { s with xio_errno := ENOENT }) := by
    simp [xio_ev_loop_modify, hfd, hl]
  have hd : xio_ev_loop_del env s fd = (-1, { s with xio_errno := ENOENT }) := by
    simp [xio_ev_loop_del, hfd, hl]
  rw [hm, hd]
  simp

/-- C9 at a reactor whose Registry is empty, for descriptor 5. -/
theorem C9_not_found_witness :
    xio_ev_loop_modify Env.quiet (State.init 3) 5 XIO_POLLIN_ONESHOT =
      (-1, { State.init 3 with xio_errno := ENOENT }) ∧
    xio_ev_loop_del Env.quiet (State.init 3) 5 = (-1, { State.init 3 with xio_errno := ENOENT }) :=
  ⟨(C9_not_found Env.quiet (State.init 3) 5 XIO_POLLIN_ONESHOT (by decide)
      (by intro tev ht; simp [State.init] at ht)).1,
    (C9_not_found Env.quiet (State.init 3) 5 XIO_POLLIN_ONESHOT (by decide)
      (by intro tev ht; simp [State.init] at ht)).2.1⟩

/-- C10: `xio_ev_loop_add` for a descriptor other than the wakeup descriptor,
when the allocation succeeds with address `tev`, hands `tev` to the kernel as
the opaque pointer of one `EPOLL_CTL_ADD` call; if the kernel rejects the call
it returns the kernel's non-zero result and the Registry is what it was
before the call; if the kernel accepts it returns 0 and the Registry is the
old one with the one record `tev` in front, holding the descriptor, the
callback and the datum.  For the wakeup descriptor nothing is allocated, the
opaque pointer is `NULL` and the Registry is unchanged. -/
theorem C10_add_atomic (env : Env) (s : State) (fd : Int) (events : XioEvents)
    (handler data : Nat) :
    (fd ≠ s.wakeup_event → env.ucalloc (Trace.ucalloc :: s.log) ≠ 0 →
      (env.epoll_ctl (Trace.epoll_ctl_add fd (translate_events events)
          (env.ucalloc (Trace.ucalloc :: s.log)) :: Trace.ucalloc :: s.log) ≠ 0 →
        (xio_ev_loop_add env s fd events handler data).1 ≠ 0 ∧
        (xio_ev_loop_add env s fd events handler data).2.poll_events_list =
          s.poll_events_list ∧
        (xio_ev_loop_add env s fd events handler data).2.log =
          Trace.ufree (env.ucalloc (Trace.ucalloc :: s.log)) ::
            Trace.epoll_ctl_add fd (translate_events events)
              (env.ucalloc (Trace.ucalloc :: s.log)) :: Trace.ucalloc :: s.log) ∧
      (env.epoll_ctl (Trace.epoll_ctl_add fd (translate_events events)
          (env.ucalloc (Trace.ucalloc :: s.log)) :: Trace.ucalloc :: s.log) = 0 →
        (xio_ev_loop_add env s fd events handler data).1 = 0 ∧
        (xio_ev_loop_add env s fd events handler data).2.poll_events_list =
          env.ucalloc (Trace.ucalloc :: s.log) :: s.poll_events_list ∧
        (xio_ev_loop_add env s fd events handler data).2.tev_fd
          (env.ucalloc (Trace.ucalloc :: s.log)) = fd ∧
        (xio_ev_loop_add env s fd events handler data).2.tev_handler
          (env.ucalloc (Trace.ucalloc :: s.log)) = handler ∧
        (xio_ev_loop_add env s fd events handler data).2.tev_data
          (env.ucalloc (Trace.ucalloc :: s.log)) = data ∧
        (xio_ev_loop_add env s fd events handler data).2.log =
          Trace.epoll_ctl_add fd (translate_events events)
            (env.ucalloc (Trace.ucalloc :: s.log)) :: Trace.ucalloc :: s.log)) ∧
    (fd = s.wakeup_event →
      (xio_ev_loop_add env s fd events handler data).2.poll_events_list = s.poll_events_list ∧
      ((xio_ev_loop_add env s fd events handler data).2.log =
          Trace.epoll_ctl_add fd (translate_events events) 0 :: s.log ∨
        (xio_ev_loop_add env s fd events handler data).2.log =
          Trace.ufree 0 :: Trace.epoll_ctl_add fd (translate_events events) 0 :: s.log)) := by
  refine ⟨?_, ?_⟩
  · intro hfd ha
    refine ⟨?_, ?_⟩
    · intro hk
      simp [xio_ev_loop_add, xio_ev_loop_add_ctl, record, hfd, ha, hk]
    · intro hk
      simp [xio_ev_loop_add, xio_ev_loop_add_ctl, record, hfd, ha, hk]
  · intro hfd
    simp only [xio_ev_loop_add, xio_ev_loop_add_ctl, record, hfd]
    simp
    split <;> simp

/-- C10 at the empty reactor with a kernel that rejects the add of
descriptor 5. -/
theorem C10_add_atomic_witness :
    (xio_ev_loop_add env_reject (State.init 3) 5 XIO_POLLIN_ONESHOT 11 12).1 ≠ 0 ∧
    (xio_ev_loop_add env_reject (State.init 3) 5 XIO_POLLIN_ONESHOT 11 12).2.poll_events_list =
      (State.init 3).poll_events_list ∧
    (xio_ev_loop_add env_reject (State.init 3) 5 XIO_POLLIN_ONESHOT 11 12).2.log =
      Trace.ufree (env_reject.ucalloc (Trace.ucalloc :: (State.init 3).log)) ::
        Trace.epoll_ctl_add 5 (translate_events XIO_POLLIN_ONESHOT)
          (env_reject.ucalloc (Trace.ucalloc :: (State.init 3).log)) ::
          Trace.ucalloc :: (State.init 3).log :=
  (C10_add_atomic env_reject (State.init 3) 5 XIO_POLLIN_ONESHOT 11 12).1
    (by decide) (by decide) |>.1 (by decide)

/-! ## The deletion-deferral buffer during batch dispatch -/

theorem deleted_found_iff (s : State) (tev : Nat) :
    deleted_found s tev = true ↔ InDeleted s tev := by
  unfold deleted_found InDeleted
  simp [List.any_eq_true]

theorem add_ctl_deleted (env : Env) (s : State) (fd : Int) (ev : EpollEvents) (tev : Nat) :
    (xio_ev_loop_add_ctl env s fd ev tev).2.deleted_events = s.deleted_events ∧
    (xio_ev_loop_add_ctl env s fd ev tev).2.deleted_events_nr = s.deleted_events_nr := by
  unfold xio_ev_loop_add_ctl record
  dsimp only
  split <;> [split; skip] <;> simp

theorem add_deleted (env : Env) (s : State) (fd : Int) (events : XioEvents) (handler data : Nat) :
    (xio_ev_loop_add env s fd events handler data).2.deleted_events = s.deleted_events ∧
    (xio_ev_loop_add env s fd events handler data).2.deleted_events_nr =
      s.deleted_events_nr := by
  unfold xio_ev_loop_add
  dsimp only
  split
  · split
    · simp [record]
    · exact add_ctl_deleted _ _ _ _ _
  · exact add_ctl_deleted _ _ _ _ _

theorem del_ctl_deleted (env : Env) (s : State) (fd : Int) :
    (xio_ev_loop_del_ctl env s fd).2.deleted_events = s.deleted_events ∧
    (xio_ev_loop_del_ctl env s fd).2.deleted_events_nr = s.deleted_events_nr := by
  unfold xio_ev_loop_del_ctl record
  dsimp only
  split <;> simp

theorem modify_ctl_deleted (env : Env) (s : State) (fd : Int) (events : XioEvents)
    (tev : Nat) :
    (xio_ev_loop_modify_ctl env s fd events tev).2.deleted_events = s.deleted_events ∧
    (xio_ev_loop_modify_ctl env s fd events tev).2.deleted_events_nr =
      s.deleted_events_nr := by
  unfold xio_ev_loop_modify_ctl record
  dsimp only
  split <;> simp

theorem modify_deleted (env : Env) (s : State) (fd : Int) (events : XioEvents) :
    (xio_ev_loop_modify env s fd events).2.deleted_events = s.deleted_events ∧
    (xio_ev_loop_modify env s fd events).2.deleted_events_nr = s.deleted_events_nr := by
  unfold xio_ev_loop_modify
  split
  · split
    · simp
    · exact modify_ctl_deleted _ _ _ _ _
  · exact modify_ctl_deleted _ _ _ _ _

theorem stop_deleted (env : Env) (s : State) :
    (xio_ev_loop_stop env s).deleted_events = s.deleted_events ∧
    (xio_ev_loop_stop env s).deleted_events_nr = s.deleted_events_nr := by
  unfold xio_ev_loop_stop
  split
  · simp
  · dsimp only
    split
    · simp
    · exact modify_deleted _ _ _ _

theorem inDeleted_congr (s t : State) (tev : Nat)
    (h : t.deleted_events = s.deleted_events ∧ t.deleted_events_nr = s.deleted_events_nr)
    (hs : InDeleted s tev) : InDeleted t tev := by
  unfold InDeleted at hs ⊢
  rw [h.1, h.2]
  exact hs

theorem del_inDeleted (env : Env) (s : State) (fd : Int) (tev : Nat) (h : InDeleted s tev) :
    InDeleted (xio_ev_loop_del env s fd).2 tev := by
  unfold xio_ev_loop_del
  split
  · split
    · exact h
    · dsimp only
      split
      · apply inDeleted_congr _ _ _ (del_ctl_deleted _ _ _)
        obtain ⟨j, hj, he⟩ := h
        refine ⟨j, Nat.lt_succ_of_lt hj, ?_⟩
        simp [Function.update_apply, Nat.ne_of_lt hj, he]
      · exact inDeleted_congr _ _ _ (del_ctl_deleted _ _ _) h
  · exact inDeleted_congr _ _ _ (del_ctl_deleted _ _ _) h

theorem del_buffers (env : Env) (s : State) (fd : Int) (tev : Nat)
    (hfd : fd ≠ s.wakeup_event) (hl : xio_event_lookup s fd = some tev)
    (hroom : s.deleted_events_nr < MAX_DELETED_EVENTS) :
    InDeleted (xio_ev_loop_del env s fd).2 tev := by
  unfold xio_ev_loop_del
  simp only [hfd, ne_eq, not_false_eq_true, if_true, hl, hroom]
  apply inDeleted_congr _ _ _ (del_ctl_deleted _ _ _)
  exact ⟨s.deleted_events_nr, Nat.lt_succ_self _, by simp⟩

theorem add_event_deleted (s : State) (evt : Nat) :
    (xio_ev_loop_add_event s evt).deleted_events = s.deleted_events ∧
    (xio_ev_loop_add_event s evt).deleted_events_nr = s.deleted_events_nr := by
  unfold xio_ev_loop_add_event
  split <;> simp

theorem remove_event_deleted (s : State) (evt : Nat) :
    (xio_ev_loop_remove_event s evt).deleted_events = s.deleted_events ∧
    (xio_ev_loop_remove_event s evt).deleted_events_nr = s.deleted_events_nr := by
  unfold xio_ev_loop_remove_event
  split <;> simp

theorem apply_op_inDeleted (env : Env) (s : State) (op : Op) (tev : Nat)
    (h : InDeleted s tev) : InDeleted (apply_op env s op) tev := by
  cases op with
  | add fd events handler data => exact inDeleted_congr _ _ _ (add_deleted _ _ _ _ _ _) h
  | del fd => exact del_inDeleted _ _ _ _ h
  | modify fd events => exact inDeleted_congr _ _ _ (modify_deleted _ _ _ _) h
  | add_event evt => exact inDeleted_congr _ _ _ (add_event_deleted _ _) h
  | remove_event evt => exact inDeleted_congr _ _ _ (remove_event_deleted _ _) h
  | stop => exact inDeleted_congr _ _ _ (stop_deleted _ _) h

theorem run_ops_inDeleted (env : Env) (ops : List Op) (tev : Nat) :
    ∀ s : State, InDeleted s tev → InDeleted (run_ops env s ops) tev := by
  induction ops with
  | nil => intro s h; exact h
  | cons op ops ih =>
    intro s h
    exact ih _ (apply_op_inDeleted env s op tev h)

theorem call_handler_log (env : Env) (s : State) (tev events : Nat) :
    ∃ lg, (call_handler env s tev events).log =
        lg ++ Trace.handler tev (s.tev_handler tev) (s.tev_fd tev) events (s.tev_data tev)
          :: s.log ∧
      ∀ t ∈ lg, t.isCtl = true := by
  obtain ⟨lg, h1, h2⟩ := run_ops_log env
    (env.handler (record s (Trace.handler tev (s.tev_handler tev) (s.tev_fd tev) events
      (s.tev_data tev))).log)
    (record s (Trace.handler tev (s.tev_handler tev) (s.tev_fd tev) events (s.tev_data tev)))
  exact ⟨lg, h1, h2⟩

theorem dispatch_event_deleted (env : Env) (s : State) (e : EpollEvent) (tev : Nat)
    (h : InDeleted s tev) :
    InDeleted (dispatch_event env s e) tev ∧
    ∃ new, (dispatch_event env s e).log = new ++ s.log ∧ tev ∉ invoked_handlers new := by
  unfold dispatch_event
  split
  · split
    · exact ⟨h, [], rfl, by simp [invoked_handlers]⟩
    · rename_i hnf
      have hne : e.ptr ≠ tev := by
        intro c
        rw [c] at hnf
        exact hnf ((deleted_found_iff s tev).2 h)
      refine ⟨run_ops_inDeleted env _ tev _ h, ?_⟩
      obtain ⟨lg, h1, h2⟩ := call_handler_log env s e.ptr e.events
      refine ⟨lg ++ [Trace.handler e.ptr (s.tev_handler e.ptr) (s.tev_fd e.ptr) e.events
        (s.tev_data e.ptr)], by rw [h1]; simp, ?_⟩
      rw [invoked_handlers_append, (ctl_views lg h2).2.1]
      simp [invoked_handlers, Ne.symm hne]
  · split
    · exact ⟨h, [], rfl, by simp [invoked_handlers]⟩
    · exact ⟨h, [], rfl, by simp [invoked_handlers]⟩

theorem dispatch_batch_deleted (env : Env) (tev : Nat) (batch : List EpollEvent) :
    ∀ s : State, InDeleted s tev →
      InDeleted (dispatch_batch env s batch) tev ∧
      ∃ new, (dispatch_batch env s batch).log = new ++ s.log ∧
        tev ∉ invoked_handlers new := by
  induction batch with
  | nil => intro s h; exact ⟨h, [], rfl, by simp [invoked_handlers]⟩
  | cons e batch ih =>
    intro s h
    obtain ⟨h1, n1, e1, m1⟩ := dispatch_event_deleted env s e tev h
    obtain ⟨h2, n2, e2, m2⟩ := ih _ h1
    refine ⟨h2, n2 ++ n1, ?_, ?_⟩
    · simp only [dispatch_batch]
      rw [e2, e1, List.append_assoc]
    · rw [invoked_handlers_append]
      simp [m1, m2]

/-! ## C5 -/

set_option maxRecDepth 100000 in
/-- C5, counterexample: in a reactor whose deletion-deferral buffer holds 1024
records, with the events of records 1 and 2 in the batch being dispatched, the
callback of record 1 unregisters descriptor 2; `xio_ev_loop_del` finds record
2, issues the kernel delete and returns, and the dispatcher then invokes the
callback of record 2. -/
theorem C5_counterexample :
    xio_event_lookup full_buffer 2 = some 2 ∧
    (dispatch_batch (env_record1 [Op.del 2]) full_buffer
      [{ ptr := 1, events := 1 }, { ptr := 2, events := 1 }]).log =
    [Trace.handler 2 0 2 1 0, Trace.epoll_ctl_del 2, Trace.handler 1 0 1 1 0] := by
  decide

/-- C5, amended: when `xio_ev_loop_del` is called for a registered descriptor
(not the wakeup descriptor) with record `tev` while the deletion-deferral
buffer holds fewer than 1024 records, then after it returns, whatever the
running callback goes on to call (`ops`) and whatever events remain in the
batch being dispatched (`batch`), the callback of `tev` is not invoked in the
rest of that batch, and `tev` stays in the buffer until the batch is done. -/
theorem C5_no_callback_after_del (env : Env) (s : State) (fd : Int) (tev : Nat)
    (hfd : fd ≠ s.wakeup_event) (hl : xio_event_lookup s fd = some tev)
    (hroom : s.deleted_events_nr < MAX_DELETED_EVENTS)
    (ops : List Op) (batch : List EpollEvent) :
    InDeleted (dispatch_batch env (run_ops env (xio_ev_loop_del env s fd).2 ops) batch) tev ∧
    ∃ new, (dispatch_batch env (run_ops env (xio_ev_loop_del env s fd).2 ops) batch).log =
        new ++ (xio_ev_loop_del env s fd).2.log ∧
      tev ∉ invoked_handlers new := by
  have h1 := del_buffers env s fd tev hfd hl hroom
  have h2 := run_ops_inDeleted env ops tev _ h1
  obtain ⟨h3, new, e3, m3⟩ := dispatch_batch_deleted env tev batch _ h2
  obtain ⟨lg, e4, p4⟩ := run_ops_log env ops (xio_ev_loop_del env s fd).2
  refine ⟨h3, new ++ lg, by rw [e3, e4, List.append_assoc], ?_⟩
  rw [invoked_handlers_append, (ctl_views lg p4).2.1]
  simpa using m3

/-- C5, amended, at a reactor with registered descriptors 1 and 2 and an empty
buffer: descriptor 2 is unregistered, then the events of records 1 and 2 are
dispatched. -/
theorem C5_no_callback_after_del_witness :
    InDeleted (dispatch_batch Env.quiet
      (run_ops Env.quiet
        (xio_ev_loop_del Env.quiet { full_buffer with deleted_events_nr := 0 } 2).2 [])
      [{ ptr := 1, events := 1 }, { ptr := 2, events := 1 }]) 2 ∧
    ∃ new, (dispatch_batch Env.quiet
        (run_ops Env.quiet
          (xio_ev_loop_del Env.quiet { full_buffer with deleted_events_nr := 0 } 2).2 [])
        [{ ptr := 1, events := 1 }, { ptr := 2, events := 1 }]).log =
        new ++ (xio_ev_loop_del Env.quiet { full_buffer with deleted_events_nr := 0 } 2).2.log ∧
      2 ∉ invoked_handlers new :=
  C5_no_callback_after_del Env.quiet { full_buffer with deleted_events_nr := 0 } 2 2
    (by decide) (by decide) (by decide) []
    [{ ptr := 1, events := 1 }, { ptr := 2, events := 1 }]

/-! ## Flags and histories along a run -/

theorem add_ctl_flags (env : Env) (s : State) (fd : Int) (ev : EpollEvents) (tev : Nat) :
    (xio_ev_loop_add_ctl env s fd ev tev).2.stop_loop = s.stop_loop ∧
    (xio_ev_loop_add_ctl env s fd ev tev).2.wakeup_armed = s.wakeup_armed ∧
    (xio_ev_loop_add_ctl env s fd ev tev).2.in_dispatch = s.in_dispatch ∧
    (xio_ev_loop_add_ctl env s fd ev tev).2.wakeup_event = s.wakeup_event := by
  unfold xio_ev_loop_add_ctl record
  dsimp only
  split <;> [split; skip] <;> simp

theorem add_flags (env : Env) (s : State) (fd : Int) (events : XioEvents) (handler data : Nat) :
    (xio_ev_loop_add env s fd events handler data).2.stop_loop = s.stop_loop ∧
    (xio_ev_loop_add env s fd events handler data).2.wakeup_armed = s.wakeup_armed ∧
    (xio_ev_loop_add env s fd events handler data).2.in_dispatch = s.in_dispatch ∧
    (xio_ev_loop_add env s fd events handler data).2.wakeup_event = s.wakeup_event := by
  unfold xio_ev_loop_add
  dsimp only
  split
  · split
    · simp [record]
    · exact add_ctl_flags _ _ _ _ _
  · exact add_ctl_flags _ _ _ _ _

theorem del_ctl_flags (env : Env) (s : State) (fd : Int) :
    (xio_ev_loop_del_ctl env s fd).2.stop_loop = s.stop_loop ∧
    (xio_ev_loop_del_ctl env s fd).2.wakeup_armed = s.wakeup_armed ∧
    (xio_ev_loop_del_ctl env s fd).2.in_dispatch = s.in_dispatch ∧
    (xio_ev_loop_del_ctl env s fd).2.wakeup_event = s.wakeup_event := by
  unfold xio_ev_loop_del_ctl record
  dsimp only
  split <;> simp

theorem del_flags (env : Env) (s : State) (fd : Int) :
    (xio_ev_loop_del env s fd).2.stop_loop = s.stop_loop ∧
    (xio_ev_loop_del env s fd).2.wakeup_armed = s.wakeup_armed ∧
    (xio_ev_loop_del env s fd).2.in_dispatch = s.in_dispatch ∧
    (xio_ev_loop_del env s fd).2.wakeup_event = s.wakeup_event := by
  unfold xio_ev_loop_del
  split
  · split
    · simp
    · dsimp only
      split
      · exact del_ctl_flags _ _ _
      · exact del_ctl_flags _ _ _
  · exact del_ctl_flags _ _ _

theorem modify_ctl_flags (env : Env) (s : State) (fd : Int) (events : XioEvents) (tev : Nat) :
    (xio_ev_loop_modify_ctl env s fd events tev).2.stop_loop = s.stop_loop ∧
    (xio_ev_loop_modify_ctl env s fd events tev).2.wakeup_armed = s.wakeup_armed ∧
    (xio_ev_loop_modify_ctl env s fd events tev).2.in_dispatch = s.in_dispatch ∧
    (xio_ev_loop_modify_ctl env s fd events tev).2.wakeup_event = s.wakeup_event := by
  unfold xio_ev_loop_modify_ctl record
  dsimp only
  split <;> simp

theorem modify_flags (env : Env) (s : State) (fd : Int) (events : XioEvents) :
    (xio_ev_loop_modify env s fd events).2.stop_loop = s.stop_loop ∧
    (xio_ev_loop_modify env s fd events).2.wakeup_armed = s.wakeup_armed ∧
    (xio_ev_loop_modify env s fd events).2.in_dispatch = s.in_dispatch ∧
    (xio_ev_loop_modify env s fd events).2.wakeup_event = s.wakeup_event := by
  unfold xio_ev_loop_modify
  split
  · split
    · simp
    · exact modify_ctl_flags _ _ _ _ _
  · exact modify_ctl_flags _ _ _ _ _

theorem stop_sets_stop_loop (env : Env) (s : State) :
    (xio_ev_loop_stop env s).stop_loop = true := by
  unfold xio_ev_loop_stop
  by_cases h1 : s.stop_loop = true
  · simp [h1]
  · simp only [h1, Bool.false_eq_true, if_false]
    split
    · rfl
    · rw [(modify_flags _ _ _ _).1]

theorem add_event_flags (s : State) (evt : Nat) :
    (xio_ev_loop_add_event s evt).stop_loop = s.stop_loop := by
  unfold xio_ev_loop_add_event
  split <;> rfl

theorem remove_event_flags (s : State) (evt : Nat) :
    (xio_ev_loop_remove_event s evt).stop_loop = s.stop_loop := by
  unfold xio_ev_loop_remove_event
  split <;> rfl

theorem apply_op_stop_loop (env : Env) (s : State) (op : Op)
    (h : s.stop_loop = true ∨ op = Op.stop) : (apply_op env s op).stop_loop = true := by
  cases op with
  | add fd events handler data =>
    simp only [apply_op, (add_flags _ _ _ _ _ _).1]; simpa using h
  | del fd => simp only [apply_op, (del_flags _ _ _).1]; simpa using h
  | modify fd events =>
    simp only [apply_op, (modify_flags _ _ _ _).1]; simpa using h
  | add_event evt => simp only [apply_op, add_event_flags]; simpa using h
  | remove_event evt => simp only [apply_op, remove_event_flags]; simpa using h
  | stop => exact stop_sets_stop_loop _ _

theorem run_ops_stop_loop (env : Env) (ops : List Op) :
    ∀ s : State, s.stop_loop = true ∨ Op.stop ∈ ops → (run_ops env s ops).stop_loop = true := by
  induction ops with
  | nil => intro s h; simpa using h
  | cons op ops ih =>
    intro s h
    apply ih
    rcases h with h | h
    · exact Or.inl (apply_op_stop_loop env s op (Or.inl h))
    · rcases List.mem_cons.1 h with h | h
      · exact Or.inl (apply_op_stop_loop env s op (Or.inr h.symm))
      · exact Or.inr h

theorem dispatch_event_stop_loop (env : Env) (s : State) (e : EpollEvent)
    (h : s.stop_loop = true) : (dispatch_event env s e).stop_loop = true := by
  unfold dispatch_event
  split
  · split
    · exact h
    · exact run_ops_stop_loop env _ _ (Or.inl h)
  · split
    · rfl
    · exact h

theorem dispatch_batch_stop_loop (env : Env) (batch : List EpollEvent) :
    ∀ s : State, s.stop_loop = true → (dispatch_batch env s batch).stop_loop = true := by
  induction batch with
  | nil => intro s h; exact h
  | cons e batch ih =>
    intro s h
    exact ih _ (dispatch_event_stop_loop env s e h)

theorem dispatch_batch_append (env : Env) (a b : List EpollEvent) :
    ∀ s : State, dispatch_batch env s (a ++ b) = dispatch_batch env (dispatch_batch env s a) b := by
  induction a with
  | nil => intro s; rfl
  | cons e a ih => intro s; exact ih _

theorem logExt_refl (p : Trace → Bool) (lg : List Trace) : LogExt p lg lg :=
  ⟨[], rfl, by simp⟩

theorem logExt_trans (p : Trace → Bool) (a b c : List Trace) (h1 : LogExt p a b)
    (h2 : LogExt p b c) : LogExt p a c := by
  obtain ⟨n1, e1, p1⟩ := h1
  obtain ⟨n2, e2, p2⟩ := h2
  refine ⟨n2 ++ n1, by rw [e2, e1, List.append_assoc], ?_⟩
  intro t ht
  rcases List.mem_append.1 ht with h | h
  · exact p2 t h
  · exact p1 t h

theorem logExt_cons (p : Trace → Bool) (lg : List Trace) (t : Trace) (h : p t = true) :
    LogExt p lg (t :: lg) :=
  ⟨[t], rfl, by simpa using h⟩

theorem logExt_of_ctl (p : Trace → Bool) (hp : ∀ t, t.isCtl = true → p t = true)
    (a b : List Trace) (h : CtlExt a b) : LogExt p a b := by
  obtain ⟨n, e, q⟩ := h
  exact ⟨n, e, fun t ht => hp t (q t ht)⟩

theorem isDeferred_of_isCtl (t : Trace) (h : t.isCtl = true) : t.isDeferred = true := by
  cases t <;> simp_all [Trace.isDeferred, Trace.isCtl]

theorem deferred_views (new : List Trace) (h : ∀ t ∈ new, t.isDeferred = true) :
    invoked_handlers new = [] ∧ waits new = [] := by
  induction new with
  | nil => exact ⟨rfl, rfl⟩
  | cons t new ih =>
    have ht := h t (List.mem_cons_self _ _)
    have ih1 := ih (fun u hu => h u (List.mem_cons_of_mem _ hu))
    cases t <;> simp [Trace.isDeferred, Trace.isCtl] at ht <;>
      simp [invoked_handlers, waits, ih1]

theorem call_event_handler_deferred (env : Env) (s : State) (tev : Nat) :
    LogExt Trace.isDeferred s.log (call_event_handler env s tev).log := by
  unfold call_event_handler
  exact logExt_trans _ _ _ _
    (logExt_cons Trace.isDeferred s.log
      (Trace.event_handler tev (s.evt_handler tev) (s.evt_data tev)) rfl)
    (logExt_of_ctl _ isDeferred_of_isCtl _ _ (run_ops_log env _ _))

theorem exec_scheduled_loop_deferred (env : Env) (last_sched : Option Nat) :
    ∀ (fuel : Nat) (s : State) (pos n : Option Nat) (s1 : State),
      exec_scheduled_loop env last_sched fuel s pos n = some s1 →
      LogExt Trace.isDeferred s.log s1.log := by
  intro fuel
  induction fuel with
  | zero => intro s pos n s1 h; simp [exec_scheduled_loop] at h
  | succ fuel ih =>
    intro s pos n s1 h
    cases pos with
    | none =>
      simp only [exec_scheduled_loop, Option.some.injEq] at h
      subst h
      exact logExt_refl _ _
    | some tev =>
      simp only [exec_scheduled_loop] at h
      have h1 : LogExt Trace.isDeferred s.log
          (call_event_handler env (xio_ev_loop_remove_event s tev) tev).log := by
        have := call_event_handler_deferred env (xio_ev_loop_remove_event s tev) tev
        rwa [remove_event_log] at this
      split at h
      · simp only [Option.some.injEq] at h
        subst h
        exact h1
      · exact logExt_trans _ _ _ _ h1 (ih _ _ _ _ h)

theorem exec_scheduled_deferred (fuel : Nat) (env : Env) (s : State) (r : Bool × State)
    (h : xio_ev_loop_exec_scheduled fuel env s = some r) :
    LogExt Trace.isDeferred s.log r.2.log := by
  unfold xio_ev_loop_exec_scheduled at h
  split at h
  · dsimp only at h
    split at h
    · simp at h
    · rename_i s1 hs1
      simp only [Option.some.injEq] at h
      subst h
      exact exec_scheduled_loop_deferred env _ _ _ _ _ _ hs1
  · simp only [Option.some.injEq] at h
    subst h
    exact logExt_refl _ _

theorem run_helper_drain_deferred (env : Env) :
    ∀ (fuel : Nat) (s s1 : State), run_helper_drain env fuel s = some s1 →
      LogExt Trace.isDeferred s.log s1.log := by
  intro fuel
  induction fuel with
  | zero => intro s s1 h; simp [run_helper_drain] at h
  | succ fuel ih =>
    intro s s1 h
    simp only [run_helper_drain] at h
    split at h
    · split at h
      · simp at h
      · rename_i r hr
        exact logExt_trans _ _ _ _ (exec_scheduled_deferred fuel env s r hr) (ih _ _ h)
    · simp only [Option.some.injEq] at h
      subst h
      exact logExt_refl _ _

theorem free_deleted_loop_deferred :
    ∀ (n : Nat) (s : State), LogExt Trace.isDeferred s.log (free_deleted_loop n s).log := by
  intro n
  induction n with
  | zero => intro s; exact logExt_refl _ _
  | succ n ih =>
    intro s
    simp only [free_deleted_loop]
    refine logExt_trans _ _ _ _ ?_ (ih _)
    exact logExt_cons Trace.isDeferred s.log (Trace.ufree _) rfl

theorem run_helper_exit_deferred (env : Env) (fuel : Nat) (s : State) (r : Int × State)
    (h : run_helper_exit env fuel s = some r) :
    r.1 = 0 ∧ r.2.stop_loop = false ∧ r.2.wakeup_armed = false ∧
      LogExt Trace.isDeferred s.log r.2.log := by
  unfold run_helper_exit at h
  split at h
  · simp at h
  · rename_i s1 hs1
    simp only [Option.some.injEq] at h
    subst h
    refine ⟨rfl, rfl, rfl, ?_⟩
    exact logExt_trans _ _ _ _ (run_helper_drain_deferred env fuel s s1 hs1)
      (free_deleted_loop_deferred _ _)

theorem dispatch_event_log (env : Env) (s : State) (e : EpollEvent) :
    ∃ lg, (dispatch_event env s e).log = lg ++ s.log := by
  unfold dispatch_event
  split
  · split
    · exact ⟨[], rfl⟩
    · obtain ⟨lg, h1, _⟩ := call_handler_log env s e.ptr e.events
      exact ⟨lg ++ [Trace.handler e.ptr (s.tev_handler e.ptr) (s.tev_fd e.ptr) e.events
        (s.tev_data e.ptr)], by rw [h1]; simp⟩
  · split
    · exact ⟨[], rfl⟩
    · exact ⟨[], rfl⟩

theorem dispatch_batch_log (env : Env) (batch : List EpollEvent) :
    ∀ s : State, ∃ lg, (dispatch_batch env s batch).log = lg ++ s.log := by
  induction batch with
  | nil => intro s; exact ⟨[], rfl⟩
  | cons e batch ih =>
    intro s
    obtain ⟨l1, h1⟩ := dispatch_event_log env s e
    obtain ⟨l2, h2⟩ := ih (dispatch_event env s e)
    exact ⟨l2 ++ l1, by simp only [dispatch_batch]; rw [h2, h1, List.append_assoc]⟩

theorem dispatch_event_calls (env : Env) (s : State) (e : EpollEvent) (he : e.ptr ≠ 0)
    (hdel : deleted_found s e.ptr = false) :
    dispatch_event env s e = call_handler env s e.ptr e.events := by
  simp [dispatch_event, he, hdel]

theorem run_helper_retry_error (env : Env) (wait_time : Int) (fuel : Nat) (s : State)
    (timeout : Int) (work_remains : Bool) (s1 : State) (errno : Int)
    (hexec : xio_ev_loop_exec_scheduled fuel env s = some (work_remains, s1))
    (hwait : env.epoll_wait (run_helper_wait s1 (if work_remains = true then 0 else timeout)).log
      = WaitResult.error errno) :
    run_helper_retry env wait_time (fuel + 1) s timeout =
      if errno ≠ EINTR then
        some (-1, { run_helper_wait s1 (if work_remains = true then 0 else timeout) with
          xio_errno := errno })
      else
        run_helper_retry env wait_time fuel
          (run_helper_wait s1 (if work_remains = true then 0 else timeout)) timeout := by
  simp only [run_helper_retry, hexec, hwait]

theorem run_helper_retry_ready (env : Env) (wait_time : Int) (fuel : Nat) (s : State)
    (timeout : Int) (work_remains : Bool) (s1 : State) (batch : List EpollEvent)
    (hexec : xio_ev_loop_exec_scheduled fuel env s = some (work_remains, s1))
    (hwait : env.epoll_wait (run_helper_wait s1 (if work_remains = true then 0 else timeout)).log
      = WaitResult.ready batch) :
    run_helper_retry env wait_time (fuel + 1) s timeout =
      if (run_helper_remaining env
          (run_helper_events env (run_helper_wait s1 (if work_remains = true then 0 else timeout))
            (if work_remains = true then 0 else timeout) timeout batch)
          wait_time timeout).1.stop_loop = false then
        run_helper_retry env wait_time fuel
          (run_helper_remaining env
            (run_helper_events env
              (run_helper_wait s1 (if work_remains = true then 0 else timeout))
              (if work_remains = true then 0 else timeout) timeout batch)
            wait_time timeout).1
          (run_helper_remaining env
            (run_helper_events env
              (run_helper_wait s1 (if work_remains = true then 0 else timeout))
              (if work_remains = true then 0 else timeout) timeout batch)
            wait_time timeout).2
      else
        run_helper_exit env fuel
          (run_helper_remaining env
            (run_helper_events env
              (run_helper_wait s1 (if work_remains = true then 0 else timeout))
              (if work_remains = true then 0 else timeout) timeout batch)
            wait_time timeout).1 := by
  simp only [run_helper_retry, hexec, hwait]

theorem run_helper_retry_result (env : Env) (wait_time : Int) :
    ∀ (fuel : Nat) (s : State) (timeout : Int) (r : Int × State),
      run_helper_retry env wait_time fuel s timeout = some r →
      r.1 = -1 ∨ (r.1 = 0 ∧ r.2.stop_loop = false ∧ r.2.wakeup_armed = false) := by
  intro fuel
  induction fuel with
  | zero => intro s timeout r h; simp [run_helper_retry] at h
  | succ fuel ih =>
    intro s timeout r h
    cases hexec : xio_ev_loop_exec_scheduled fuel env s with
    | none => simp [run_helper_retry, hexec] at h
    | some p =>
      obtain ⟨work_remains, s1⟩ := p
      cases hwait : env.epoll_wait
          (run_helper_wait s1 (if work_remains = true then 0 else timeout)).log with
      | error errno =>
        rw [run_helper_retry_error env wait_time fuel s timeout work_remains s1 errno hexec
          hwait] at h
        by_cases hei : errno ≠ EINTR
        · rw [if_pos hei] at h
          simp only [Option.some.injEq] at h
          subst h
          exact Or.inl rfl
        · rw [if_neg hei] at h
          exact ih _ _ _ h
      | ready batch =>
        rw [run_helper_retry_ready env wait_time fuel s timeout work_remains s1 batch hexec
          hwait] at h
        generalize run_helper_remaining env
          (run_helper_events env (run_helper_wait s1 (if work_remains = true then 0 else timeout))
            (if work_remains = true then 0 else timeout) timeout batch)
          wait_time timeout = R at h
        by_cases hst : R.1.stop_loop = false
        · rw [if_pos hst] at h
          exact ih _ _ _ h
        · rw [if_neg hst] at h
          obtain ⟨h1, h2, h3, _⟩ := run_helper_exit_deferred env fuel _ r h
          exact Or.inr ⟨h1, h2, h3⟩

/-! ## C6 and C7 -/

/-- C6, the code at the failing input: `stop` is called on the empty reactor,
which sets `stop_loop` and `wakeup_armed`; `xio_ev_loop_run` is then called
and the kernel wait fails with `EBADF`.  The run returns -1 with `stop_loop`
and `wakeup_armed` still set. -/
theorem C6_error_return_keeps_flags :
    (xio_ev_loop_run 2 env_wait_fails (xio_ev_loop_stop env_wait_fails (State.init 0))).map
      (fun r => (r.1, r.2.stop_loop, r.2.wakeup_armed)) = some (-1, true, true) := by
  decide

/-- C7, counterexample: the kernel answers the wait with the event of record
1, whose callback calls `stop` and enqueues work item 1, and the callback of
work item 1 enqueues the item again whenever it runs.  The run never returns,
whatever the fuel: the shutdown drain does not end. -/
theorem C7_counterexample :
    Op.stop ∈ env_spin.handler
      [handler_trace (run_helper_wait (State.init 0) (-1)) 1 1, Trace.epoll_wait (-1)] ∧
    ∀ fuel, xio_ev_loop_run fuel env_spin (State.init 0) = none := by
  refine ⟨by decide, ?_⟩
  have hexec : ∀ (fuel : Nat) (s : State), QueueInv s [1] →
      xio_ev_loop_exec_scheduled fuel env_spin s = none ∨
      ∃ r, xio_ev_loop_exec_scheduled fuel env_spin s = some r ∧ QueueInv r.2 [1] := by
    intro fuel s hq
    have hne : list_empty s.events_list none = false := by
      cases h : list_empty s.events_list none with
      | false => rfl
      | true => exact absurd ((queueInv_list_empty s _ hq).1 h) (by simp)
    have hlast := seg_prev_last s.events_list [1] none none (List.cons_ne_nil _ _) hq.1.1
    have hhead := queueInv_next_head s 1 [] hq
    simp only [List.getLast_singleton] at hlast
    simp only [xio_ev_loop_exec_scheduled, hne, Bool.not_false, if_true, hlast, hhead]
    cases fuel with
    | zero => exact Or.inl rfl
    | succ fuel =>
      right
      simp only [exec_scheduled_loop, if_true]
      refine ⟨_, rfl, ?_⟩
      have hrm := queueInv_remove_event s _ 1 hq
      simp only [List.erase_cons_head] at hrm
      have hsch : (xio_ev_loop_remove_event s 1).scheduled 1 = false := by
        cases h : (xio_ev_loop_remove_event s 1).scheduled 1 with
        | false => rfl
        | true => exact absurd ((hrm.2 1).2 h) (by simp)
      have := queueInv_add_event_new (record (xio_ev_loop_remove_event s 1)
        (Trace.event_handler 1 ((xio_ev_loop_remove_event s 1).evt_handler 1)
          ((xio_ev_loop_remove_event s 1).evt_data 1))) [] 1 hrm hsch
      simpa [call_event_handler, env_spin, run_ops, apply_op] using this
  have hdrain : ∀ (fuel : Nat) (s : State), QueueInv s [1] →
      run_helper_drain env_spin fuel s = none := by
    intro fuel
    induction fuel with
    | zero => intro s _; rfl
    | succ fuel ih =>
      intro s hq
      have hne : list_empty s.events_list none = false := by
        cases h : list_empty s.events_list none with
        | false => rfl
        | true => exact absurd ((queueInv_list_empty s _ hq).1 h) (by simp)
      simp only [run_helper_drain, hne, Bool.not_false, if_true]
      rcases hexec fuel s hq with h | ⟨r, h, hr⟩
      · rw [h]
      · rw [h]
        exact ih _ hr
  intro fuel
  cases fuel with
  | zero => rfl
  | succ fuel =>
    have h0 : xio_ev_loop_exec_scheduled fuel env_spin (State.init 0)
        = some (false, State.init 0) := rfl
    simp only [xio_ev_loop_run, xio_ev_loop_run_helper, run_helper_retry, h0]
    have hw : env_spin.epoll_wait (run_helper_wait (State.init 0)
        (if false = true then 0 else -1)).log = WaitResult.ready [{ ptr := 1, events := 1 }] := rfl
    simp only [hw]
    have hstop : (run_helper_remaining env_spin
        (run_helper_events env_spin (run_helper_wait (State.init 0)
          (if false = true then 0 else -1)) (if false = true then 0 else -1) (-1)
          [{ ptr := 1, events := 1 }]) (-1) (-1)).1.stop_loop = true := by decide
    simp only [hstop, Bool.true_eq_false, if_false]
    have hq : QueueInv (run_helper_remaining env_spin
        (run_helper_events env_spin (run_helper_wait (State.init 0)
          (if false = true then 0 else -1)) (if false = true then 0 else -1) (-1)
          [{ ptr := 1, events := 1 }]) (-1) (-1)).1 [1] :=
      queueInv_congr (xio_ev_loop_add_event (State.init 0) 1) _ [1] ⟨rfl, rfl⟩
        (queueInv_add_event_new (State.init 0) [] 1
          (queueInv_fresh _ ⟨rfl, rfl, fun _ => rfl⟩) rfl)
    simp only [run_helper_exit, hdrain fuel _ hq]

theorem run_helper_events_batch (env : Env) (s : State) (tmout timeout : Int)
    (batch : List EpollEvent) (h : batch ≠ []) :
    run_helper_events env s tmout timeout batch =
      { dispatch_batch env { s with in_dispatch := true } batch with in_dispatch := false } := by
  simp [run_helper_events, h]

theorem run_helper_remaining_stopped (env : Env) (s : State) (wait_time timeout : Int)
    (h : s.stop_loop = true) : run_helper_remaining env s wait_time timeout = (s, timeout) := by
  simp [run_helper_remaining, h]

theorem call_handler_stop (env : Env) (s : State) (tev events : Nat)
    (h : Op.stop ∈ env.handler (handler_trace s tev events :: s.log)) :
    (call_handler env s tev events).stop_loop = true :=
  run_ops_stop_loop env _ _ (Or.inr h)

/-- C7, amended: let the wait of a run iteration answer the batch
`pre ++ e :: post`, and let the callback invoked for the event `e` call
`stop`.  Then (1) every event `x` of the rest `post` of the batch whose
pointer is not `NULL` and not found in the deletion-deferral buffer at its
turn has its callback invoked; (2) the run continues with the shutdown drain
right after the batch, with `in_dispatch` cleared; (3) if the run returns, it
returns 0, and after the batch it has issued no kernel wait and invoked no
I/O callback; (4) the run returns as soon as the shutdown drain ends, which
depends on the deferred-work callbacks. -/
theorem C7_stop_in_handler (env : Env) (wait_time timeout : Int) (fuel : Nat)
    (s s1 s3 t : State) (work_remains : Bool) (pre post : List EpollEvent) (e : EpollEvent)
    (hexec : xio_ev_loop_exec_scheduled fuel env s = some (work_remains, s1))
    (hs3 : s3 = run_helper_wait s1 (if work_remains = true then 0 else timeout))
    (hwait : env.epoll_wait s3.log = WaitResult.ready (pre ++ e :: post))
    (ht : t = dispatch_batch env { s3 with in_dispatch := true } pre)
    (he : e.ptr ≠ 0) (hdel : deleted_found t e.ptr = false)
    (hstop : Op.stop ∈ env.handler (handler_trace t e.ptr e.events :: t.log)) :
    (∀ p1 x p2, post = p1 ++ x :: p2 → x.ptr ≠ 0 →
      deleted_found (dispatch_batch env { s3 with in_dispatch := true } (pre ++ e :: p1)) x.ptr
        = false →
      ∃ lg, (dispatch_batch env { s3 with in_dispatch := true } (pre ++ e :: post)).log =
        lg ++ handler_trace (dispatch_batch env { s3 with in_dispatch := true } (pre ++ e :: p1))
            x.ptr x.events ::
          (dispatch_batch env { s3 with in_dispatch := true } (pre ++ e :: p1)).log) ∧
    run_helper_retry env wait_time (fuel + 1) s timeout =
      run_helper_exit env fuel
        { dispatch_batch env { s3 with in_dispatch := true } (pre ++ e :: post) with
          in_dispatch := false } ∧
    (∀ r, run_helper_retry env wait_time (fuel + 1) s timeout = some r →
      r.1 = 0 ∧ ∃ new, r.2.log =
          new ++ (dispatch_batch env { s3 with in_dispatch := true } (pre ++ e :: post)).log ∧
        waits new = [] ∧ invoked_handlers new = []) ∧
    (∀ s6, run_helper_drain env fuel
        { dispatch_batch env { s3 with in_dispatch := true } (pre ++ e :: post) with
          in_dispatch := false } = some s6 →
      ∃ r, run_helper_retry env wait_time (fuel + 1) s timeout = some r ∧ r.1 = 0) := by
  have hB : (dispatch_batch env { s3 with in_dispatch := true } (pre ++ e :: post)).stop_loop
      = true := by
    rw [dispatch_batch_append, ← ht]
    simp only [dispatch_batch]
    apply dispatch_batch_stop_loop
    rw [dispatch_event_calls env t e he hdel]
    exact call_handler_stop env t e.ptr e.events hstop
  have hne : pre ++ e :: post ≠ [] := by simp
  have hrun : run_helper_retry env wait_time (fuel + 1) s timeout =
      run_helper_exit env fuel
        { dispatch_batch env { s3 with in_dispatch := true } (pre ++ e :: post) with
          in_dispatch := false } := by
    subst hs3
    have h1 := run_helper_retry_ready env wait_time fuel s timeout work_remains s1 _ hexec hwait
    have h2 := run_helper_events_batch env
      (run_helper_wait s1 (if work_remains = true then 0 else timeout))
      (if work_remains = true then 0 else timeout) timeout (pre ++ e :: post) hne
    have h3 := run_helper_remaining_stopped env
      { dispatch_batch env
          { run_helper_wait s1 (if work_remains = true then 0 else timeout) with
            in_dispatch := true } (pre ++ e :: post) with in_dispatch := false }
      wait_time timeout hB
    rw [h1, h2, h3]
    simp [hB]
  refine ⟨?_, hrun, ?_, ?_⟩
  · intro p1 x p2 hp hx hxd
    subst hp
    have e1 : pre ++ e :: (p1 ++ x :: p2) = (pre ++ e :: p1) ++ x :: p2 := by simp
    rw [e1, dispatch_batch_append]
    simp only [dispatch_batch]
    rw [dispatch_event_calls env _ x hx hxd]
    obtain ⟨l1, h1, _⟩ := call_handler_log env
      (dispatch_batch env { s3 with in_dispatch := true } (pre ++ e :: p1)) x.ptr x.events
    obtain ⟨l2, h2⟩ := dispatch_batch_log env p2 (call_handler env
      (dispatch_batch env { s3 with in_dispatch := true } (pre ++ e :: p1)) x.ptr x.events)
    exact ⟨l2 ++ l1, by rw [h2, h1, List.append_assoc]; rfl⟩
  · intro r hr
    rw [hrun] at hr
    obtain ⟨h1, _, _, new, h4, h5⟩ := run_helper_exit_deferred env fuel _ r hr
    exact ⟨h1, new, h4, (deferred_views new h5).2, (deferred_views new h5).1⟩
  · intro s6 hs6
    rw [hrun]
    simp only [run_helper_exit, hs6]
    exact ⟨_, rfl, rfl⟩

/-- C7, amended, at the empty reactor: the kernel answers the wait with the
events of records 1 and 2 and the callback of record 1 calls `stop`; the
callback of record 2 is still invoked, no second wait is issued and the run
returns 0. -/
theorem C7_stop_in_handler_witness :
    (∃ lg, (dispatch_batch (env_batch [Op.stop])
        { run_helper_wait (State.init 0) (-1) with in_dispatch := true }
        ([] ++ { ptr := 1, events := 1 } :: [{ ptr := 2, events := 1 }])).log =
        lg ++ handler_trace (dispatch_batch (env_batch [Op.stop])
            { run_helper_wait (State.init 0) (-1) with in_dispatch := true }
            ([] ++ { ptr := 1, events := 1 } :: [])) 2 1 ::
          (dispatch_batch (env_batch [Op.stop])
            { run_helper_wait (State.init 0) (-1) with in_dispatch := true }
            ([] ++ { ptr := 1, events := 1 } :: [])).log) ∧
    (xio_ev_loop_run 3 (env_batch [Op.stop]) (State.init 0)).map (fun r => (r.1, r.2.log)) =
      some (0, [Trace.handler 2 0 0 1 0, Trace.handler 1 0 0 1 0, Trace.epoll_wait (-1)]) :=
  ⟨(C7_stop_in_handler (env_batch [Op.stop]) (-1) (-1) 2 (State.init 0) (State.init 0)
      (run_helper_wait (State.init 0) (-1)) { run_helper_wait (State.init 0) (-1) with
        in_dispatch := true } false [] [{ ptr := 2, events := 1 }] { ptr := 1, events := 1 }
      rfl rfl rfl rfl (by decide) (by decide) (by decide)).1 []
      { ptr := 2, events := 1 } [] rfl (by decide) (by decide),
    by decide⟩

/-! ## Invariants along callbacks and runs -/

theorem cbinv_run_ops (env : Env) (P : State → Prop) (h : CallbackInv env P)
    (ops : List Op) : ∀ s : State, P s → P (run_ops env s ops) := by
  induction ops with
  | nil => intro s hs; exact hs
  | cons o ops ih => intro s hs; exact ih _ (h.op s o hs)

theorem cbinv_call_event_handler (env : Env) (P : State → Prop) (h : CallbackInv env P)
    (s : State) (tev : Nat) (hs : P s) : P (call_event_handler env s tev) :=
  cbinv_run_ops env P h _ _ (h.call s _ rfl hs)

theorem cbinv_call_handler (env : Env) (P : State → Prop) (h : CallbackInv env P)
    (s : State) (tev events : Nat) (hs : P s) : P (call_handler env s tev events) :=
  cbinv_run_ops env P h _ _ (h.call s _ rfl hs)

theorem cbinv_exec_scheduled_loop (env : Env) (P : State → Prop) (h : CallbackInv env P)
    (last_sched : Option Nat) :
    ∀ (fuel : Nat) (s : State) (pos n : Option Nat) (s1 : State),
      P s → exec_scheduled_loop env last_sched fuel s pos n = some s1 → P s1 := by
  intro fuel
  induction fuel with
  | zero => intro s pos n s1 _ he; simp [exec_scheduled_loop] at he
  | succ fuel ih =>
    intro s pos n s1 hs he
    cases pos with
    | none =>
      simp only [exec_scheduled_loop, Option.some.injEq] at he
      exact he ▸ hs
    | some tev =>
      simp only [exec_scheduled_loop] at he
      have h2 : P (call_event_handler env (xio_ev_loop_remove_event s tev) tev) :=
        cbinv_call_event_handler env P h _ tev (h.op s (Op.remove_event tev) hs)
      by_cases hl : some tev = last_sched
      · rw [if_pos hl] at he
        simp only [Option.some.injEq] at he
        exact he ▸ h2
      · rw [if_neg hl] at he
        exact ih _ _ _ _ h2 he

theorem cbinv_exec_scheduled (env : Env) (P : State → Prop) (h : CallbackInv env P)
    (fuel : Nat) (s : State) (r : Bool × State) (hs : P s)
    (he : xio_ev_loop_exec_scheduled fuel env s = some r) : P r.2 := by
  unfold xio_ev_loop_exec_scheduled at he
  by_cases hl : (!list_empty s.events_list none) = true
  · rw [if_pos hl] at he
    dsimp only at he
    cases hloop : exec_scheduled_loop env (s.events_list.prev none) fuel s
        (s.events_list.next none) (s.events_list.next (s.events_list.next none)) with
    | none => rw [hloop] at he; simp at he
    | some s1 =>
      rw [hloop] at he
      simp only [Option.some.injEq] at he
      subst he
      exact cbinv_exec_scheduled_loop env P h _ _ _ _ _ _ hs hloop
  · rw [if_neg hl] at he
    simp only [Option.some.injEq] at he
    subst he
    exact hs

theorem cbinv_dispatch_event (env : Env) (P : State → Prop) (h : CallbackInv env P)
    (s : State) (e : EpollEvent) (hs : P s) : P (dispatch_event env s e) := by
  unfold dispatch_event
  by_cases hp : e.ptr ≠ 0
  · rw [if_pos hp]
    by_cases hd : deleted_found s e.ptr = true
    · rw [if_pos hd]; exact hs
    · rw [if_neg hd]; exact cbinv_call_handler env P h s _ _ hs
  · rw [if_neg hp]
    by_cases hw : s.wakeup_armed = true
    · rw [if_pos hw]
      exact h.flags s s.in_dispatch true false s.xio_errno hs
    · rw [if_neg hw]; exact hs

theorem cbinv_dispatch_batch (env : Env) (P : State → Prop) (h : CallbackInv env P)
    (batch : List EpollEvent) : ∀ s : State, P s → P (dispatch_batch env s batch) := by
  induction batch with
  | nil => intro s hs; exact hs
  | cons e batch ih => intro s hs; exact ih _ (cbinv_dispatch_event env P h s e hs)

theorem cbinv_drain (env : Env) (P : State → Prop) (h : CallbackInv env P) :
    ∀ (fuel : Nat) (s s1 : State), P s → run_helper_drain env fuel s = some s1 → P s1 := by
  intro fuel
  induction fuel with
  | zero => intro s s1 _ he; simp [run_helper_drain] at he
  | succ fuel ih =>
    intro s s1 hs he
    simp only [run_helper_drain] at he
    by_cases hl : (!list_empty s.events_list none) = true
    · rw [if_pos hl] at he
      cases hx : xio_ev_loop_exec_scheduled fuel env s with
      | none => rw [hx] at he; simp at he
      | some r =>
        rw [hx] at he
        exact ih _ _ (cbinv_exec_scheduled env P h fuel s r hs hx) he
    · rw [if_neg hl] at he
      simp only [Option.some.injEq] at he
      exact he ▸ hs

theorem runinv_wait (env : Env) (P : State → Prop) (h : RunInv env P) (s : State)
    (tmout : Int) (hs : P s) : P (run_helper_wait s tmout) := by
  unfold run_helper_wait
  refine h.callback.call _ (Trace.epoll_wait tmout) rfl ?_
  by_cases hn : s.deleted_events_nr ≠ 0
  · rw [if_pos hn]; exact h.free s hs
  · rw [if_neg hn]; exact hs

theorem runinv_events (env : Env) (P : State → Prop) (h : RunInv env P) (s : State)
    (tmout timeout : Int) (batch : List EpollEvent) (hs : P s) :
    P (run_helper_events env s tmout timeout batch) := by
  unfold run_helper_events
  by_cases hb : batch ≠ []
  · rw [if_pos hb]
    have h1 : P { s with in_dispatch := true } :=
      h.callback.flags s true s.stop_loop s.wakeup_armed s.xio_errno hs
    have h2 := cbinv_dispatch_batch env P h.callback batch _ h1
    exact h.callback.flags _ false _ _ _ h2
  · rw [if_neg hb]
    by_cases ht : tmout ≠ 0 ∨ timeout = 0
    · rw [if_pos ht]
      exact h.callback.flags s s.in_dispatch true s.wakeup_armed s.xio_errno hs
    · rw [if_neg ht]; exact hs

theorem runinv_remaining (env : Env) (P : State → Prop) (h : RunInv env P) (s : State)
    (wait_time timeout : Int) (hs : P s) :
    P (run_helper_remaining env s wait_time timeout).1 := by
  unfold run_helper_remaining
  by_cases hc : timeout ≠ -1 ∧ s.stop_loop = false
  · rw [if_pos hc]
    dsimp only
    by_cases ht : env.time_passed s.log ≥ wait_time
    · rw [if_pos ht]
      exact h.callback.flags s s.in_dispatch true s.wakeup_armed s.xio_errno hs
    · rw [if_neg ht]; exact hs
  · rw [if_neg hc]; exact hs

theorem runinv_exit (env : Env) (P : State → Prop) (h : RunInv env P) (fuel : Nat)
    (s : State) (r : Int × State) (hs : P s) (he : run_helper_exit env fuel s = some r) :
    P r.2 := by
  unfold run_helper_exit at he
  cases hd : run_helper_drain env fuel s with
  | none => rw [hd] at he; simp at he
  | some s1 =>
    rw [hd] at he
    simp only [Option.some.injEq] at he
    subst he
    have h1 := cbinv_drain env P h.callback fuel s s1 hs hd
    have h2 := h.free s1 h1
    exact h.callback.flags _ _ false false _ h2

theorem runinv_retry (env : Env) (P : State → Prop) (h : RunInv env P) (wait_time : Int) :
    ∀ (fuel : Nat) (s : State) (timeout : Int) (r : Int × State),
      P s → run_helper_retry env wait_time fuel s timeout = some r → P r.2 := by
  intro fuel
  induction fuel with
  | zero => intro s timeout r _ he; simp [run_helper_retry] at he
  | succ fuel ih =>
    intro s timeout r hs he
    cases hexec : xio_ev_loop_exec_scheduled fuel env s with
    | none => simp [run_helper_retry, hexec] at he
    | some p =>
      obtain ⟨work_remains, s1⟩ := p
      have h1 : P s1 := cbinv_exec_scheduled env P h.callback fuel s _ hs hexec
      have h3 := runinv_wait env P h s1 (if work_remains = true then 0 else timeout) h1
      cases hwait : env.epoll_wait
          (run_helper_wait s1 (if work_remains = true then 0 else timeout)).log with
      | error errno =>
        rw [run_helper_retry_error env wait_time fuel s timeout work_remains s1 errno hexec
          hwait] at he
        by_cases hei : errno ≠ EINTR
        · rw [if_pos hei] at he
          simp only [Option.some.injEq] at he
          subst he
          exact h.callback.flags _ _ _ _ errno h3
        · rw [if_neg hei] at he
          exact ih _ _ _ h3 he
      | ready batch =>
        rw [run_helper_retry_ready env wait_time fuel s timeout work_remains s1 batch hexec
          hwait] at he
        have h4 := runinv_events env P h _ (if work_remains = true then 0 else timeout)
          timeout batch h3
        have h5 := runinv_remaining env P h _ wait_time timeout h4
        generalize run_helper_remaining env
          (run_helper_events env (run_helper_wait s1 (if work_remains = true then 0 else timeout))
            (if work_remains = true then 0 else timeout) timeout batch)
          wait_time timeout = R at he h5
        by_cases hst : R.1.stop_loop = false
        · rw [if_pos hst] at he
          exact ih _ _ _ h5 he
        · rw [if_neg hst] at he
          exact runinv_exit env P h fuel _ r h5 he

theorem loopReachable_inv (env : Env) (P : State → Prop) (h : RunInv env P)
    (hc : ∀ mem efd wakeup_event retval s,
      xio_ev_loop_create env mem efd wakeup_event retval = some s → P s)
    (s : State) (hr : LoopReachable env s) : P s := by
  induction hr with
  | create mem efd wakeup_event retval s hs => exact hc _ _ _ _ _ hs
  | op s o _ ih => exact h.callback.op s o ih
  | run fuel s timeout r _ he ih => exact runinv_retry env P h timeout fuel s timeout r ih he
  | handler fuel s s1 _ he ih =>
    unfold xio_ev_loop_handler at he
    cases hx : xio_ev_loop_run_helper fuel env { s with stop_loop := true } 0 with
    | none => rw [hx] at he; simp at he
    | some r =>
      rw [hx] at he
      simp only [Option.map_some', Option.some.injEq] at he
      subst he
      exact runinv_retry env P h 0 fuel _ 0 r
        (h.callback.flags s s.in_dispatch true s.wakeup_armed s.xio_errno ih) hx
  | exec_scheduled fuel s r _ he ih => exact cbinv_exec_scheduled env P h.callback fuel s r ih he
  | wait s tmout _ ih => exact runinv_wait env P h s tmout ih
  | dispatch s batch _ ih =>
    exact cbinv_dispatch_batch env P h.callback batch _
      (h.callback.flags s true s.stop_loop s.wakeup_armed s.xio_errno ih)

theorem free_deleted_loop_spec :
    ∀ (n : Nat) (s : State), s.deleted_events_nr = n →
      (free_deleted_loop n s).deleted_events_nr = 0 ∧
      (free_deleted_loop n s).deleted_events = s.deleted_events ∧
      (free_deleted_loop n s).poll_events_list = s.poll_events_list ∧
      (free_deleted_loop n s).events_list = s.events_list ∧
      (free_deleted_loop n s).scheduled = s.scheduled ∧
      (free_deleted_loop n s).tev_fd = s.tev_fd ∧
      (free_deleted_loop n s).wakeup_event = s.wakeup_event := by
  intro n
  induction n with
  | zero => intro s hs; exact ⟨hs, rfl, rfl, rfl, rfl, rfl, rfl⟩
  | succ n ih =>
    intro s hs
    simp only [free_deleted_loop]
    have := ih (record { s with deleted_events_nr := s.deleted_events_nr - 1 }
      (Trace.ufree (s.deleted_events (s.deleted_events_nr - 1))))
      (by simp [record, hs])
    exact this

theorem free_deleted_events_spec (s : State) :
    (free_deleted_events s).deleted_events_nr = 0 ∧
    (free_deleted_events s).deleted_events = s.deleted_events ∧
    (free_deleted_events s).poll_events_list = s.poll_events_list ∧
    (free_deleted_events s).events_list = s.events_list ∧
    (free_deleted_events s).scheduled = s.scheduled ∧
    (free_deleted_events s).tev_fd = s.tev_fd ∧
    (free_deleted_events s).wakeup_event = s.wakeup_event :=
  free_deleted_loop_spec _ s rfl

theorem callbackInv_queue (env : Env) : CallbackInv env (fun s => ∃ l, QueueInv s l) where
  op := fun s o ⟨l, hl⟩ => ⟨_, queueInv_apply_op env s l o hl⟩
  call := fun _ _ _ ⟨l, hl⟩ => ⟨l, hl⟩
  flags := fun _ _ _ _ _ ⟨l, hl⟩ => ⟨l, hl⟩

theorem runInv_queue (env : Env) : RunInv env (fun s => ∃ l, QueueInv s l) where
  callback := callbackInv_queue env
  free := fun s ⟨l, hl⟩ =>
    ⟨l, queueInv_congr s _ l ⟨(free_deleted_events_spec s).2.2.2.1,
      (free_deleted_events_spec s).2.2.2.2.1⟩ hl⟩

theorem run_helper_drain_empty (env : Env) :
    ∀ (fuel : Nat) (s s1 : State), run_helper_drain env fuel s = some s1 →
      list_empty s1.events_list none = true := by
  intro fuel
  induction fuel with
  | zero => intro s s1 he; simp [run_helper_drain] at he
  | succ fuel ih =>
    intro s s1 he
    simp only [run_helper_drain] at he
    by_cases hl : (!list_empty s.events_list none) = true
    · rw [if_pos hl] at he
      cases hx : xio_ev_loop_exec_scheduled fuel env s with
      | none => rw [hx] at he; simp at he
      | some r =>
        rw [hx] at he
        exact ih _ _ he
    · rw [if_neg hl] at he
      simp only [Option.some.injEq] at he
      subst he
      simpa using hl

theorem run_helper_retry_exits (env : Env) (wait_time : Int) :
    ∀ (fuel : Nat) (s : State) (timeout : Int) (r : Int × State),
      run_helper_retry env wait_time fuel s timeout = some r →
      r.1 = -1 ∨ ∃ fuel1 s1, run_helper_exit env fuel1 s1 = some r ∧
        ∀ P : State → Prop, RunInv env P → P s → P s1 := by
  intro fuel
  induction fuel with
  | zero => intro s timeout r he; simp [run_helper_retry] at he
  | succ fuel ih =>
    intro s timeout r he
    cases hexec : xio_ev_loop_exec_scheduled fuel env s with
    | none => simp [run_helper_retry, hexec] at he
    | some p =>
      obtain ⟨work_remains, s1⟩ := p
      have h3 : ∀ P : State → Prop, RunInv env P → P s →
          P (run_helper_wait s1 (if work_remains = true then 0 else timeout)) :=
        fun P h hs => runinv_wait env P h s1 _
          (cbinv_exec_scheduled env P h.callback fuel s _ hs hexec)
      cases hwait : env.epoll_wait
          (run_helper_wait s1 (if work_remains = true then 0 else timeout)).log with
      | error errno =>
        rw [run_helper_retry_error env wait_time fuel s timeout work_remains s1 errno hexec
          hwait] at he
        by_cases hei : errno ≠ EINTR
        · rw [if_pos hei] at he
          simp only [Option.some.injEq] at he
          subst he
          exact Or.inl rfl
        · rw [if_neg hei] at he
          rcases ih _ _ _ he with h | ⟨f1, t1, h1, h2⟩
          · exact Or.inl h
          · exact Or.inr ⟨f1, t1, h1, fun P h hs => h2 P h (h3 P h hs)⟩
      | ready batch =>
        rw [run_helper_retry_ready env wait_time fuel s timeout work_remains s1 batch hexec
          hwait] at he
        have h5 : ∀ P : State → Prop, RunInv env P → P s →
            P (run_helper_remaining env
              (run_helper_events env
                (run_helper_wait s1 (if work_remains = true then 0 else timeout))
                (if work_remains = true then 0 else timeout) timeout batch)
              wait_time timeout).1 :=
          fun P h hs => runinv_remaining env P h _ wait_time timeout
            (runinv_events env P h _ _ timeout batch (h3 P h hs))
        generalize run_helper_remaining env
          (run_helper_events env (run_helper_wait s1 (if work_remains = true then 0 else timeout))
            (if work_remains = true then 0 else timeout) timeout batch)
          wait_time timeout = R at he h5
        by_cases hst : R.1.stop_loop = false
        · rw [if_pos hst] at he
          rcases ih _ _ _ he with h | ⟨f1, t1, h1, h2⟩
          · exact Or.inl h
          · exact Or.inr ⟨f1, t1, h1, fun P h hs => h2 P h (h5 P h hs)⟩
        · rw [if_neg hst] at he
          exact Or.inr ⟨fuel, R.1, he, h5⟩

theorem run_helper_exit_clean (env : Env) (fuel : Nat) (s : State) (r : Int × State)
    (hq : ∃ l, QueueInv s l) (he : run_helper_exit env fuel s = some r) :
    QueueInv r.2 [] ∧ r.2.deleted_events_nr = 0 := by
  unfold run_helper_exit at he
  cases hd : run_helper_drain env fuel s with
  | none => rw [hd] at he; simp at he
  | some s1 =>
    rw [hd] at he
    simp only [Option.some.injEq] at he
    subst he
    obtain ⟨l, hl⟩ := cbinv_drain env _ (callbackInv_queue env) fuel s s1 hq hd
    have hem := run_helper_drain_empty env fuel s s1 hd
    have hnil : l = [] := (queueInv_list_empty s1 l hl).1 hem
    subst hnil
    refine ⟨?_, (free_deleted_events_spec s1).1⟩
    exact queueInv_congr s1 _ [] ⟨(free_deleted_events_spec s1).2.2.2.1,
      (free_deleted_events_spec s1).2.2.2.2.1⟩ hl

/-! ## C19, C16 and C20 -/

/-- C19: for a batch event whose opaque pointer is `NULL`, the dispatcher
clears `wakeup_armed` and sets `stop_loop` when `wakeup_armed` is set, and
returns the state unchanged when it is not; in both cases no callback is
invoked and the history is unchanged. -/
theorem C19_wakeup_event (env : Env) (s : State) (e : EpollEvent) (he : e.ptr = 0) :
    (s.wakeup_armed = true →
      dispatch_event env s e = { s with wakeup_armed := false, stop_loop := true }) ∧
    (s.wakeup_armed = false → dispatch_event env s e = s) ∧
    (dispatch_event env s e).log = s.log := by
  refine ⟨?_, ?_, ?_⟩
  · intro h; simp [dispatch_event, he, h]
  · intro h; simp [dispatch_event, he, h]
  · unfold dispatch_event
    simp only [he, ne_eq, not_true_eq_false, if_false]
    split <;> rfl

/-- C19 at the empty reactor, where the wakeup is not armed: the event is
ignored. -/
theorem C19_wakeup_event_witness :
    dispatch_event Env.quiet (State.init 3) { ptr := 0, events := 1 } = State.init 3 :=
  (C19_wakeup_event Env.quiet (State.init 3) { ptr := 0, events := 1 } rfl).2.1 rfl

/-- C20: when a run that starts with a well-formed deferred-work queue
returns 0, the deferred-work queue is empty, no work item has its `scheduled`
flag set, and the deletion-deferral buffer is empty. -/
theorem C20_run_success_clean (fuel : Nat) (env : Env) (s : State) (timeout : Int)
    (r : Int × State) (l : List Nat) (hq : QueueInv s l)
    (he : xio_ev_loop_run_helper fuel env s timeout = some r) (h0 : r.1 = 0) :
    list_empty r.2.events_list none = true ∧ QueueInv r.2 [] ∧
    (∀ fuel1, queue_items fuel1 r.2 = []) ∧
    (∀ i, r.2.scheduled i = false) ∧ r.2.deleted_events_nr = 0 := by
  rcases run_helper_retry_exits env timeout fuel s timeout r he with h | ⟨f1, s1, h1, h2⟩
  · rw [h0] at h; exact absurd h (by decide)
  · have hq1 := h2 _ (runInv_queue env) ⟨l, hq⟩
    obtain ⟨hc, hn⟩ := run_helper_exit_clean env f1 s1 r hq1 h1
    refine ⟨(queueInv_list_empty r.2 [] hc).2 rfl, hc,
      fun fuel1 => queue_items_eq r.2 [] hc fuel1 (Nat.zero_le _), ?_, hn⟩
    intro i
    cases hi : r.2.scheduled i with
    | false => rfl
    | true => exact absurd ((hc.2 i).2 hi) (by simp)

theorem scenario_s3_isSome : scenario_s3.isSome = true := by decide

/-- C20 at scenario S3: the run returns 0, item 3 has been executed in the
shutdown drain, the queue and the buffer are empty. -/
theorem C20_run_success_clean_witness :
    (scenario_s3.get scenario_s3_isSome).1 = 0 ∧
    invoked_events (scenario_s3.get scenario_s3_isSome).2.log = [1, 2, 3] ∧
    list_empty (scenario_s3.get scenario_s3_isSome).2.events_list none = true ∧
    (scenario_s3.get scenario_s3_isSome).2.deleted_events_nr = 0 :=
  ⟨by decide, by decide,
    (C20_run_success_clean 6 (env_item1 [Op.add_event 3]) queue12 0
      (scenario_s3.get scenario_s3_isSome) [1, 2] queueInv_queue12
      (Option.some_get scenario_s3_isSome).symm (by decide)).1,
    (C20_run_success_clean 6 (env_item1 [Op.add_event 3]) queue12 0
      (scenario_s3.get scenario_s3_isSome) [1, 2] queueInv_queue12
      (Option.some_get scenario_s3_isSome).symm (by decide)).2.2.2.2⟩

/-! ## The deletion-deferral buffer bound -/

theorem create_spec (env : Env) (mem : State) (efd wakeup_event retval : Int) (s : State)
    (h : xio_ev_loop_create env mem efd wakeup_event retval = some s) :
    s.deleted_events_nr = 0 ∧ s.poll_events_list = [] ∧ s.wakeup_event = wakeup_event := by
  unfold xio_ev_loop_create at h
  dsimp only at h
  by_cases h1 : env.ucalloc (record mem Trace.ucalloc).log = 0
  · rw [if_pos h1] at h; simp at h
  · rw [if_neg h1] at h
    by_cases h2 : efd = -1
    · rw [if_pos h2] at h; simp at h
    · rw [if_neg h2] at h
      by_cases h3 : wakeup_event = -1
      · rw [if_pos h3] at h; simp at h
      · rw [if_neg h3] at h
        by_cases h4 : retval ≠ 0
        · rw [if_pos h4] at h; simp at h
        · rw [if_neg h4] at h
          simp only [Option.some.injEq] at h
          subst h
          refine ⟨?_, ?_, ?_⟩
          · rw [(add_deleted _ _ _ _ _ _).2]
          · simp only [xio_ev_loop_add, xio_ev_loop_add_ctl, record]
            simp
            split <;> rfl
          · rw [(add_flags _ _ _ _ _ _).2.2.2]

theorem del_nr_le (env : Env) (s : State) (fd : Int)
    (h : s.deleted_events_nr ≤ MAX_DELETED_EVENTS) :
    (xio_ev_loop_del env s fd).2.deleted_events_nr ≤ MAX_DELETED_EVENTS := by
  unfold xio_ev_loop_del
  split
  · split
    · exact h
    · dsimp only
      split
      · rename_i hlt
        rw [(del_ctl_deleted _ _ _).2]
        exact hlt
      · rw [(del_ctl_deleted _ _ _).2]
        exact h
  · rw [(del_ctl_deleted _ _ _).2]
    exact h

theorem apply_op_nr_le (env : Env) (s : State) (o : Op)
    (h : s.deleted_events_nr ≤ MAX_DELETED_EVENTS) :
    (apply_op env s o).deleted_events_nr ≤ MAX_DELETED_EVENTS := by
  cases o with
  | add fd events handler data => simp only [apply_op, (add_deleted _ _ _ _ _ _).2]; exact h
  | del fd => exact del_nr_le env s fd h
  | modify fd events => simp only [apply_op, (modify_deleted _ _ _ _).2]; exact h
  | add_event evt => simp only [apply_op, (add_event_deleted _ _).2]; exact h
  | remove_event evt => simp only [apply_op, (remove_event_deleted _ _).2]; exact h
  | stop => simp only [apply_op, (stop_deleted _ _).2]; exact h

theorem runInv_nr (env : Env) :
    RunInv env (fun s => s.deleted_events_nr ≤ MAX_DELETED_EVENTS) where
  callback :=
    { op := fun s o h => apply_op_nr_le env s o h
      call := fun _ _ _ h => h
      flags := fun _ _ _ _ _ h => h }
  free := fun s _ => by
    show (free_deleted_events s).deleted_events_nr ≤ MAX_DELETED_EVENTS
    rw [(free_deleted_events_spec s).1]
    exact Nat.zero_le _

theorem del_found (env : Env) (s : State) (fd : Int) (tev : Nat)
    (hfd : fd ≠ s.wakeup_event) (hl : xio_event_lookup s fd = some tev) :
    (xio_ev_loop_del env s fd).2.poll_events_list = s.poll_events_list.erase tev ∧
    (xio_ev_loop_del env s fd).2.log = Trace.epoll_ctl_del fd :: s.log ∧
    (xio_ev_loop_del env s fd).1 = env.epoll_ctl (Trace.epoll_ctl_del fd :: s.log) ∧
    (s.deleted_events_nr < MAX_DELETED_EVENTS →
      (xio_ev_loop_del env s fd).2.deleted_events =
        Function.update s.deleted_events s.deleted_events_nr tev ∧
      (xio_ev_loop_del env s fd).2.deleted_events_nr = s.deleted_events_nr + 1) ∧
    (¬ s.deleted_events_nr < MAX_DELETED_EVENTS →
      (xio_ev_loop_del env s fd).2.deleted_events = s.deleted_events ∧
      (xio_ev_loop_del env s fd).2.deleted_events_nr = s.deleted_events_nr) := by
  unfold xio_ev_loop_del
  simp only [hfd, ne_eq, not_false_eq_true, if_true, hl]
  by_cases hr : s.deleted_events_nr < MAX_DELETED_EVENTS
  · simp only [hr, if_true, xio_ev_loop_del_ctl, record]
    split <;> simp
  · simp only [hr, if_false, xio_ev_loop_del_ctl, record]
    split <;> simp

theorem del_writes (env : Env) (s : State) (fd : Int) :
    (xio_ev_loop_del env s fd).2.deleted_events = s.deleted_events ∨
    (s.deleted_events_nr < MAX_DELETED_EVENTS ∧
      ∃ tev, (xio_ev_loop_del env s fd).2.deleted_events =
        Function.update s.deleted_events s.deleted_events_nr tev) := by
  by_cases hfd : fd ≠ s.wakeup_event
  · cases hl : xio_event_lookup s fd with
    | none => left; simp [xio_ev_loop_del, hfd, hl]
    | some tev =>
      by_cases hr : s.deleted_events_nr < MAX_DELETED_EVENTS
      · exact Or.inr ⟨hr, tev, ((del_found env s fd tev hfd hl).2.2.2.1 hr).1⟩
      · exact Or.inl ((del_found env s fd tev hfd hl).2.2.2.2 hr).1
  · left
    unfold xio_ev_loop_del
    rw [if_neg hfd]
    exact (del_ctl_deleted _ _ _).1

/-- C17: in every reachable state the count of the deletion-deferral buffer is
at most 1024; the only call that writes into `deleted_events` is
`xio_ev_loop_del`, at the index `deleted_events_nr`, when that is below 1024.
When `xio_ev_loop_del` finds the record it unlinks it from the Registry,
issues exactly the kernel delete and returns the kernel's result; it appends
the record and increments the count when the count is below 1024, and leaves
buffer and count as they are (and frees nothing) when the buffer is full. -/
theorem C17_deleted_buffer_bound (env : Env) (s : State) (fd : Int) :
    (LoopReachable env s → s.deleted_events_nr ≤ MAX_DELETED_EVENTS) ∧
    MAX_DELETED_EVENTS = 1024 ∧
    ((xio_ev_loop_del env s fd).2.deleted_events = s.deleted_events ∨
      (s.deleted_events_nr < MAX_DELETED_EVENTS ∧
        ∃ tev, (xio_ev_loop_del env s fd).2.deleted_events =
          Function.update s.deleted_events s.deleted_events_nr tev)) ∧
    (∀ o : Op, (∀ fd1, o ≠ Op.del fd1) →
      (apply_op env s o).deleted_events = s.deleted_events) ∧
    (free_deleted_events s).deleted_events = s.deleted_events ∧
    (∀ tev, fd ≠ s.wakeup_event → xio_event_lookup s fd = some tev →
      (xio_ev_loop_del env s fd).2.poll_events_list = s.poll_events_list.erase tev ∧
      (xio_ev_loop_del env s fd).2.log = Trace.epoll_ctl_del fd :: s.log ∧
      (xio_ev_loop_del env s fd).1 = env.epoll_ctl (Trace.epoll_ctl_del fd :: s.log) ∧
      (s.deleted_events_nr < MAX_DELETED_EVENTS →
        (xio_ev_loop_del env s fd).2.deleted_events =
          Function.update s.deleted_events s.deleted_events_nr tev ∧
        (xio_ev_loop_del env s fd).2.deleted_events_nr = s.deleted_events_nr + 1) ∧
      (¬ s.deleted_events_nr < MAX_DELETED_EVENTS →
        (xio_ev_loop_del env s fd).2.deleted_events = s.deleted_events ∧
        (xio_ev_loop_del env s fd).2.deleted_events_nr = s.deleted_events_nr)) := by
  refine ⟨?_, rfl, del_writes env s fd, ?_, (free_deleted_events_spec s).2.1, ?_⟩
  · intro hr
    refine loopReachable_inv env _ (runInv_nr env) ?_ s hr
    intro mem efd wakeup_event retval t ht
    show t.deleted_events_nr ≤ MAX_DELETED_EVENTS
    rw [(create_spec env mem efd wakeup_event retval t ht).1]
    exact Nat.zero_le _
  · intro o ho
    cases o with
    | add fd1 events handler data => exact (add_deleted _ _ _ _ _ _).1
    | del fd1 => exact absurd rfl (ho fd1)
    | modify fd1 events => exact (modify_deleted _ _ _ _).1
    | add_event evt => exact (add_event_deleted _ _).1
    | remove_event evt => exact (remove_event_deleted _ _).1
    | stop => exact (stop_deleted _ _).1
  · intro tev hfd hl
    exact del_found env s fd tev hfd hl

theorem created_eq : created = some created_loop := by
  unfold created_loop
  have h : created.isSome = true := by decide
  rw [← Option.some_get h]
  rfl

theorem loopReachable_registered5 : LoopReachable Env.quiet registered5 :=
  LoopReachable.op _ _ (LoopReachable.create (State.init 0) 3 4 0 created_loop created_eq)

/-- C17 at the reactor created with wakeup descriptor 4 in which descriptor 5
is registered: the count is within the bound, and unregistering descriptor 5
unlinks its record and buffers it at index 0. -/
theorem C17_deleted_buffer_bound_witness :
    registered5.deleted_events_nr ≤ MAX_DELETED_EVENTS ∧
    (xio_ev_loop_del Env.quiet registered5 5).2.poll_events_list =
      registered5.poll_events_list.erase 3 ∧
    (xio_ev_loop_del Env.quiet registered5 5).2.deleted_events_nr =
      registered5.deleted_events_nr + 1 :=
  ⟨(C17_deleted_buffer_bound Env.quiet registered5 5).1 loopReachable_registered5,
    ((C17_deleted_buffer_bound Env.quiet registered5 5).2.2.2.2.2 3 (by decide)
      (by decide)).1,
    (((C17_deleted_buffer_bound Env.quiet registered5 5).2.2.2.2.2 3 (by decide)
      (by decide)).2.2.2.1 (by decide)).2⟩

/-! ## One batch: the trampoline and `run` with timeout 0 -/

theorem free_deleted_loop_flags :
    ∀ (n : Nat) (s : State),
      (free_deleted_loop n s).stop_loop = s.stop_loop ∧
      (free_deleted_loop n s).wakeup_armed = s.wakeup_armed ∧
      (free_deleted_loop n s).in_dispatch = s.in_dispatch := by
  intro n
  induction n with
  | zero => intro s; exact ⟨rfl, rfl, rfl⟩
  | succ n ih =>
    intro s
    simp only [free_deleted_loop]
    exact ih _

theorem run_helper_wait_flags (s : State) (tmout : Int) :
    (run_helper_wait s tmout).stop_loop = s.stop_loop := by
  unfold run_helper_wait record
  split
  · exact (free_deleted_loop_flags _ s).1
  · rfl

theorem call_event_handler_stop_loop (env : Env) (s : State) (tev : Nat)
    (h : s.stop_loop = true) : (call_event_handler env s tev).stop_loop = true :=
  run_ops_stop_loop env _ _ (Or.inl h)

theorem exec_scheduled_loop_stop_loop (env : Env) (last_sched : Option Nat) :
    ∀ (fuel : Nat) (s : State) (pos n : Option Nat) (s1 : State),
      s.stop_loop = true → exec_scheduled_loop env last_sched fuel s pos n = some s1 →
      s1.stop_loop = true := by
  intro fuel
  induction fuel with
  | zero => intro s pos n s1 _ he; simp [exec_scheduled_loop] at he
  | succ fuel ih =>
    intro s pos n s1 hs he
    cases pos with
    | none =>
      simp only [exec_scheduled_loop, Option.some.injEq] at he
      exact he ▸ hs
    | some tev =>
      simp only [exec_scheduled_loop] at he
      have h2 : (call_event_handler env (xio_ev_loop_remove_event s tev) tev).stop_loop
          = true :=
        call_event_handler_stop_loop env _ tev (by rw [remove_event_flags]; exact hs)
      by_cases hl : some tev = last_sched
      · rw [if_pos hl] at he
        simp only [Option.some.injEq] at he
        exact he ▸ h2
      · rw [if_neg hl] at he
        exact ih _ _ _ _ h2 he

theorem exec_scheduled_stop_loop (fuel : Nat) (env : Env) (s : State) (r : Bool × State)
    (hs : s.stop_loop = true) (he : xio_ev_loop_exec_scheduled fuel env s = some r) :
    r.2.stop_loop = true := by
  unfold xio_ev_loop_exec_scheduled at he
  by_cases hl : (!list_empty s.events_list none) = true
  · rw [if_pos hl] at he
    dsimp only at he
    cases hloop : exec_scheduled_loop env (s.events_list.prev none) fuel s
        (s.events_list.next none) (s.events_list.next (s.events_list.next none)) with
    | none => rw [hloop] at he; simp at he
    | some s1 =>
      rw [hloop] at he
      simp only [Option.some.injEq] at he
      subst he
      exact exec_scheduled_loop_stop_loop env _ _ _ _ _ _ hs hloop
  · rw [if_neg hl] at he
    simp only [Option.some.injEq] at he
    subst he
    exact hs

theorem run_helper_events_stop_loop (env : Env) (s : State) (tmout timeout : Int)
    (batch : List EpollEvent) (h : s.stop_loop = true ∨ (batch = [] ∧ timeout = 0)) :
    (run_helper_events env s tmout timeout batch).stop_loop = true := by
  unfold run_helper_events
  by_cases hb : batch ≠ []
  · rw [if_pos hb]
    rcases h with h | h
    · exact dispatch_batch_stop_loop env batch _ h
    · exact absurd h.1 hb
  · rw [if_neg hb]
    by_cases ht : tmout ≠ 0 ∨ timeout = 0
    · rw [if_pos ht]
    · rw [if_neg ht]
      rcases h with h | h
      · exact h
      · exact absurd (Or.inr h.2) ht

theorem waits_of_logExt (p : Trace → Bool) (hp : ∀ t, p t = true → t.isWait = false)
    (a b : List Trace) (h : LogExt p a b) : waits b = waits a := by
  obtain ⟨new, e, q⟩ := h
  subst e
  rw [waits_append]
  have : waits new = [] := by
    induction new with
    | nil => rfl
    | cons t new ih =>
      have ht := hp t (q t (List.mem_cons_self _ _))
      have ih1 := ih (fun u hu => q u (List.mem_cons_of_mem _ hu))
      cases t <;> simp [Trace.isWait] at ht <;> simp [waits, ih1]
  rw [this, List.append_nil]

theorem isWait_of_isDeferred (t : Trace) (h : t.isDeferred = true) : t.isWait = false := by
  cases t <;> simp_all [Trace.isDeferred, Trace.isCtl, Trace.isWait]

theorem isWait_of_isCtl (t : Trace) (h : t.isCtl = true) : t.isWait = false := by
  cases t <;> simp_all [Trace.isCtl, Trace.isWait]

theorem dispatch_event_nowait (env : Env) (s : State) (e : EpollEvent) :
    LogExt (fun t => !t.isWait) s.log (dispatch_event env s e).log := by
  unfold dispatch_event
  split
  · split
    · exact logExt_refl _ _
    · unfold call_handler
      refine logExt_trans _ _ _ _
        (logExt_cons (fun t => !t.isWait) s.log (handler_trace s e.ptr e.events) rfl) ?_
      exact logExt_of_ctl _ (fun t ht => by simp [isWait_of_isCtl t ht]) _ _
        (run_ops_log env _ _)
  · split
    · exact logExt_refl _ _
    · exact logExt_refl _ _

theorem dispatch_batch_nowait (env : Env) (batch : List EpollEvent) :
    ∀ s : State, LogExt (fun t => !t.isWait) s.log (dispatch_batch env s batch).log := by
  induction batch with
  | nil => intro s; exact logExt_refl _ _
  | cons e batch ih =>
    intro s
    exact logExt_trans _ _ _ _ (dispatch_event_nowait env s e) (ih _)

theorem run_helper_events_waits (env : Env) (s : State) (tmout timeout : Int)
    (batch : List EpollEvent) :
    waits (run_helper_events env s tmout timeout batch).log = waits s.log := by
  unfold run_helper_events
  by_cases hb : batch ≠ []
  · rw [if_pos hb]
    exact waits_of_logExt _ (fun t ht => by simpa using ht) _ _
      (dispatch_batch_nowait env batch { s with in_dispatch := true })
  · rw [if_neg hb]
    split <;> rfl

theorem run_helper_wait_waits (s : State) (tmout : Int) :
    waits (run_helper_wait s tmout).log = waits s.log ++ [tmout] := by
  unfold run_helper_wait record
  simp only [waits]
  congr 1
  split
  · exact waits_of_logExt _ isWait_of_isDeferred _ _ (free_deleted_loop_deferred _ s)
  · rfl

theorem run_helper_remaining_log (env : Env) (s : State) (wait_time timeout : Int) :
    (run_helper_remaining env s wait_time timeout).1.log = s.log := by
  unfold run_helper_remaining
  split
  · dsimp only
    split <;> rfl
  · rfl

theorem run_helper_remaining_zero (env : Env) (s : State)
    (h : s.stop_loop = true ∨ 0 ≤ env.time_passed s.log) :
    (run_helper_remaining env s 0 0).1.stop_loop = true := by
  unfold run_helper_remaining
  by_cases hs : s.stop_loop = true
  · simp [hs]
  · rcases h with h | h
    · exact absurd h hs
    · simp only [Bool.not_eq_true] at hs
      simp [hs, h]

theorem run_helper_exit_waits (env : Env) (fuel : Nat) (s : State) (r : Int × State)
    (h : run_helper_exit env fuel s = some r) :
    r.1 = 0 ∧ waits r.2.log = waits s.log ∧
      invoked_handlers r.2.log = invoked_handlers s.log := by
  obtain ⟨h1, _, _, new, h4, h5⟩ := run_helper_exit_deferred env fuel s r h
  refine ⟨h1, ?_, ?_⟩
  · rw [h4, waits_append, (deferred_views new h5).2, List.append_nil]
  · rw [h4, invoked_handlers_append, (deferred_views new h5).1, List.append_nil]

theorem run_zero_one_batch (env : Env) (fuel : Nat) (s : State) (work_remains : Bool)
    (s1 : State) (batch : List EpollEvent)
    (hexec : xio_ev_loop_exec_scheduled fuel env s = some (work_remains, s1))
    (hwait : env.epoll_wait (run_helper_wait s1 0).log = WaitResult.ready batch)
    (hstop : s.stop_loop = true ∨
      0 ≤ env.time_passed (run_helper_events env (run_helper_wait s1 0) 0 0 batch).log) :
    xio_ev_loop_run_helper (fuel + 1) env s 0 =
      run_helper_exit env fuel
        (run_helper_remaining env
          (run_helper_events env (run_helper_wait s1 0) 0 0 batch) 0 0).1 ∧
    (∀ r, xio_ev_loop_run_helper (fuel + 1) env s 0 = some r →
      r.1 = 0 ∧ waits r.2.log = waits s.log ++ [0] ∧
      invoked_handlers r.2.log =
        invoked_handlers (run_helper_events env (run_helper_wait s1 0) 0 0 batch).log) ∧
    (∀ s6, run_helper_drain env fuel
        (run_helper_remaining env
          (run_helper_events env (run_helper_wait s1 0) 0 0 batch) 0 0).1 = some s6 →
      ∃ r, xio_ev_loop_run_helper (fuel + 1) env s 0 = some r ∧ r.1 = 0) := by
  have htm : (if work_remains = true then (0 : Int) else 0) = 0 := by split <;> rfl
  rw [← htm] at hwait
  have hrun := run_helper_retry_ready env 0 fuel s 0 work_remains s1 batch hexec hwait
  rw [htm] at hrun
  have hst : (run_helper_remaining env
      (run_helper_events env (run_helper_wait s1 0) 0 0 batch) 0 0).1.stop_loop = true := by
    apply run_helper_remaining_zero
    rcases hstop with h | h
    · left
      apply run_helper_events_stop_loop
      left
      rw [run_helper_wait_flags]
      exact exec_scheduled_stop_loop fuel env s _ h hexec
    · exact Or.inr h
  have hrun1 : xio_ev_loop_run_helper (fuel + 1) env s 0 =
      run_helper_exit env fuel
        (run_helper_remaining env
          (run_helper_events env (run_helper_wait s1 0) 0 0 batch) 0 0).1 := by
    unfold xio_ev_loop_run_helper
    rw [hrun, hst]
    simp
  refine ⟨hrun1, ?_, ?_⟩
  · intro r hr
    rw [hrun1] at hr
    obtain ⟨h1, h2, h3⟩ := run_helper_exit_waits env fuel _ r hr
    refine ⟨h1, ?_, ?_⟩
    · rw [h2, run_helper_remaining_log, run_helper_events_waits, run_helper_wait_waits,
        waits_of_logExt _ isWait_of_isDeferred _ _ (exec_scheduled_deferred fuel env s _ hexec)]
    · rw [h3, run_helper_remaining_log]
  · intro s6 hs6
    rw [hrun1]
    simp only [run_helper_exit, hs6]
    exact ⟨_, rfl, rfl⟩

theorem env_spin_exec (fuel : Nat) (s : State) (hq : QueueInv s [1]) :
    xio_ev_loop_exec_scheduled fuel env_spin s = none ∨
    ∃ r, xio_ev_loop_exec_scheduled fuel env_spin s = some r ∧ QueueInv r.2 [1] := by
  have hne : list_empty s.events_list none = false := by
    cases h : list_empty s.events_list none with
    | false => rfl
    | true => exact absurd ((queueInv_list_empty s _ hq).1 h) (by simp)
  have hlast := seg_prev_last s.events_list [1] none none (List.cons_ne_nil _ _) hq.1.1
  have hhead := queueInv_next_head s 1 [] hq
  simp only [List.getLast_singleton] at hlast
  simp only [xio_ev_loop_exec_scheduled, hne, Bool.not_false, if_true, hlast, hhead]
  cases fuel with
  | zero => exact Or.inl rfl
  | succ fuel =>
    right
    simp only [exec_scheduled_loop, if_true]
    refine ⟨_, rfl, ?_⟩
    have hrm := queueInv_remove_event s _ 1 hq
    simp only [List.erase_cons_head] at hrm
    have hsch : (xio_ev_loop_remove_event s 1).scheduled 1 = false := by
      cases h : (xio_ev_loop_remove_event s 1).scheduled 1 with
      | false => rfl
      | true => exact absurd ((hrm.2 1).2 h) (by simp)
    have := queueInv_add_event_new (record (xio_ev_loop_remove_event s 1)
      (Trace.event_handler 1 ((xio_ev_loop_remove_event s 1).evt_handler 1)
        ((xio_ev_loop_remove_event s 1).evt_data 1))) [] 1 hrm hsch
    simpa [call_event_handler, env_spin, run_ops, apply_op] using this

theorem env_spin_drain :
    ∀ (fuel : Nat) (s : State), QueueInv s [1] → run_helper_drain env_spin fuel s = none := by
  intro fuel
  induction fuel with
  | zero => intro s _; rfl
  | succ fuel ih =>
    intro s hq
    have hne : list_empty s.events_list none = false := by
      cases h : list_empty s.events_list none with
      | false => rfl
      | true => exact absurd ((queueInv_list_empty s _ hq).1 h) (by simp)
    simp only [run_helper_drain, hne, Bool.not_false, if_true]
    rcases env_spin_exec fuel s hq with h | ⟨r, h, hr⟩
    · rw [h]
    · rw [h]
      exact ih _ hr

/-! ## C13 -/

/-- C13, counterexample: the kernel answers the wait (it is not interrupted)
with the event of record 1, whose callback enqueues work item 1, and the
callback of work item 1 enqueues the item again whenever it runs.  The
trampoline never returns, whatever the fuel: its shutdown drain does not
end. -/
theorem C13_counterexample :
    env_spin.epoll_wait (run_helper_wait { State.init 0 with stop_loop := true } 0).log =
      WaitResult.ready [{ ptr := 1, events := 1 }] ∧
    ∀ fuel, xio_ev_loop_handler fuel env_spin (State.init 0) = none := by
  refine ⟨rfl, ?_⟩
  intro fuel
  cases fuel with
  | zero => rfl
  | succ fuel =>
    have hexec : xio_ev_loop_exec_scheduled fuel env_spin { State.init 0 with stop_loop := true }
        = some (false, { State.init 0 with stop_loop := true }) := rfl
    have h1 := (run_zero_one_batch env_spin fuel { State.init 0 with stop_loop := true } false
      { State.init 0 with stop_loop := true } [{ ptr := 1, events := 1 }] hexec rfl
      (Or.inl rfl)).1
    have hq : QueueInv (run_helper_remaining env_spin
        (run_helper_events env_spin
          (run_helper_wait { State.init 0 with stop_loop := true } 0) 0 0
          [{ ptr := 1, events := 1 }]) 0 0).1 [1] :=
      queueInv_congr (xio_ev_loop_add_event (State.init 0) 1) _ [1] ⟨rfl, rfl⟩
        (queueInv_add_event_new (State.init 0) [] 1
          (queueInv_fresh _ ⟨rfl, rfl, fun _ => rfl⟩) rfl)
    unfold xio_ev_loop_handler
    rw [h1]
    simp only [run_helper_exit, env_spin_drain fuel _ hq]
    rfl

/-- C13, amended: when the first drain returns and the kernel wait succeeds
with the batch `batch`, the trampoline, which sets `stop_loop` and runs with
timeout 0, issues exactly one kernel wait, with wait timeout 0, invokes no
I/O callback outside the dispatch of that one batch, goes on to the shutdown
drain and returns as soon as that drain ends.  The same holds for a run with
timeout 0 called directly, the elapsed time read after the batch being at
least 0. -/
theorem C13_trampoline_one_batch (env : Env) (fuel : Nat) (s : State) :
    (∀ (work_remains : Bool) (s1 : State) (batch : List EpollEvent),
      xio_ev_loop_exec_scheduled fuel env { s with stop_loop := true }
        = some (work_remains, s1) →
      env.epoll_wait (run_helper_wait s1 0).log = WaitResult.ready batch →
      xio_ev_loop_handler (fuel + 1) env s =
        (run_helper_exit env fuel
          (run_helper_remaining env
            (run_helper_events env (run_helper_wait s1 0) 0 0 batch) 0 0).1).map
          (fun r => r.2) ∧
      (∀ s2, xio_ev_loop_handler (fuel + 1) env s = some s2 →
        waits s2.log = waits s.log ++ [0] ∧
        invoked_handlers s2.log =
          invoked_handlers (run_helper_events env (run_helper_wait s1 0) 0 0 batch).log) ∧
      (∀ s6, run_helper_drain env fuel
          (run_helper_remaining env
            (run_helper_events env (run_helper_wait s1 0) 0 0 batch) 0 0).1 = some s6 →
        ∃ s2, xio_ev_loop_handler (fuel + 1) env s = some s2)) ∧
    (∀ (work_remains : Bool) (s1 : State) (batch : List EpollEvent),
      xio_ev_loop_exec_scheduled fuel env s = some (work_remains, s1) →
      env.epoll_wait (run_helper_wait s1 0).log = WaitResult.ready batch →
      0 ≤ env.time_passed (run_helper_events env (run_helper_wait s1 0) 0 0 batch).log →
      xio_ev_loop_run_timeout (fuel + 1) env s 0 =
        run_helper_exit env fuel
          (run_helper_remaining env
            (run_helper_events env (run_helper_wait s1 0) 0 0 batch) 0 0).1 ∧
      (∀ r, xio_ev_loop_run_timeout (fuel + 1) env s 0 = some r →
        r.1 = 0 ∧ waits r.2.log = waits s.log ++ [0] ∧
        invoked_handlers r.2.log =
          invoked_handlers (run_helper_events env (run_helper_wait s1 0) 0 0 batch).log) ∧
      (∀ s6, run_helper_drain env fuel
          (run_helper_remaining env
            (run_helper_events env (run_helper_wait s1 0) 0 0 batch) 0 0).1 = some s6 →
        ∃ r, xio_ev_loop_run_timeout (fuel + 1) env s 0 = some r ∧ r.1 = 0)) := by
  refine ⟨?_, ?_⟩
  · intro work_remains s1 batch hexec hwait
    obtain ⟨h1, h2, h3⟩ := run_zero_one_batch env fuel { s with stop_loop := true }
      work_remains s1 batch hexec hwait (Or.inl rfl)
    refine ⟨?_, ?_, ?_⟩
    · unfold xio_ev_loop_handler
      rw [h1]
    · intro s2 hs2
      unfold xio_ev_loop_handler at hs2
      cases hx : xio_ev_loop_run_helper (fuel + 1) env { s with stop_loop := true } 0 with
      | none => rw [hx] at hs2; simp at hs2
      | some r =>
        rw [hx] at hs2
        simp only [Option.map_some', Option.some.injEq] at hs2
        subst hs2
        exact (h2 r hx).2
    · intro s6 hs6
      obtain ⟨r, hr, _⟩ := h3 s6 hs6
      exact ⟨r.2, by unfold xio_ev_loop_handler; rw [hr]; rfl⟩
  · intro work_remains s1 batch hexec hwait htime
    exact run_zero_one_batch env fuel s work_remains s1 batch hexec hwait (Or.inr htime)

/-- C13, amended, at the empty reactor with a kernel that answers the events
of records 1 and 2: the trampoline issues one wait with timeout 0, invokes
the two callbacks and returns. -/
theorem C13_trampoline_one_batch_witness :
    (∀ s2, xio_ev_loop_handler (2 + 1) (env_batch []) (State.init 0) = some s2 →
      waits s2.log = waits (State.init 0).log ++ [0] ∧
      invoked_handlers s2.log =
        invoked_handlers (run_helper_events (env_batch [])
          (run_helper_wait { State.init 0 with stop_loop := true } 0) 0 0
          [{ ptr := 1, events := 1 }, { ptr := 2, events := 1 }]).log) ∧
    (xio_ev_loop_handler 3 (env_batch []) (State.init 0)).map
      (fun s2 => (waits s2.log, invoked_handlers s2.log)) = some ([0], [1, 2]) :=
  ⟨((C13_trampoline_one_batch (env_batch []) 2 (State.init 0)).1 false
      { State.init 0 with stop_loop := true }
      [{ ptr := 1, events := 1 }, { ptr := 2, events := 1 }] rfl rfl).2.1,
    by decide⟩

/-! ## One generation against its reference behaviour -/

theorem add_event_item_fields (s : State) (evt : Nat) :
    (xio_ev_loop_add_event s evt).evt_handler = s.evt_handler ∧
    (xio_ev_loop_add_event s evt).evt_data = s.evt_data := by
  unfold xio_ev_loop_add_event
  split <;> exact ⟨rfl, rfl⟩

theorem remove_event_item_fields (s : State) (evt : Nat) :
    (xio_ev_loop_remove_event s evt).evt_handler = s.evt_handler ∧
    (xio_ev_loop_remove_event s evt).evt_data = s.evt_data := by
  unfold xio_ev_loop_remove_event
  split <;> exact ⟨rfl, rfl⟩

theorem remove_event_clears (s : State) (evt : Nat) :
    (xio_ev_loop_remove_event s evt).scheduled evt = false := by
  unfold xio_ev_loop_remove_event
  by_cases h : s.scheduled evt = true
  · simp [h]
  · simp only [Bool.not_eq_true] at h
    simp [h]

theorem run_ops_enqueue (env : Env) (ops : List Op) :
    ∀ (u : State) (l : List Nat), (∀ o ∈ ops, ∃ evt, o = Op.add_event evt) →
      QueueInv u l → (l ++ enqueued_items ops).Nodup →
      QueueInv (run_ops env u ops) (l ++ enqueued_items ops) ∧
      (run_ops env u ops).log = u.log ∧
      (run_ops env u ops).evt_handler = u.evt_handler ∧
      (run_ops env u ops).evt_data = u.evt_data := by
  induction ops with
  | nil =>
    intro u l _ hq _
    simpa [enqueued_items, run_ops] using hq
  | cons o ops ih =>
    intro u l ho hq hnd
    obtain ⟨evt, rfl⟩ := ho o (List.mem_cons_self _ _)
    simp only [enqueued_items] at hnd ⊢
    have hnot : evt ∉ l := by
      intro c
      have h1 := List.nodup_append.1 hnd
      exact h1.2.2 c (List.mem_cons_self _ _)
    have hs : u.scheduled evt = false := by
      cases h : u.scheduled evt with
      | false => rfl
      | true => exact absurd ((hq.2 evt).2 h) hnot
    have hq1 := queueInv_add_event_new u l evt hq hs
    have hnd1 : ((l ++ [evt]) ++ enqueued_items ops).Nodup := by
      simpa [List.append_assoc] using hnd
    obtain ⟨h1, h2, h3, h4⟩ := ih (xio_ev_loop_add_event u evt) (l ++ [evt])
      (fun o ho1 => ho o (List.mem_cons_of_mem _ ho1)) hq1 hnd1
    refine ⟨?_, ?_, ?_, ?_⟩
    · have : l ++ evt :: enqueued_items ops = (l ++ [evt]) ++ enqueued_items ops := by simp
      rw [this]
      exact h1
    · exact h2.trans (add_event_log u evt)
    · exact h3.trans (add_event_item_fields u evt).1
    · exact h4.trans (add_event_item_fields u evt).2

theorem reference_generation_invoked (env : Env) (s : State) (pending : List Nat) :
    ∀ (lg : List Trace) (queue : List Nat),
      invoked_events (reference_generation env s lg pending queue).1 =
        invoked_events lg ++ pending := by
  induction pending with
  | nil => intro lg queue; simp [reference_generation]
  | cons x pending ih =>
    intro lg queue
    simp only [reference_generation]
    rw [ih]
    simp [invoked_events]

theorem exec_scheduled_loop_reference (env : Env) (s : State) (last : Nat) :
    ∀ (rest : List Nat) (x : Nat) (t : State) (queue : List Nat),
      QueueInv t (x :: rest ++ queue) →
      t.evt_handler = s.evt_handler → t.evt_data = s.evt_data →
      OnlyFreshEnqueues env s t.log (x :: rest) queue →
      (x :: rest).getLast (List.cons_ne_nil _ _) = last →
      ∀ fuel, rest.length < fuel →
      ∃ s1,
        exec_scheduled_loop env (some last) fuel t (some x) (t.events_list.next (some x))
          = some s1 ∧
        s1.log = (reference_generation env s t.log (x :: rest) queue).1 ∧
        QueueInv s1 (reference_generation env s t.log (x :: rest) queue).2 := by
  intro rest
  induction rest with
  | nil =>
    intro x t queue hq hh hd hok hlast fuel hfuel
    obtain ⟨fuel, rfl⟩ : ∃ f, fuel = f + 1 := ⟨fuel - 1, by omega⟩
    simp only [List.getLast_singleton] at hlast
    subst hlast
    simp only [exec_scheduled_loop, if_true]
    have hrm := queueInv_remove_event t _ x hq
    simp only [List.cons_append, List.erase_cons_head, List.nil_append] at hrm
    simp only [OnlyFreshEnqueues, List.nil_append] at hok
    refine ⟨_, rfl, ?_⟩
    have hlogr : (record (xio_ev_loop_remove_event t x)
        (Trace.event_handler x ((xio_ev_loop_remove_event t x).evt_handler x)
          ((xio_ev_loop_remove_event t x).evt_data x))).log
        = Trace.event_handler x (s.evt_handler x) (s.evt_data x) :: t.log := by
      simp [record, remove_event_log, (remove_event_item_fields t x).1,
        (remove_event_item_fields t x).2, hh, hd]
    obtain ⟨h1, h2, _, _⟩ := run_ops_enqueue env
      (env.event_handler (Trace.event_handler x (s.evt_handler x) (s.evt_data x) :: t.log))
      (record (xio_ev_loop_remove_event t x)
        (Trace.event_handler x ((xio_ev_loop_remove_event t x).evt_handler x)
          ((xio_ev_loop_remove_event t x).evt_data x))) queue hok.1
      (queueInv_record _ _ _ hrm) hok.2.1
    simp only [call_event_handler, reference_generation]
    rw [hlogr]
    exact ⟨h2.trans hlogr, h1⟩
  | cons y rest ih =>
    intro x t queue hq hh hd hok hlast fuel hfuel
    obtain ⟨fuel, rfl⟩ : ∃ f, fuel = f + 1 := ⟨fuel - 1, by omega⟩
    have hn : t.events_list.next (some x) = some y := queueInv_next_second t x y _ hq
    have hrm := queueInv_remove_event t _ x hq
    simp only [List.cons_append, List.erase_cons_head] at hrm
    simp only [OnlyFreshEnqueues] at hok
    obtain ⟨hok1, hok2, hok3⟩ := hok
    have hlogr : (record (xio_ev_loop_remove_event t x)
        (Trace.event_handler x ((xio_ev_loop_remove_event t x).evt_handler x)
          ((xio_ev_loop_remove_event t x).evt_data x))).log
        = Trace.event_handler x (s.evt_handler x) (s.evt_data x) :: t.log := by
      simp [record, remove_event_log, (remove_event_item_fields t x).1,
        (remove_event_item_fields t x).2, hh, hd]
    have hnd0 : ((y :: rest ++ queue) ++ enqueued_items
        (env.event_handler
          (Trace.event_handler x (s.evt_handler x) (s.evt_data x) :: t.log))).Nodup := by
      simpa [List.append_assoc] using hok2
    obtain ⟨h1, h2, h3, h4⟩ := run_ops_enqueue env
      (env.event_handler (Trace.event_handler x (s.evt_handler x) (s.evt_data x) :: t.log))
      (record (xio_ev_loop_remove_event t x)
        (Trace.event_handler x ((xio_ev_loop_remove_event t x).evt_handler x)
          ((xio_ev_loop_remove_event t x).evt_data x))) (y :: rest ++ queue) hok1
      (queueInv_record _ _ _ hrm) hnd0
    have hxl : (some x : Option Nat) ≠ some last := by
      intro c
      injection c with c
      rw [List.getLast_cons_cons] at hlast
      have hm : last ∈ y :: rest := hlast ▸ List.getLast_mem _
      have hx : x ∉ y :: rest ++ queue := (List.nodup_cons.1 hq.1.2).1
      exact hx (List.mem_append_left _ (c ▸ hm))
    have hlast1 : (y :: rest).getLast (List.cons_ne_nil _ _) = last := by
      rw [List.getLast_cons_cons] at hlast
      exact hlast
    have hcall : call_event_handler env (xio_ev_loop_remove_event t x) x =
        run_ops env (record (xio_ev_loop_remove_event t x)
          (Trace.event_handler x ((xio_ev_loop_remove_event t x).evt_handler x)
            ((xio_ev_loop_remove_event t x).evt_data x)))
          (env.event_handler
            (Trace.event_handler x (s.evt_handler x) (s.evt_data x) :: t.log)) := by
      simp only [call_event_handler]
      rw [hlogr]
    have hlog2 : (call_event_handler env (xio_ev_loop_remove_event t x) x).log =
        Trace.event_handler x (s.evt_handler x) (s.evt_data x) :: t.log := by
      rw [hcall]; exact h2.trans hlogr
    obtain ⟨s1, e1, e2, e3⟩ := ih y (call_event_handler env (xio_ev_loop_remove_event t x) x)
      (queue ++ enqueued_items (env.event_handler
        (Trace.event_handler x (s.evt_handler x) (s.evt_data x) :: t.log)))
      (by rw [hcall]; simpa [List.append_assoc] using h1)
      (by rw [hcall, h3]; exact (remove_event_item_fields t x).1.trans hh)
      (by rw [hcall, h4]; exact (remove_event_item_fields t x).2.trans hd)
      (by rw [hlog2]; exact hok3) hlast1 fuel (by simpa using hfuel)
    refine ⟨s1, ?_, ?_, ?_⟩
    · simp only [exec_scheduled_loop, hxl, if_false, hn]
      exact e1
    · rw [e2, hlog2]; rfl
    · rw [hlog2] at e3; exact e3

theorem exec_scheduled_reference (env : Env) (s : State) (q : List Nat) (hq : QueueInv s q)
    (hok : OnlyFreshEnqueues env s s.log q []) (fuel : Nat) (hf : q.length < fuel) :
    ∃ s1,
      xio_ev_loop_exec_scheduled fuel env s =
        some (decide ((reference_generation env s s.log q []).2 ≠ []), s1) ∧
      s1.log = (reference_generation env s s.log q []).1 ∧
      QueueInv s1 (reference_generation env s s.log q []).2 := by
  cases q with
  | nil =>
    refine ⟨s, ?_, rfl, hq⟩
    have := (queueInv_list_empty s [] hq).2 rfl
    simp [xio_ev_loop_exec_scheduled, this, reference_generation]
  | cons x rest =>
    have hne : list_empty s.events_list none = false := by
      cases h : list_empty s.events_list none with
      | false => rfl
      | true => exact absurd ((queueInv_list_empty s _ hq).1 h) (by simp)
    have hlast := seg_prev_last s.events_list (x :: rest) none none (List.cons_ne_nil _ _) hq.1.1
    have hhead := queueInv_next_head s x rest hq
    obtain ⟨s1, e1, e2, e3⟩ := exec_scheduled_loop_reference env s
      ((x :: rest).getLast (List.cons_ne_nil _ _)) rest x s [] (by simpa using hq) rfl rfl hok
      rfl fuel (by simp at hf; omega)
    refine ⟨s1, ?_, e2, e3⟩
    simp only [xio_ev_loop_exec_scheduled, hne, Bool.not_false, if_true, hlast, hhead]
    rw [e1]
    have hw : (!list_empty s1.events_list none) =
        decide ((reference_generation env s s.log (x :: rest) []).2 ≠ []) := by
      have := queueInv_list_empty s1 _ e3
      cases hle : list_empty s1.events_list none with
      | true => simp [this.1 hle]
      | false =>
        have hnn : (reference_generation env s s.log (x :: rest) []).2 ≠ [] := by
          intro c
          rw [this.2 c] at hle
          exact absurd hle (by simp)
        simp [hnn]
    show some (!list_empty s1.events_list none, s1) = _
    rw [hw]

/-! ## C15 -/

/-- C15: on the queue `q`, with callbacks that only enqueue and only work
items that are not scheduled at that moment, `xio_ev_loop_exec_scheduled`
returns and behaves as the reference generation: it invokes the callbacks of
the items of `q`, once each, in queue order; the queue left is exactly the
items enqueued during the drain, in enqueue order; `work_remains` is true if
and only if that queue is not empty.  Each callback is called on the state
that `xio_ev_loop_remove_event` returns, in which the `scheduled` flag of the
item is clear.  On the empty queue nothing is invoked and the result is
false. -/
theorem C15_reference_generation (env : Env) (s : State) (q : List Nat)
    (hq : QueueInv s q) (hok : OnlyFreshEnqueues env s s.log q []) (fuel : Nat)
    (hf : q.length < fuel) :
    (∃ s1,
      xio_ev_loop_exec_scheduled fuel env s =
        some (decide ((reference_generation env s s.log q []).2 ≠ []), s1) ∧
      s1.log = (reference_generation env s s.log q []).1 ∧
      invoked_events s1.log = invoked_events s.log ++ q ∧
      QueueInv s1 (reference_generation env s s.log q []).2 ∧
      ∀ fuel1, (reference_generation env s s.log q []).2.length ≤ fuel1 →
        queue_items fuel1 s1 = (reference_generation env s s.log q []).2) ∧
    (∀ (t : State) (x : Nat), (xio_ev_loop_remove_event t x).scheduled x = false) ∧
    (∀ (last n : Option Nat) (f : Nat) (t : State) (x : Nat),
      exec_scheduled_loop env last (f + 1) t (some x) n =
        if some x = last then
          some (call_event_handler env (xio_ev_loop_remove_event t x) x)
        else
          exec_scheduled_loop env last f
            (call_event_handler env (xio_ev_loop_remove_event t x) x) n
            ((call_event_handler env (xio_ev_loop_remove_event t x) x).events_list.next n)) ∧
    (q = [] → xio_ev_loop_exec_scheduled fuel env s = some (false, s) ∧
      (reference_generation env s s.log q []).1 = s.log) := by
  refine ⟨?_, remove_event_clears, fun _ _ _ _ _ => rfl, ?_⟩
  · obtain ⟨s1, h1, h2, h3⟩ := exec_scheduled_reference env s q hq hok fuel hf
    refine ⟨s1, h1, h2, ?_, h3, fun fuel1 hf1 => queue_items_eq s1 _ h3 fuel1 hf1⟩
    rw [h2, reference_generation_invoked]
  · intro hnil
    subst hnil
    have := (queueInv_list_empty s [] hq).2 rfl
    simp [xio_ev_loop_exec_scheduled, this, reference_generation]

theorem onlyFreshEnqueues_s3 :
    OnlyFreshEnqueues (env_item1 [Op.add_event 3]) queue12 queue12.log [1, 2] [] := by
  refine ⟨?_, ?_, ?_, ?_, trivial⟩
  · intro o ho
    exact ⟨3, by simpa [env_item1] using ho⟩
  · decide
  · intro o ho
    simp [env_item1] at ho
  · decide

/-- C15 at scenario S3: work items 1 and 2 are queued and the callback of item
1 enqueues item 3; the drain invokes 1 and 2, leaves 3 queued and returns
true. -/
theorem C15_reference_generation_witness :
    ∃ s1,
      xio_ev_loop_exec_scheduled 3 (env_item1 [Op.add_event 3]) queue12 = some (true, s1) ∧
      invoked_events s1.log = [1, 2] ∧ QueueInv s1 [3] := by
  obtain ⟨s1, h1, _, h3, h4, _⟩ :=
    (C15_reference_generation (env_item1 [Op.add_event 3]) queue12 [1, 2] queueInv_queue12
      onlyFreshEnqueues_s3 3 (by decide)).1
  exact ⟨s1, h1, h3, h4⟩

/-! ## `xio_ev_loop_destroy` -/

theorem del_ctl_tev_fd (env : Env) (s : State) (fd : Int) :
    (xio_ev_loop_del_ctl env s fd).2.tev_fd = s.tev_fd ∧
    (xio_ev_loop_del_ctl env s fd).2.poll_events_list = s.poll_events_list ∧
    (xio_ev_loop_del_ctl env s fd).2.log = Trace.epoll_ctl_del fd :: s.log := by
  unfold xio_ev_loop_del_ctl record
  dsimp only
  split <;> simp

theorem del_tev_fd (env : Env) (s : State) (fd : Int) :
    (xio_ev_loop_del env s fd).2.tev_fd = s.tev_fd := by
  unfold xio_ev_loop_del
  split
  · split
    · rfl
    · dsimp only
      split
      · exact (del_ctl_tev_fd _ _ _).1
      · exact (del_ctl_tev_fd _ _ _).1
  · exact (del_ctl_tev_fd _ _ _).1

theorem lookup_head (s : State) (tev : Nat) (l : List Nat) (h : s.poll_events_list = tev :: l) :
    xio_event_lookup s (s.tev_fd tev) = some tev := by
  simp [xio_event_lookup, h]

theorem destroy_del_loop_spec (env : Env) :
    ∀ (l : List Nat) (s : State), s.poll_events_list = l →
      (∀ p ∈ l, s.tev_fd p ≠ s.wakeup_event) →
      s.deleted_events_nr + l.length ≤ MAX_DELETED_EVENTS →
      (destroy_del_loop env s l).poll_events_list = [] ∧
      (∀ p, InDeleted s p ∨ p ∈ l → InDeleted (destroy_del_loop env s l) p) ∧
      (∃ new, (destroy_del_loop env s l).log = new ++ s.log ∧
        ∀ p ∈ l, Trace.epoll_ctl_del (s.tev_fd p) ∈ new) ∧
      (destroy_del_loop env s l).events_list = s.events_list ∧
      (destroy_del_loop env s l).scheduled = s.scheduled ∧
      (destroy_del_loop env s l).wakeup_event = s.wakeup_event := by
  intro l
  induction l with
  | nil =>
    intro s hs _ _
    refine ⟨hs, ?_, ⟨[], rfl, by simp⟩, rfl, rfl, rfl⟩
    intro p hp
    rcases hp with hp | hp
    · exact hp
    · simp at hp
  | cons tev l ih =>
    intro s hs hfd hroom
    have hfd1 : s.tev_fd tev ≠ s.wakeup_event := hfd tev (List.mem_cons_self _ _)
    have hl := lookup_head s tev l hs
    have hroom1 : s.deleted_events_nr < MAX_DELETED_EVENTS := by
      simp only [List.length_cons] at hroom
      omega
    obtain ⟨d1, d2, _, d4, _⟩ := del_found env s (s.tev_fd tev) tev hfd1 hl
    obtain ⟨d5, d6⟩ := d4 hroom1
    have dfd := del_tev_fd env s (s.tev_fd tev)
    have dwk := (del_flags env s (s.tev_fd tev)).2.2.2
    have dq := del_queue env s (s.tev_fd tev)
    have hreg : (xio_ev_loop_del env s (s.tev_fd tev)).2.poll_events_list = l := by
      rw [d1, hs, List.erase_cons_head]
    obtain ⟨i1, i2, ⟨new, i3, i4⟩, i5, i6, i7⟩ := ih (xio_ev_loop_del env s (s.tev_fd tev)).2 hreg
      (by
        intro p hp
        rw [dfd, dwk]
        exact hfd p (List.mem_cons_of_mem _ hp))
      (by
        rw [d6]
        simp only [List.length_cons] at hroom
        omega)
    simp only [destroy_del_loop]
    refine ⟨i1, ?_, ⟨new ++ [Trace.epoll_ctl_del (s.tev_fd tev)], ?_, ?_⟩, ?_, ?_, ?_⟩
    · intro p hp
      apply i2
      rcases hp with ⟨j, hj, he⟩ | hp
      · left
        refine ⟨j, by rw [d6]; exact Nat.lt_succ_of_lt hj, ?_⟩
        rw [d5]
        simp [Function.update_apply, Nat.ne_of_lt hj, he]
      · rcases List.mem_cons.1 hp with hp | hp
        · left
          refine ⟨s.deleted_events_nr, by rw [d6]; exact Nat.lt_succ_self _, ?_⟩
          rw [d5, hp]
          simp
        · exact Or.inr hp
    · rw [i3, d2]; simp
    · intro p hp
      rcases List.mem_cons.1 hp with hp | hp
      · subst hp; simp
      · have := i4 p hp
        rw [dfd] at this
        exact List.mem_append_left _ this
    · rw [i5, dq.1]
    · rw [i6, dq.2]
    · rw [i7, dwk]

theorem remove_event_frame (s : State) (evt : Nat) :
    (xio_ev_loop_remove_event s evt).log = s.log ∧
    (xio_ev_loop_remove_event s evt).poll_events_list = s.poll_events_list ∧
    (xio_ev_loop_remove_event s evt).deleted_events = s.deleted_events ∧
    (xio_ev_loop_remove_event s evt).deleted_events_nr = s.deleted_events_nr ∧
    (xio_ev_loop_remove_event s evt).wakeup_event = s.wakeup_event := by
  unfold xio_ev_loop_remove_event
  split <;> exact ⟨rfl, rfl, rfl, rfl, rfl⟩

theorem destroy_events_loop_spec :
    ∀ (rest : List Nat) (x : Nat) (t : State), QueueInv t (x :: rest) →
      ∀ fuel, rest.length + 1 < fuel →
      ∃ s1, destroy_events_loop fuel t (some x) (t.events_list.next (some x)) = some s1 ∧
        QueueInv s1 [] ∧ s1.log = t.log ∧ s1.poll_events_list = t.poll_events_list ∧
        s1.deleted_events = t.deleted_events ∧ s1.deleted_events_nr = t.deleted_events_nr ∧
        s1.wakeup_event = t.wakeup_event := by
  intro rest
  induction rest with
  | nil =>
    intro x t hq fuel hfuel
    obtain ⟨fuel, rfl⟩ : ∃ f, fuel = f + 2 := ⟨fuel - 2, by simp at hfuel; omega⟩
    have hn : t.events_list.next (some x) = none := hq.1.1.2.2.1
    have hrm := queueInv_remove_event t _ x hq
    simp only [List.erase_cons_head] at hrm
    obtain ⟨f1, f2, f3, f4, f5⟩ := remove_event_frame t x
    exact ⟨xio_ev_loop_remove_event t x, by simp [destroy_events_loop, hn], hrm, f1, f2, f3,
      f4, f5⟩
  | cons y rest ih =>
    intro x t hq fuel hfuel
    obtain ⟨fuel, rfl⟩ : ∃ f, fuel = f + 1 := ⟨fuel - 1, by omega⟩
    have hn : t.events_list.next (some x) = some y := queueInv_next_second t x y _ hq
    have hrm := queueInv_remove_event t _ x hq
    simp only [List.erase_cons_head] at hrm
    obtain ⟨f1, f2, f3, f4, f5⟩ := remove_event_frame t x
    obtain ⟨s1, e1, e2, e3, e4, e5, e6, e7⟩ := ih y (xio_ev_loop_remove_event t x) hrm fuel
      (by simpa using hfuel)
    refine ⟨s1, ?_, e2, e3.trans f1, e4.trans f2, e5.trans f3, e6.trans f4, e7.trans f5⟩
    simp only [destroy_events_loop, hn]
    exact e1

theorem free_deleted_loop_log :
    ∀ (n : Nat) (s : State), s.deleted_events_nr = n →
      ∃ new, (free_deleted_loop n s).log = new ++ s.log ∧
        (∀ j, j < n → Trace.ufree (s.deleted_events j) ∈ new) ∧
        ∀ t ∈ new, ∃ j, j < n ∧ t = Trace.ufree (s.deleted_events j) := by
  intro n
  induction n with
  | zero => intro s _; exact ⟨[], rfl, by simp, by simp⟩
  | succ n ih =>
    intro s hs
    simp only [free_deleted_loop]
    obtain ⟨new, h1, h2, h3⟩ := ih (record { s with deleted_events_nr := s.deleted_events_nr - 1 }
      (Trace.ufree (s.deleted_events (s.deleted_events_nr - 1)))) (by simp [record, hs])
    refine ⟨new ++ [Trace.ufree (s.deleted_events n)], ?_, ?_, ?_⟩
    · rw [h1]; simp [record, hs]
    · intro j hj
      by_cases hjn : j = n
      · subst hjn; simp
      · exact List.mem_append_left _ (h2 j (by omega))
    · intro t ht
      rcases List.mem_append.1 ht with ht | ht
      · obtain ⟨j, hj, e⟩ := h3 t ht
        exact ⟨j, by omega, e⟩
      · exact ⟨n, by omega, by simpa using ht⟩

theorem free_deleted_events_log (s : State) :
    ∃ new, (free_deleted_events s).log = new ++ s.log ∧
      (∀ p, InDeleted s p → Trace.ufree p ∈ new) ∧
      ∀ t ∈ new, ∃ p, InDeleted s p ∧ t = Trace.ufree p := by
  obtain ⟨new, h1, h2, h3⟩ := free_deleted_loop_log s.deleted_events_nr s rfl
  refine ⟨new, h1, ?_, ?_⟩
  · rintro p ⟨j, hj, rfl⟩
    exact h2 j hj
  · intro t ht
    obtain ⟨j, hj, e⟩ := h3 t ht
    exact ⟨_, ⟨j, hj, rfl⟩, e⟩

theorem destroy_spec (env : Env) (s : State) (q : List Nat) (fuel : Nat)
    (hfd : ∀ p ∈ s.poll_events_list, s.tev_fd p ≠ s.wakeup_event)
    (hroom : s.deleted_events_nr + s.poll_events_list.length ≤ MAX_DELETED_EVENTS)
    (hq : QueueInv s q) (hf : q.length < fuel) :
    ∃ s1, xio_ev_loop_destroy fuel env s = some s1 ∧
      s1.poll_events_list = [] ∧ s1.deleted_events_nr = 0 ∧
      QueueInv s1 [] ∧
      ∃ new, s1.log = new ++ s.log ∧
        (∀ p ∈ s.poll_events_list, Trace.epoll_ctl_del (s.tev_fd p) ∈ new) ∧
        Trace.epoll_ctl_del s.wakeup_event ∈ new ∧
        (∀ p, p ∈ s.poll_events_list ∨ InDeleted s p → Trace.ufree p ∈ new) := by
  obtain ⟨a1, a2, ⟨n1, a3, a4⟩, a5, a6, a7⟩ :=
    destroy_del_loop_spec env s.poll_events_list s rfl hfd hroom
  have hq1 : QueueInv (destroy_del_loop env s s.poll_events_list) q :=
    queueInv_congr s _ q ⟨a5, a6⟩ hq
  have hloop : ∃ s2, destroy_events_loop fuel (destroy_del_loop env s s.poll_events_list)
      ((destroy_del_loop env s s.poll_events_list).events_list.next none)
      ((destroy_del_loop env s s.poll_events_list).events_list.next
        ((destroy_del_loop env s s.poll_events_list).events_list.next none)) = some s2 ∧
      QueueInv s2 [] ∧ s2.log = (destroy_del_loop env s s.poll_events_list).log ∧
      s2.poll_events_list = (destroy_del_loop env s s.poll_events_list).poll_events_list ∧
      s2.deleted_events = (destroy_del_loop env s s.poll_events_list).deleted_events ∧
      s2.deleted_events_nr = (destroy_del_loop env s s.poll_events_list).deleted_events_nr ∧
      s2.wakeup_event = (destroy_del_loop env s s.poll_events_list).wakeup_event := by
    cases q with
    | nil =>
      obtain ⟨fuel, rfl⟩ : ∃ f, fuel = f + 1 := ⟨fuel - 1, by simp at hf; omega⟩
      have hn : (destroy_del_loop env s s.poll_events_list).events_list.next none = none :=
        hq1.1.1.1
      exact ⟨_, by simp [destroy_events_loop, hn], hq1, rfl, rfl, rfl, rfl, rfl⟩
    | cons x rest =>
      have hh := queueInv_next_head _ x rest hq1
      rw [hh]
      exact destroy_events_loop_spec rest x _ hq1 fuel (by simpa using hf)
  obtain ⟨s2, b1, b2, b3, b4, b5, b6, b7⟩ := hloop
  obtain ⟨n3, c1, c2, _⟩ := free_deleted_events_log s2
  obtain ⟨c3, _, c4, c5, c6, _, c7⟩ := free_deleted_events_spec s2
  have hd := del_ctl_tev_fd env (free_deleted_events s2) (free_deleted_events s2).wakeup_event
  have hdq := del_ctl_queue env (free_deleted_events s2) (free_deleted_events s2).wakeup_event
  have hdd := del_ctl_deleted env (free_deleted_events s2) (free_deleted_events s2).wakeup_event
  have hdel : xio_ev_loop_del env (free_deleted_events s2) (free_deleted_events s2).wakeup_event
      = xio_ev_loop_del_ctl env (free_deleted_events s2)
        (free_deleted_events s2).wakeup_event := by
    simp [xio_ev_loop_del]
  have hres : xio_ev_loop_destroy fuel env s = some
      { (xio_ev_loop_del env (free_deleted_events s2)
          (free_deleted_events s2).wakeup_event).2 with wakeup_event := -1 } := by
    simp only [xio_ev_loop_destroy, b1]
  refine ⟨_, hres, ?_, ?_, ?_, ?_⟩
  · show (xio_ev_loop_del env (free_deleted_events s2)
      (free_deleted_events s2).wakeup_event).2.poll_events_list = []
    rw [hdel, hd.2.1, c4, b4, a1]
  · show (xio_ev_loop_del env (free_deleted_events s2)
      (free_deleted_events s2).wakeup_event).2.deleted_events_nr = 0
    rw [hdel, hdd.2, c3]
  · apply queueInv_congr (free_deleted_events s2) _ []
    · rw [hdel]
      exact ⟨hdq.1, hdq.2⟩
    · exact queueInv_congr s2 _ [] ⟨c5, c6⟩ b2
  · refine ⟨Trace.epoll_ctl_del s.wakeup_event :: (n3 ++ n1), ?_, ?_, ?_, ?_⟩
    · show (xio_ev_loop_del env (free_deleted_events s2)
        (free_deleted_events s2).wakeup_event).2.log = _
      rw [hdel, hd.2.2, c1, b3, a3, c7, b7, a7]
      simp
    · intro p hp
      exact List.mem_cons_of_mem _ (List.mem_append_right _ (a4 p hp))
    · exact List.mem_cons_self _ _
    · intro p hp
      have hin : InDeleted s2 p := by
        have := a2 p (hp.symm)
        obtain ⟨j, hj, e⟩ := this
        exact ⟨j, by rw [b6]; exact hj, by rw [b5]; exact e⟩
      exact List.mem_cons_of_mem _ (List.mem_append_left _ (c2 p hin))

/-! ## Effects of the Registry calls -/

theorem add_effect (env : Env) (s : State) (fd : Int) (events : XioEvents)
    (handler data : Nat) :
    (fd = s.wakeup_event ∧
      (xio_ev_loop_add env s fd events handler data).2.poll_events_list = s.poll_events_list ∧
      (xio_ev_loop_add env s fd events handler data).2.tev_fd = s.tev_fd ∧
      ((env.epoll_ctl (Trace.epoll_ctl_add fd (translate_events events) 0 :: s.log) = 0 ∧
        (xio_ev_loop_add env s fd events handler data).2.log =
          Trace.epoll_ctl_add fd (translate_events events) 0 :: s.log) ∨
       (env.epoll_ctl (Trace.epoll_ctl_add fd (translate_events events) 0 :: s.log) ≠ 0 ∧
        (xio_ev_loop_add env s fd events handler data).2.log =
          Trace.ufree 0 :: Trace.epoll_ctl_add fd (translate_events events) 0 :: s.log))) ∨
    (fd ≠ s.wakeup_event ∧ env.ucalloc (Trace.ucalloc :: s.log) = 0 ∧
      (xio_ev_loop_add env s fd events handler data).2.poll_events_list = s.poll_events_list ∧
      (xio_ev_loop_add env s fd events handler data).2.tev_fd = s.tev_fd ∧
      (xio_ev_loop_add env s fd events handler data).2.log = Trace.ucalloc :: s.log) ∨
    (fd ≠ s.wakeup_event ∧ env.ucalloc (Trace.ucalloc :: s.log) ≠ 0 ∧
      env.epoll_ctl (Trace.epoll_ctl_add fd (translate_events events)
        (env.ucalloc (Trace.ucalloc :: s.log)) :: Trace.ucalloc :: s.log) = 0 ∧
      (xio_ev_loop_add env s fd events handler data).2.poll_events_list =
        env.ucalloc (Trace.ucalloc :: s.log) :: s.poll_events_list ∧
      (xio_ev_loop_add env s fd events handler data).2.tev_fd =
        Function.update s.tev_fd (env.ucalloc (Trace.ucalloc :: s.log)) fd ∧
      (xio_ev_loop_add env s fd events handler data).2.log =
        Trace.epoll_ctl_add fd (translate_events events)
          (env.ucalloc (Trace.ucalloc :: s.log)) :: Trace.ucalloc :: s.log) ∨
    (fd ≠ s.wakeup_event ∧ env.ucalloc (Trace.ucalloc :: s.log) ≠ 0 ∧
      env.epoll_ctl (Trace.epoll_ctl_add fd (translate_events events)
        (env.ucalloc (Trace.ucalloc :: s.log)) :: Trace.ucalloc :: s.log) ≠ 0 ∧
      (xio_ev_loop_add env s fd events handler data).2.poll_events_list = s.poll_events_list ∧
      (xio_ev_loop_add env s fd events handler data).2.tev_fd =
        Function.update s.tev_fd (env.ucalloc (Trace.ucalloc :: s.log)) fd ∧
      (xio_ev_loop_add env s fd events handler data).2.log =
        Trace.ufree (env.ucalloc (Trace.ucalloc :: s.log)) ::
          Trace.epoll_ctl_add fd (translate_events events)
            (env.ucalloc (Trace.ucalloc :: s.log)) :: Trace.ucalloc :: s.log) := by
  by_cases hfd : fd = s.wakeup_event
  · left
    subst hfd
    by_cases hc : env.epoll_ctl
        (Trace.epoll_ctl_add s.wakeup_event (translate_events events) 0 :: s.log) = 0
    · simp [xio_ev_loop_add, xio_ev_loop_add_ctl, record, hc]
    · simp [xio_ev_loop_add, xio_ev_loop_add_ctl, record, hc]
  · right
    by_cases ha : env.ucalloc (Trace.ucalloc :: s.log) = 0
    · left
      simp [xio_ev_loop_add, record, hfd, ha]
    · right
      by_cases hc : env.epoll_ctl (Trace.epoll_ctl_add fd (translate_events events)
          (env.ucalloc (Trace.ucalloc :: s.log)) :: Trace.ucalloc :: s.log) = 0
      · left
        simp [xio_ev_loop_add, xio_ev_loop_add_ctl, record, hfd, ha, hc]
      · right
        simp [xio_ev_loop_add, xio_ev_loop_add_ctl, record, hfd, ha, hc]

theorem del_effect (env : Env) (s : State) (fd : Int) :
    (xio_ev_loop_del env s fd).2.tev_fd = s.tev_fd ∧
    ((fd = s.wakeup_event ∧
      (xio_ev_loop_del env s fd).2.poll_events_list = s.poll_events_list ∧
      (xio_ev_loop_del env s fd).2.deleted_events = s.deleted_events ∧
      (xio_ev_loop_del env s fd).2.deleted_events_nr = s.deleted_events_nr ∧
      (xio_ev_loop_del env s fd).2.log = Trace.epoll_ctl_del fd :: s.log) ∨
    (fd ≠ s.wakeup_event ∧ xio_event_lookup s fd = none ∧
      (xio_ev_loop_del env s fd).2.poll_events_list = s.poll_events_list ∧
      (xio_ev_loop_del env s fd).2.deleted_events = s.deleted_events ∧
      (xio_ev_loop_del env s fd).2.deleted_events_nr = s.deleted_events_nr ∧
      (xio_ev_loop_del env s fd).2.log = s.log) ∨
    (∃ tev, fd ≠ s.wakeup_event ∧ xio_event_lookup s fd = some tev ∧
      (xio_ev_loop_del env s fd).2.poll_events_list = s.poll_events_list.erase tev ∧
      (xio_ev_loop_del env s fd).2.log = Trace.epoll_ctl_del fd :: s.log ∧
      ((s.deleted_events_nr < MAX_DELETED_EVENTS ∧
        (xio_ev_loop_del env s fd).2.deleted_events =
          Function.update s.deleted_events s.deleted_events_nr tev ∧
        (xio_ev_loop_del env s fd).2.deleted_events_nr = s.deleted_events_nr + 1) ∨
       (¬ s.deleted_events_nr < MAX_DELETED_EVENTS ∧
        (xio_ev_loop_del env s fd).2.deleted_events = s.deleted_events ∧
        (xio_ev_loop_del env s fd).2.deleted_events_nr = s.deleted_events_nr)))) := by
  refine ⟨del_tev_fd env s fd, ?_⟩
  by_cases hfd : fd = s.wakeup_event
  · left
    have h : xio_ev_loop_del env s fd = xio_ev_loop_del_ctl env s fd := by
      simp [xio_ev_loop_del, hfd]
    rw [h]
    exact ⟨hfd, (del_ctl_tev_fd env s fd).2.1, (del_ctl_deleted env s fd).1,
      (del_ctl_deleted env s fd).2, (del_ctl_tev_fd env s fd).2.2⟩
  · right
    cases hl : xio_event_lookup s fd with
    | none =>
      left
      simp [xio_ev_loop_del, hfd, hl]
    | some tev =>
      right
      obtain ⟨d1, d2, _, d4, d5⟩ := del_found env s fd tev hfd hl
      refine ⟨tev, hfd, rfl, d1, d2, ?_⟩
      by_cases hr : s.deleted_events_nr < MAX_DELETED_EVENTS
      · exact Or.inl ⟨hr, d4 hr⟩
      · exact Or.inr ⟨hr, d5 hr⟩

theorem modify_effect (env : Env) (s : State) (fd : Int) (events : XioEvents) :
    (xio_ev_loop_modify env s fd events).2.tev_fd = s.tev_fd ∧
    (xio_ev_loop_modify env s fd events).2.poll_events_list = s.poll_events_list ∧
    ((xio_ev_loop_modify env s fd events).2.log = s.log ∨
     (fd = s.wakeup_event ∧ (xio_ev_loop_modify env s fd events).2.log =
        Trace.epoll_ctl_mod fd (translate_events events) 0 :: s.log) ∨
     (∃ tev, fd ≠ s.wakeup_event ∧ xio_event_lookup s fd = some tev ∧
        (xio_ev_loop_modify env s fd events).2.log =
          Trace.epoll_ctl_mod fd (translate_events events) tev :: s.log)) := by
  by_cases hfd : fd = s.wakeup_event
  · simp only [xio_ev_loop_modify, hfd, ne_eq, not_true_eq_false, if_false,
      xio_ev_loop_modify_ctl, record]
    refine ⟨by split <;> rfl, by split <;> rfl, Or.inr (Or.inl ⟨trivial, by split <;> rfl⟩)⟩
  · cases hl : xio_event_lookup s fd with
    | none => simp [xio_ev_loop_modify, hfd, hl]
    | some tev =>
      simp only [xio_ev_loop_modify, hfd, ne_eq, not_false_eq_true, if_true, hl,
        xio_ev_loop_modify_ctl, record]
      refine ⟨by split <;> rfl, by split <;> rfl,
        Or.inr (Or.inr ⟨tev, trivial, rfl, by split <;> rfl⟩)⟩

/-! ## Invariants of the Registry, the allocator and the kernel watch set -/

theorem add_event_view (s : State) (evt : Nat) :
    (xio_ev_loop_add_event s evt).poll_events_list = s.poll_events_list ∧
    (xio_ev_loop_add_event s evt).tev_fd = s.tev_fd ∧
    (xio_ev_loop_add_event s evt).wakeup_event = s.wakeup_event ∧
    (xio_ev_loop_add_event s evt).deleted_events = s.deleted_events ∧
    (xio_ev_loop_add_event s evt).deleted_events_nr = s.deleted_events_nr ∧
    (xio_ev_loop_add_event s evt).log = s.log := by
  unfold xio_ev_loop_add_event
  split <;> exact ⟨rfl, rfl, rfl, rfl, rfl, rfl⟩

theorem remove_event_view (s : State) (evt : Nat) :
    (xio_ev_loop_remove_event s evt).poll_events_list = s.poll_events_list ∧
    (xio_ev_loop_remove_event s evt).tev_fd = s.tev_fd ∧
    (xio_ev_loop_remove_event s evt).wakeup_event = s.wakeup_event ∧
    (xio_ev_loop_remove_event s evt).deleted_events = s.deleted_events ∧
    (xio_ev_loop_remove_event s evt).deleted_events_nr = s.deleted_events_nr ∧
    (xio_ev_loop_remove_event s evt).log = s.log := by
  unfold xio_ev_loop_remove_event
  split <;> exact ⟨rfl, rfl, rfl, rfl, rfl, rfl⟩

/-- A property of the Registry, the record descriptors, the wakeup
descriptor, the deletion-deferral buffer and the history that is kept by
`xio_ev_loop_add`, `xio_ev_loop_del`, `xio_ev_loop_modify` and by recording a
callback invocation or a wait is kept by every call a callback can make. -/
theorem callbackInv_of_view (env : Env) (P : State → Prop)
    (hview : ∀ s t : State, t.poll_events_list = s.poll_events_list → t.tev_fd = s.tev_fd →
      t.wakeup_event = s.wakeup_event → t.deleted_events = s.deleted_events →
      t.deleted_events_nr = s.deleted_events_nr → t.log = s.log → P s → P t)
    (hcall : ∀ (s : State) (t : Trace), t.isCtl = false → P s → P (record s t))
    (hadd : ∀ s fd events handler data, P s → P (xio_ev_loop_add env s fd events handler data).2)
    (hdel : ∀ s fd, P s → P (xio_ev_loop_del env s fd).2)
    (hmod : ∀ s fd events, P s → P (xio_ev_loop_modify env s fd events).2) :
    CallbackInv env P where
  op := by
    intro s o hs
    cases o with
    | add fd events handler data => exact hadd s fd events handler data hs
    | del fd => exact hdel s fd hs
    | modify fd events => exact hmod s fd events hs
    | add_event evt =>
      obtain ⟨h1, h2, h3, h4, h5, h6⟩ := add_event_view s evt
      exact hview s _ h1 h2 h3 h4 h5 h6 hs
    | remove_event evt =>
      obtain ⟨h1, h2, h3, h4, h5, h6⟩ := remove_event_view s evt
      exact hview s _ h1 h2 h3 h4 h5 h6 hs
    | stop =>
      show P (xio_ev_loop_stop env s)
      unfold xio_ev_loop_stop
      split
      · exact hs
      · dsimp only
        split
        · exact hview s _ rfl rfl rfl rfl rfl rfl hs
        · exact hmod _ _ _ (hview s _ rfl rfl rfl rfl rfl rfl hs)
  call := hcall
  flags := fun s _ _ _ _ hs => hview s _ rfl rfl rfl rfl rfl rfl hs

theorem lookup_some (s : State) (fd : Int) (tev : Nat) (h : xio_event_lookup s fd = some tev) :
    tev ∈ s.poll_events_list ∧ s.tev_fd tev = fd := by
  unfold xio_event_lookup at h
  refine ⟨List.mem_of_find?_eq_some h, ?_⟩
  have := List.find?_some h
  simpa using this

theorem wakeInv_callback (env : Env) : CallbackInv env WakeInv := by
  apply callbackInv_of_view
  · intro s t h1 h2 h3 _ _ _ hs p hp
    rw [h2, h3]
    exact hs p (h1 ▸ hp)
  · intro s t _ hs
    exact hs
  · intro s fd events handler data hs p hp
    have hw := (add_flags env s fd events handler data).2.2.2
    rw [hw]
    rcases add_effect env s fd events handler data with
      ⟨_, h1, h2, _⟩ | ⟨_, _, h1, h2, _⟩ | ⟨hfd, _, _, h1, h2, _⟩ | ⟨hfd, _, _, h1, h2, _⟩
    · rw [h2]; exact hs p (h1 ▸ hp)
    · rw [h2]; exact hs p (h1 ▸ hp)
    · rw [h2, Function.update_apply]
      rw [h1] at hp
      split
      · exact hfd
      · rcases List.mem_cons.1 hp with hp | hp
        · contradiction
        · exact hs p hp
    · rw [h2, Function.update_apply]
      rw [h1] at hp
      split
      · exact hfd
      · exact hs p hp
  · intro s fd hs p hp
    have hw := (del_flags env s fd).2.2.2
    obtain ⟨ht, hcase⟩ := del_effect env s fd
    rw [hw, ht]
    rcases hcase with ⟨_, h1, _⟩ | ⟨_, _, h1, _⟩ | ⟨tev, _, _, h1, _⟩
    · exact hs p (h1 ▸ hp)
    · exact hs p (h1 ▸ hp)
    · rw [h1] at hp
      exact hs p (List.mem_of_mem_erase hp)
  · intro s fd events hs p hp
    have hw := (modify_flags env s fd events).2.2.2
    obtain ⟨ht, h1, _⟩ := modify_effect env s fd events
    rw [hw, ht]
    exact hs p (h1 ▸ hp)

theorem wakeInv_run (env : Env) : RunInv env WakeInv where
  callback := wakeInv_callback env
  free := by
    intro s hs p hp
    obtain ⟨_, _, h1, _, _, h2, h3⟩ := free_deleted_events_spec s
    rw [h2, h3]
    exact hs p (h1 ▸ hp)

theorem wakeInv_create (env : Env) (mem : State) (efd wakeup_event retval : Int) (s : State)
    (h : xio_ev_loop_create env mem efd wakeup_event retval = some s) : WakeInv s := by
  intro p hp
  rw [(create_spec env mem efd wakeup_event retval s h).2.1] at hp
  simp at hp

theorem loopReachable_wakeInv (env : Env) (s : State) (h : LoopReachable env s) : WakeInv s :=
  loopReachable_inv env WakeInv (wakeInv_run env) (wakeInv_create env) s h

/-! ## C14 -/

set_option maxRecDepth 100000 in
/-- C14, counterexample: in a reactor with registered descriptors 1 and 2
whose deletion-deferral buffer holds 1024 records, `xio_ev_loop_destroy`
empties the Registry and frees the buffered records (record 100, say), but
the records of descriptors 1 and 2 are not freed. -/
theorem C14_counterexample :
    full_idle.poll_events_list = [1, 2] ∧
    (xio_ev_loop_destroy 1 Env.quiet full_idle).map
      (fun r => (r.poll_events_list, decide (Trace.ufree 100 ∈ r.log),
        decide (Trace.ufree 1 ∈ r.log), decide (Trace.ufree 2 ∈ r.log)))
      = some ([], true, false, false) := by
  decide

/-- C14, amended: in a reachable reactor state whose deferred-work queue is
well formed and in which the buffer count plus the number of registered
records is at most 1024, `xio_ev_loop_destroy` returns with an empty Registry
and an empty buffer,
after a kernel delete for the descriptor of every record that was registered
and for the wakeup descriptor and a free of every record that was in the
Registry or in the deletion-deferral buffer; the deferred-work queue is empty
and no work item has its `scheduled` flag set. -/
theorem C14_destroy (env : Env) (s : State) (q : List Nat) (fuel : Nat)
    (hr : LoopReachable env s)
    (hroom : s.deleted_events_nr + s.poll_events_list.length ≤ MAX_DELETED_EVENTS)
    (hq : QueueInv s q) (hf : q.length < fuel) :
    ∃ s1, xio_ev_loop_destroy fuel env s = some s1 ∧
      s1.poll_events_list = [] ∧ s1.deleted_events_nr = 0 ∧
      (∀ i, s1.scheduled i = false) ∧ (∀ fuel1, queue_items fuel1 s1 = []) ∧
      ∃ new, s1.log = new ++ s.log ∧
        (∀ p ∈ s.poll_events_list, Trace.epoll_ctl_del (s.tev_fd p) ∈ new) ∧
        Trace.epoll_ctl_del s.wakeup_event ∈ new ∧
        (∀ p, p ∈ s.poll_events_list ∨ InDeleted s p → Trace.ufree p ∈ new) := by
  obtain ⟨s1, h1, h2, h3, h4, h5⟩ :=
    destroy_spec env s q fuel (loopReachable_wakeInv env s hr) hroom hq hf
  refine ⟨s1, h1, h2, h3, ?_, fun fuel1 => queue_items_eq s1 [] h4 fuel1 (Nat.zero_le _), h5⟩
  intro i
  cases hi : s1.scheduled i with
  | false => rfl
  | true => exact absurd ((h4.2 i).2 hi) (by simp)

theorem queueInv_registered5_work : QueueInv registered5_work [1] :=
  queueInv_add_event_new _ [] 1 (queueInv_fresh _ ⟨rfl, rfl, fun _ => rfl⟩) rfl

/-- C14 at the reactor with descriptor 5 registered and work item 1 enqueued:
`xio_ev_loop_destroy` returns with an empty Registry, the kernel delete of
descriptor 5 and of the wakeup descriptor 4 and the free of the record of
descriptor 5 recorded, and no work item scheduled. -/
theorem C14_destroy_witness :
    ∃ s1, xio_ev_loop_destroy 2 Env.quiet registered5_work = some s1 ∧
      s1.poll_events_list = [] ∧ s1.deleted_events_nr = 0 ∧
      (∀ i, s1.scheduled i = false) ∧ (∀ fuel1, queue_items fuel1 s1 = []) ∧
      ∃ new, s1.log = new ++ registered5_work.log ∧
        (∀ p ∈ registered5_work.poll_events_list,
          Trace.epoll_ctl_del (registered5_work.tev_fd p) ∈ new) ∧
        Trace.epoll_ctl_del registered5_work.wakeup_event ∈ new ∧
        (∀ p, p ∈ registered5_work.poll_events_list ∨ InDeleted registered5_work p →
          Trace.ufree p ∈ new) :=
  C14_destroy Env.quiet registered5_work [1] 2
    (LoopReachable.op _ (Op.add_event 1) loopReachable_registered5) (by decide)
    queueInv_registered5_work (by decide)

theorem live_cons_call (alloc : List Trace → Nat) (t : Trace) (lg : List Trace)
    (h : t.isCtl = false) : live alloc (t :: lg) = live alloc lg := by
  cases t <;> simp_all [live, Trace.isCtl]

theorem kwatch_cons_call (ctl : List Trace → Int) (t : Trace) (lg : List Trace)
    (h : t.isCtl = false) : kwatch ctl (t :: lg) = kwatch ctl lg := by
  cases t <;> simp_all [kwatch, Trace.isCtl]

theorem live_nonzero (alloc : List Trace → Nat) : ∀ lg, 0 ∉ live alloc lg := by
  intro lg
  induction lg with
  | nil => simp [live]
  | cons t lg ih =>
    cases t with
    | ucalloc =>
      simp only [live]
      split
      · exact ih
      · rename_i h
        simp only [List.mem_cons, not_or]
        exact ⟨fun h0 => h h0.symm, ih⟩
    | ufree p =>
      simp only [live, List.mem_filter, not_and]
      intro h
      exact absurd h ih
    | epoll_ctl_add fd ev ptr => exact ih
    | epoll_ctl_del fd => exact ih
    | epoll_ctl_mod fd ev ptr => exact ih
    | epoll_wait tmout => exact ih
    | handler tev fn fd ev data => exact ih
    | event_handler tev fn data => exact ih

theorem live_free (alloc : List Trace → Nat) (p q : Nat) (lg : List Trace) :
    q ∈ live alloc (Trace.ufree p :: lg) ↔ q ∈ live alloc lg ∧ q ≠ p := by
  simp [live]

/-- The frees `new` of records of the list `l` leave every other allocated
record allocated, and leave the kernel watch set as it is. -/
theorem live_append_frees (alloc : List Trace → Nat) (ctl : List Trace → Int)
    (lg : List Trace) (F : Nat → Prop) :
    ∀ new : List Trace, (∀ t ∈ new, ∃ p, F p ∧ t = Trace.ufree p) →
      (∀ q, q ∈ live alloc lg → ¬ F q → q ∈ live alloc (new ++ lg)) ∧
      (∀ q, q ∈ live alloc (new ++ lg) → q ∈ live alloc lg) ∧
      kwatch ctl (new ++ lg) = kwatch ctl lg := by
  intro new
  induction new with
  | nil => intro _; exact ⟨fun _ h _ => h, fun _ h => h, rfl⟩
  | cons t new ih =>
    intro h
    obtain ⟨i1, i2, i3⟩ := ih (fun t ht => h t (List.mem_cons_of_mem _ ht))
    obtain ⟨p, hp, rfl⟩ := h t (List.mem_cons_self _ _)
    refine ⟨?_, ?_, ?_⟩
    · intro q hq hF
      rw [List.cons_append, live_free]
      refine ⟨i1 q hq hF, ?_⟩
      rintro rfl
      exact hF hp
    · intro q hq
      rw [List.cons_append, live_free] at hq
      exact i2 q hq.1
    · rw [List.cons_append]
      simp only [kwatch]
      exact i3

theorem memInv_view (env : Env) (s t : State)
    (h1 : t.poll_events_list = s.poll_events_list)
    (h4 : t.deleted_events = s.deleted_events)
    (h5 : t.deleted_events_nr = s.deleted_events_nr)
    (h6 : live env.ucalloc t.log = live env.ucalloc s.log) (hs : MemInv env s) :
    MemInv env t where
  nodup := h1 ▸ hs.nodup
  reg_live := by
    intro p hp
    rw [h6]
    exact hs.reg_live p (h1 ▸ hp)
  del_live := by
    intro p hp
    have hp1 : InDeleted s p := by
      obtain ⟨j, hj, e⟩ := hp
      exact ⟨j, h5 ▸ hj, h4 ▸ e⟩
    rw [h6, h1]
    exact hs.del_live p hp1

theorem inDeleted_pushed (s t : State) (tev p : Nat)
    (h4 : t.deleted_events = Function.update s.deleted_events s.deleted_events_nr tev)
    (h5 : t.deleted_events_nr = s.deleted_events_nr + 1) (hp : InDeleted t p) :
    InDeleted s p ∨ p = tev := by
  obtain ⟨j, hj, e⟩ := hp
  rw [h5] at hj
  rw [h4, Function.update_apply] at e
  by_cases hjn : j = s.deleted_events_nr
  · rw [if_pos hjn] at e
    exact Or.inr e.symm
  · rw [if_neg hjn] at e
    exact Or.inl ⟨j, by omega, e⟩

theorem memInv_callback (env : Env) (hA : AllocatorFresh env) :
    CallbackInv env (MemInv env) := by
  apply callbackInv_of_view
  · intro s t h1 _ _ h4 h5 h6 hs
    exact memInv_view env s t h1 h4 h5 (by rw [h6]) hs
  · intro s t ht hs
    exact memInv_view env s _ rfl rfl rfl (live_cons_call _ t s.log ht) hs
  · intro s fd events handler data hs
    obtain ⟨h4, h5⟩ := add_deleted env s fd events handler data
    have hfresh := hA s.log
    rcases add_effect env s fd events handler data with
      ⟨_, h1, _, ⟨_, h6⟩ | ⟨_, h6⟩⟩ | ⟨_, ha, h1, _, h6⟩ | ⟨_, ha, _, h1, _, h6⟩ |
      ⟨_, ha, _, h1, _, h6⟩
    · exact memInv_view env s _ h1 h4 h5 (by rw [h6]; simp [live]) hs
    · refine memInv_view env s _ h1 h4 h5 ?_ hs
      rw [h6]
      simp only [live]
      apply List.filter_eq_self.2
      intro q hq
      have := live_nonzero env.ucalloc s.log
      simp only [ne_eq, decide_not, Bool.not_eq_true', decide_eq_false_iff_not]
      rintro rfl
      exact this hq
    · exact memInv_view env s _ h1 h4 h5 (by rw [h6]; simp [live, ha]) hs
    · have hl : live env.ucalloc (xio_ev_loop_add env s fd events handler data).2.log =
          env.ucalloc (Trace.ucalloc :: s.log) :: live env.ucalloc s.log := by
        rw [h6]; simp [live, ha]
      refine ⟨?_, ?_, ?_⟩
      · rw [h1]
        exact List.nodup_cons.2 ⟨fun h => hfresh (hs.reg_live _ h), hs.nodup⟩
      · intro p hp
        rw [hl]
        rw [h1] at hp
        rcases List.mem_cons.1 hp with hp | hp
        · exact hp ▸ List.mem_cons_self _ _
        · exact List.mem_cons_of_mem _ (hs.reg_live p hp)
      · intro p hp
        have hp1 : InDeleted s p := by
          obtain ⟨j, hj, e⟩ := hp
          exact ⟨j, h5 ▸ hj, h4 ▸ e⟩
        obtain ⟨d1, d2⟩ := hs.del_live p hp1
        rw [hl, h1]
        refine ⟨List.mem_cons_of_mem _ d1, ?_⟩
        intro hm
        rcases List.mem_cons.1 hm with hm | hm
        · exact hfresh (hm ▸ d1)
        · exact d2 hm
    · refine memInv_view env s _ h1 h4 h5 ?_ hs
      rw [h6]
      simp only [live, if_neg ha, List.filter_cons_of_neg, ne_eq, not_true_eq_false,
        decide_False, Bool.false_eq_true, not_false_eq_true]
      apply List.filter_eq_self.2
      intro q hq
      simp only [decide_not, Bool.not_eq_true', decide_eq_false_iff_not]
      rintro rfl
      exact hfresh hq
  · intro s fd hs
    obtain ⟨_, hcase⟩ := del_effect env s fd
    rcases hcase with ⟨_, h1, h4, h5, h6⟩ | ⟨_, _, h1, h4, h5, h6⟩ | ⟨tev, _, hl, h1, h6, hb⟩
    · exact memInv_view env s _ h1 h4 h5 (by rw [h6]; simp [live]) hs
    · exact memInv_view env s _ h1 h4 h5 (by rw [h6]) hs
    · have hlive : live env.ucalloc (xio_ev_loop_del env s fd).2.log = live env.ucalloc s.log := by
        rw [h6]; simp [live]
      have hmem := (lookup_some s fd tev hl).1
      refine ⟨?_, ?_, ?_⟩
      · rw [h1]; exact hs.nodup.erase tev
      · intro p hp
        rw [hlive]
        rw [h1] at hp
        exact hs.reg_live p (List.mem_of_mem_erase hp)
      · intro p hp
        rw [hlive, h1]
        have hold : InDeleted s p → p ∈ live env.ucalloc s.log ∧ p ∉ s.poll_events_list.erase tev :=
          fun h => ⟨(hs.del_live p h).1, fun hm => (hs.del_live p h).2 (List.mem_of_mem_erase hm)⟩
        rcases hb with ⟨_, h4, h5⟩ | ⟨_, h4, h5⟩
        · rcases inDeleted_pushed s _ tev p h4 h5 hp with h | h
          · exact hold h
          · subst h
            exact ⟨hs.reg_live p hmem, hs.nodup.not_mem_erase⟩
        · apply hold
          obtain ⟨j, hj, e⟩ := hp
          exact ⟨j, h5 ▸ hj, h4 ▸ e⟩
  · intro s fd events hs
    obtain ⟨h4, h5⟩ := modify_deleted env s fd events
    obtain ⟨_, h1, h6 | ⟨_, h6⟩ | ⟨tev, _, _, h6⟩⟩ := modify_effect env s fd events
    · exact memInv_view env s _ h1 h4 h5 (by rw [h6]) hs
    · exact memInv_view env s _ h1 h4 h5 (by rw [h6]; simp [live]) hs
    · exact memInv_view env s _ h1 h4 h5 (by rw [h6]; simp [live]) hs

theorem memInv_run (env : Env) (hA : AllocatorFresh env) : RunInv env (MemInv env) where
  callback := memInv_callback env hA
  free := by
    intro s hs
    obtain ⟨h0, _, h1, _, _, _, _⟩ := free_deleted_events_spec s
    obtain ⟨new, hlog, _, hnew⟩ := free_deleted_events_log s
    obtain ⟨l1, _, _⟩ := live_append_frees env.ucalloc env.epoll_ctl s.log (InDeleted s) new hnew
    refine ⟨h1 ▸ hs.nodup, ?_, ?_⟩
    · intro p hp
      rw [h1] at hp
      rw [hlog]
      exact l1 p (hs.reg_live p hp) (fun hd => (hs.del_live p hd).2 hp)
    · rintro p ⟨j, hj, _⟩
      rw [h0] at hj
      exact absurd hj (Nat.not_lt_zero _)

theorem kwatch_fds_mod (l : List (Int × Nat)) (fd : Int) (ptr : Nat) :
    (l.map (fun e => if e.1 = fd then (fd, ptr) else e)).map Prod.fst = l.map Prod.fst := by
  induction l with
  | nil => rfl
  | cons e l ih =>
    simp only [List.map_cons, ih, List.cons.injEq, and_true]
    split
    · rename_i h; exact h.symm
    · rfl

theorem wakeInv_view (s t : State) (h1 : t.poll_events_list = s.poll_events_list)
    (h2 : t.tev_fd = s.tev_fd) (h3 : t.wakeup_event = s.wakeup_event) (hs : WakeInv s) :
    WakeInv t := by
  intro p hp
  rw [h2, h3]
  exact hs p (h1 ▸ hp)

theorem fdInv_view (env : Env) (s t : State)
    (h1 : t.poll_events_list = s.poll_events_list) (h2 : t.tev_fd = s.tev_fd)
    (h6 : ∀ fd, fd ∈ kwatch_fds env.epoll_ctl s.log → fd ≠ s.wakeup_event →
      fd ∈ kwatch_fds env.epoll_ctl t.log)
    (hw : WakeInv s) (hs : FdInv env s) : FdInv env t where
  fds := by rw [h1, h2]; exact hs.fds
  watched := by
    intro p hp
    rw [h1] at hp
    rw [h2]
    exact h6 _ (hs.watched p hp) (hw p hp)

theorem map_update_of_not_mem (f : Nat → Int) (l : List Nat) (a : Nat) (v : Int)
    (h : a ∉ l) : l.map (Function.update f a v) = l.map f := by
  apply List.map_congr_left
  intro x hx
  rw [Function.update_apply, if_neg]
  rintro rfl
  exact h hx

/-- The three invariants of the Registry together, for an allocator that
returns fresh addresses and a kernel that rejects the add of a watched
descriptor. -/
theorem regInv_callback (env : Env) (hA : AllocatorFresh env) (hK : RejectsWatchedAdd env) :
    CallbackInv env (fun s => WakeInv s ∧ MemInv env s ∧ FdInv env s) := by
  apply callbackInv_of_view
  · intro s t h1 h2 h3 h4 h5 h6 ⟨hw, hm, hf⟩
    exact ⟨wakeInv_view s t h1 h2 h3 hw,
      memInv_view env s t h1 h4 h5 (by rw [h6]) hm,
      fdInv_view env s t h1 h2 (fun fd h _ => by rw [h6]; exact h) hw hf⟩
  · intro s t ht ⟨hw, hm, hf⟩
    refine ⟨hw, (memInv_callback env hA).call s t ht hm, ?_⟩
    refine fdInv_view env s _ rfl rfl (fun fd h _ => ?_) hw hf
    show fd ∈ kwatch_fds env.epoll_ctl (t :: s.log)
    unfold kwatch_fds
    rw [kwatch_cons_call _ t s.log ht]
    exact h
  · intro s fd events handler data ⟨hw, hm, hf⟩
    refine ⟨(wakeInv_callback env).op s (Op.add fd events handler data) hw,
      (memInv_callback env hA).op s (Op.add fd events handler data) hm, ?_⟩
    have hfresh : env.ucalloc (Trace.ucalloc :: s.log) ∉ s.poll_events_list :=
      fun h => hA s.log (hm.reg_live _ h)
    rcases add_effect env s fd events handler data with
      ⟨_, h1, h2, ⟨hc, h6⟩ | ⟨hc, h6⟩⟩ | ⟨_, ha, h1, h2, h6⟩ | ⟨_, ha, hc, h1, h2, h6⟩ |
      ⟨_, ha, hc, h1, h2, h6⟩
    · refine fdInv_view env s _ h1 h2 (fun x h _ => ?_) hw hf
      rw [h6]
      unfold kwatch_fds at h ⊢
      simp only [kwatch, hc, if_true, List.map_cons, List.mem_cons]
      exact Or.inr h
    · refine fdInv_view env s _ h1 h2 (fun x h _ => ?_) hw hf
      rw [h6]
      unfold kwatch_fds at h ⊢
      simp only [kwatch, hc, if_false]
      exact h
    · refine fdInv_view env s _ h1 h2 (fun x h _ => ?_) hw hf
      rw [h6]
      unfold kwatch_fds at h ⊢
      simp only [kwatch]
      exact h
    · have hnot : fd ∉ kwatch_fds env.epoll_ctl (Trace.ucalloc :: s.log) :=
        fun h => hK _ fd _ _ h hc
      have hnot1 : fd ∉ kwatch_fds env.epoll_ctl s.log := by
        unfold kwatch_fds at hnot ⊢
        simpa only [kwatch] using hnot
      have hk : kwatch_fds env.epoll_ctl (xio_ev_loop_add env s fd events handler data).2.log =
          fd :: kwatch_fds env.epoll_ctl s.log := by
        rw [h6]
        unfold kwatch_fds
        simp only [kwatch, hc, if_true, List.map_cons]
      refine ⟨?_, ?_⟩
      · rw [h1, h2, List.map_cons, Function.update_same, map_update_of_not_mem _ _ _ _ hfresh]
        refine List.nodup_cons.2 ⟨?_, hf.fds⟩
        intro hmem
        obtain ⟨p, hp, e⟩ := List.mem_map.1 hmem
        exact hnot1 (e ▸ hf.watched p hp)
      · intro p hp
        rw [h1] at hp
        rw [hk, h2, Function.update_apply]
        rcases List.mem_cons.1 hp with hp | hp
        · rw [if_pos hp]; exact List.mem_cons_self _ _
        · rw [if_neg (by intro h; rw [h] at hp; exact hfresh hp)]
          exact List.mem_cons_of_mem _ (hf.watched p hp)
    · have hk : kwatch_fds env.epoll_ctl (xio_ev_loop_add env s fd events handler data).2.log =
          kwatch_fds env.epoll_ctl s.log := by
        rw [h6]
        unfold kwatch_fds
        simp only [kwatch, hc, if_false]
      refine ⟨?_, ?_⟩
      · rw [h1, h2, map_update_of_not_mem _ _ _ _ hfresh]
        exact hf.fds
      · intro p hp
        rw [h1] at hp
        rw [hk, h2, Function.update_apply,
          if_neg (by intro h; rw [h] at hp; exact hfresh hp)]
        exact hf.watched p hp
  · intro s fd ⟨hw, hm, hf⟩
    refine ⟨(wakeInv_callback env).op s (Op.del fd) hw,
      (memInv_callback env hA).op s (Op.del fd) hm, ?_⟩
    obtain ⟨h2, hcase⟩ := del_effect env s fd
    have hkeep : ∀ x, x ∈ kwatch_fds env.epoll_ctl s.log → x ≠ fd →
        x ∈ kwatch_fds env.epoll_ctl (Trace.epoll_ctl_del fd :: s.log) := by
      intro x hx hne
      unfold kwatch_fds at hx ⊢
      simp only [kwatch]
      split
      · obtain ⟨e, he, rfl⟩ := List.mem_map.1 hx
        exact List.mem_map.2 ⟨e, List.mem_filter.2 ⟨he, by simpa using hne⟩, rfl⟩
      · exact hx
    rcases hcase with ⟨hfd, h1, _, _, h6⟩ | ⟨_, _, h1, _, _, h6⟩ | ⟨tev, _, hl, h1, h6, _⟩
    · refine fdInv_view env s _ h1 h2 (fun x h hx => ?_) hw hf
      rw [h6]
      exact hkeep x h (hfd ▸ hx)
    · exact fdInv_view env s _ h1 h2 (fun x h _ => by rw [h6]; exact h) hw hf
    · obtain ⟨hmem, hfdt⟩ := lookup_some s fd tev hl
      refine ⟨?_, ?_⟩
      · rw [h1, h2]
        exact hf.fds.sublist ((List.erase_sublist tev _).map _)
      · intro p hp
        rw [h1] at hp
        have hp1 := List.mem_of_mem_erase hp
        have hne : p ≠ tev := fun h => hm.nodup.not_mem_erase (h ▸ hp)
        rw [h2, h6]
        apply hkeep _ (hf.watched p hp1)
        intro he
        exact hne (List.inj_on_of_nodup_map hf.fds hp1 hmem (he.trans hfdt.symm))
  · intro s fd events ⟨hw, hm, hf⟩
    refine ⟨(wakeInv_callback env).op s (Op.modify fd events) hw,
      (memInv_callback env hA).op s (Op.modify fd events) hm, ?_⟩
    have hkeep : ∀ ptr x, x ∈ kwatch_fds env.epoll_ctl s.log →
        x ∈ kwatch_fds env.epoll_ctl
          (Trace.epoll_ctl_mod fd (translate_events events) ptr :: s.log) := by
      intro ptr x hx
      unfold kwatch_fds at hx ⊢
      simp only [kwatch]
      split
      · rw [kwatch_fds_mod]; exact hx
      · exact hx
    obtain ⟨h2, h1, h6 | ⟨_, h6⟩ | ⟨tev, _, _, h6⟩⟩ := modify_effect env s fd events
    · exact fdInv_view env s _ h1 h2 (fun x h _ => by rw [h6]; exact h) hw hf
    · exact fdInv_view env s _ h1 h2 (fun x h _ => by rw [h6]; exact hkeep 0 x h) hw hf
    · exact fdInv_view env s _ h1 h2 (fun x h _ => by rw [h6]; exact hkeep tev x h) hw hf

theorem regInv_run (env : Env) (hA : AllocatorFresh env) (hK : RejectsWatchedAdd env) :
    RunInv env (fun s => WakeInv s ∧ MemInv env s ∧ FdInv env s) where
  callback := regInv_callback env hA hK
  free := by
    intro s ⟨hw, hm, hf⟩
    refine ⟨(wakeInv_run env).free s hw, (memInv_run env hA).free s hm, ?_⟩
    obtain ⟨_, _, h1, _, _, h2, _⟩ := free_deleted_events_spec s
    obtain ⟨new, hlog, _, hnew⟩ := free_deleted_events_log s
    obtain ⟨_, _, l3⟩ := live_append_frees env.ucalloc env.epoll_ctl s.log (InDeleted s) new hnew
    refine fdInv_view env s _ h1 h2 (fun x h _ => ?_) hw hf
    unfold kwatch_fds at h ⊢
    rw [hlog, l3]
    exact h

/-! ## The concrete kernel and allocator meet the assumptions -/

theorem kwatch_kernel : ∀ lg, kwatch kernel_ctl lg = kernel_set lg := by
  intro lg
  induction lg with
  | nil => rfl
  | cons t lg ih =>
    cases t with
    | epoll_ctl_add fd ev ptr =>
      simp only [kwatch, kernel_ctl, kernel_set, ih]
      by_cases h : fd ∈ (kernel_set lg).map Prod.fst
      · simp [h]
      · simp [h]
    | epoll_ctl_del fd =>
      simp only [kwatch, kernel_ctl, kernel_set, ih]
      by_cases h : fd ∈ (kernel_set lg).map Prod.fst
      · simp [h]
      · simp only [h, if_false]
        rw [if_neg (by decide)]
        symm
        apply List.filter_eq_self.2
        intro e he
        simp only [ne_eq, decide_not, Bool.not_eq_true', decide_eq_false_iff_not]
        intro hfd
        exact h (List.mem_map.2 ⟨e, he, hfd⟩)
    | epoll_ctl_mod fd ev ptr =>
      simp only [kwatch, kernel_ctl, kernel_set, ih]
      by_cases h : fd ∈ (kernel_set lg).map Prod.fst
      · simp [h]
      · simp only [h, if_false]
        rw [if_neg (by decide)]
        symm
        conv_rhs => rw [← List.map_id (kernel_set lg)]
        apply List.map_congr_left
        intro e he
        rw [if_neg]
        · rfl
        · intro hfd
          exact h (List.mem_map.2 ⟨e, he, hfd⟩)
    | ucalloc => simpa only [kwatch, kernel_set] using ih
    | ufree p => simpa only [kwatch, kernel_set] using ih
    | epoll_wait tmout => simpa only [kwatch, kernel_set] using ih
    | handler tev fn fd ev data => simpa only [kwatch, kernel_set] using ih
    | event_handler tev fn data => simpa only [kwatch, kernel_set] using ih

theorem live_length_le : ∀ (lg : List Trace) (q : Nat),
    q ∈ live (fun lg => lg.length) lg → q ≤ lg.length := by
  intro lg
  induction lg with
  | nil => intro q h; simp [live] at h
  | cons t lg ih =>
    intro q h
    have hstep : q ∈ live (fun lg => lg.length) lg → q ≤ (t :: lg).length :=
      fun h1 => Nat.le_succ_of_le (ih q h1)
    cases t with
    | ucalloc =>
      simp only [live, List.length_cons, Nat.add_one_ne_zero, if_false, List.mem_cons] at h
      rcases h with h | h
      · rw [h]; exact Nat.le_refl _
      · exact hstep h
    | ufree p =>
      rw [live_free] at h
      exact hstep h.1
    | epoll_ctl_add fd ev ptr => exact hstep h
    | epoll_ctl_del fd => exact hstep h
    | epoll_ctl_mod fd ev ptr => exact hstep h
    | epoll_wait tmout => exact hstep h
    | handler tev fn fd ev data => exact hstep h
    | event_handler tev fn data => exact hstep h

theorem allocatorFresh_length (env : Env) (h : env.ucalloc = fun lg => lg.length) :
    AllocatorFresh env := by
  intro lg hmem
  rw [h] at hmem
  have := live_length_le lg _ hmem
  simp at this

theorem allocatorFresh_kernel : AllocatorFresh env_kernel :=
  allocatorFresh_length env_kernel rfl

theorem rejectsWatchedAdd_kernel : RejectsWatchedAdd env_kernel := by
  intro lg fd ev ptr h
  unfold kwatch_fds at h
  have h1 : fd ∈ (kernel_set lg).map Prod.fst := by
    rw [← kwatch_kernel]; exact h
  show kernel_ctl (Trace.epoll_ctl_add fd ev ptr :: lg) ≠ 0
  simp [kernel_ctl, h1]

theorem regInv_create (env : Env) (mem : State) (efd wakeup_event retval : Int) (s : State)
    (h : xio_ev_loop_create env mem efd wakeup_event retval = some s) :
    WakeInv s ∧ MemInv env s ∧ FdInv env s := by
  obtain ⟨h0, h1, _⟩ := create_spec env mem efd wakeup_event retval s h
  refine ⟨wakeInv_create env mem efd wakeup_event retval s h, ⟨?_, ?_, ?_⟩, ⟨?_, ?_⟩⟩
  · rw [h1]; exact List.nodup_nil
  · intro p hp; rw [h1] at hp; simp at hp
  · rintro p ⟨j, hj, _⟩
    rw [h0] at hj
    exact absurd hj (Nat.not_lt_zero _)
  · rw [h1]; exact List.nodup_nil
  · intro p hp; rw [h1] at hp; simp at hp

theorem loopReachable_run_ops (env : Env) : ∀ (ops : List Op) (s : State),
    LoopReachable env s → LoopReachable env (run_ops env s ops) := by
  intro ops
  induction ops with
  | nil => intro s h; exact h
  | cons o ops ih =>
    intro s h
    exact ih _ (LoopReachable.op s o h)

theorem kernel_created_eq :
    xio_ev_loop_create env_kernel (State.init 0) 3 4 0 = some kernel_created := by
  unfold kernel_created
  have h : (xio_ev_loop_create env_kernel (State.init 0) 3 4 0).isSome = true := by decide
  rw [← Option.some_get h]
  rfl

theorem loopReachable_kernel_registered : LoopReachable env_kernel kernel_registered :=
  loopReachable_run_ops env_kernel _ _
    (LoopReachable.create (State.init 0) 3 4 0 kernel_created kernel_created_eq)

/-! ## C11 -/

/-- C11: with an allocator that returns fresh addresses and a kernel that
rejects the add of a descriptor of its watch set, the watch set changing only
through the `epoll_ctl` calls of the reactor, every state reachable from
`xio_ev_loop_create` (by register, modify and unregister calls, successful or
failing, and also by the other calls, callbacks and runs) has at most one
handler record per descriptor in the Registry: the descriptors of the
registered records are pairwise distinct, no descriptor occurs twice, and so
are the records. -/
theorem C11_registry_unique (env : Env) (hA : AllocatorFresh env)
    (hK : RejectsWatchedAdd env) (s : State) (hr : LoopReachable env s) :
    (s.poll_events_list.map s.tev_fd).Nodup ∧
    (∀ fd, (s.poll_events_list.map s.tev_fd).count fd ≤ 1) ∧
    (∀ fd tev, xio_event_lookup s fd = some tev →
      ∀ p ∈ s.poll_events_list, s.tev_fd p = fd → p = tev) ∧
    s.poll_events_list.Nodup := by
  obtain ⟨_, hm, hf⟩ := loopReachable_inv env _ (regInv_run env hA hK) (regInv_create env) s hr
  refine ⟨hf.fds, fun fd => List.nodup_iff_count_le_one.1 hf.fds fd, ?_, hm.nodup⟩
  intro fd tev hl p hp hfd
  obtain ⟨hmem, hfdt⟩ := lookup_some s fd tev hl
  exact List.inj_on_of_nodup_map hf.fds hp hmem (hfd.trans hfdt.symm)

/-- C11 at the reactor created under a kernel that keeps its watch set, after
descriptor 5 was registered twice and descriptor 6 once: the second
registration of 5 was rejected and the Registry holds one record for 6 and one
for 5. -/
theorem C11_registry_unique_witness :
    ((kernel_registered.poll_events_list.map kernel_registered.tev_fd).Nodup ∧
      (∀ fd, (kernel_registered.poll_events_list.map kernel_registered.tev_fd).count fd ≤ 1) ∧
      (∀ fd tev, xio_event_lookup kernel_registered fd = some tev →
        ∀ p ∈ kernel_registered.poll_events_list, kernel_registered.tev_fd p = fd → p = tev) ∧
      kernel_registered.poll_events_list.Nodup) ∧
    kernel_registered.poll_events_list.map kernel_registered.tev_fd = [6, 5] :=
  ⟨C11_registry_unique env_kernel allocatorFresh_kernel rejectsWatchedAdd_kernel
    kernel_registered loopReachable_kernel_registered, by decide⟩

/-! ## The kernel watch set points into the Registry -/

/-- A record that is allocated stays allocated through every call a callback
can make: the only free in them is the one of the record that a rejected
`xio_ev_loop_add` has just allocated. -/
theorem live_callback (env : Env) (hA : AllocatorFresh env) (p : Nat) :
    CallbackInv env (fun s => p ∈ live env.ucalloc s.log) := by
  apply callbackInv_of_view
  · intro s t _ _ _ _ _ h6 hs
    rw [h6]; exact hs
  · intro s t ht hs
    show p ∈ live env.ucalloc (t :: s.log)
    rw [live_cons_call _ t s.log ht]
    exact hs
  · intro s fd events handler data hs
    have hne : p ≠ env.ucalloc (Trace.ucalloc :: s.log) := by
      rintro rfl
      exact hA s.log hs
    rcases add_effect env s fd events handler data with
      ⟨_, _, _, ⟨_, h6⟩ | ⟨_, h6⟩⟩ | ⟨_, ha, _, _, h6⟩ | ⟨_, ha, _, _, _, h6⟩ |
      ⟨_, ha, _, _, _, h6⟩
    · rw [h6]; exact hs
    · rw [h6, live_free]
      refine ⟨hs, ?_⟩
      rintro rfl
      exact live_nonzero _ _ hs
    · rw [h6]; simp only [live, if_pos ha]; exact hs
    · rw [h6]; simp only [live, if_neg ha]; exact List.mem_cons_of_mem _ hs
    · rw [h6, live_free]
      refine ⟨?_, hne⟩
      simp only [live, if_neg ha]
      exact List.mem_cons_of_mem _ hs
  · intro s fd hs
    obtain ⟨_, hcase⟩ := del_effect env s fd
    rcases hcase with ⟨_, _, _, _, h6⟩ | ⟨_, _, _, _, _, h6⟩ | ⟨tev, _, _, _, h6, _⟩
    · rw [h6]; exact hs
    · rw [h6]; exact hs
    · rw [h6]; exact hs
  · intro s fd events hs
    obtain ⟨_, _, h6 | ⟨_, h6⟩ | ⟨tev, _, _, h6⟩⟩ := modify_effect env s fd events
    · rw [h6]; exact hs
    · rw [h6]; exact hs
    · rw [h6]; exact hs

/-! ## Every invoked record is allocated -/

theorem run_helper_wait_log (s : State) (tmout : Int) :
    (run_helper_wait s tmout).log =
      Trace.epoll_wait tmout :: (if s.deleted_events_nr ≠ 0 then free_deleted_events s else s).log :=
  rfl

theorem inDeleted_callback (env : Env) (p : Nat) : CallbackInv env (fun s => InDeleted s p) where
  op := fun s o h => apply_op_inDeleted env s o p h
  call := fun _ _ _ h => h
  flags := fun _ _ _ _ _ h => h

theorem run_helper_wait_frees (s : State) (p : Nat) (tmout : Int) (h : InDeleted s p) :
    ∃ new, (run_helper_wait s tmout).log = Trace.epoll_wait tmout :: (new ++ s.log) ∧
      Trace.ufree p ∈ new ∧ (run_helper_wait s tmout).deleted_events_nr = 0 := by
  have hn : s.deleted_events_nr ≠ 0 := by
    obtain ⟨j, hj, _⟩ := h
    omega
  obtain ⟨new, h1, h2, _⟩ := free_deleted_events_log s
  refine ⟨new, ?_, h2 p h, ?_⟩
  · rw [run_helper_wait_log, if_pos hn, h1]
  · unfold run_helper_wait
    rw [if_pos hn]
    exact (free_deleted_events_spec s).1

/-- C18, counterexample: descriptor 5 is registered with record 3 and work
item 1 is queued; its callback unregisters descriptor 5.  A run with timeout
0 has a single iteration (one wait): the record is unregistered in the drain
of step 1 and freed right after it, before the wait of that same iteration.
In the second run the callback of record 8 unregisters descriptor 5 in the
only batch, and record 3 is freed in the shutdown epilogue of that same
iteration. -/
theorem C18_counterexample :
    (xio_ev_loop_run_helper 3 (env_item1 [Op.del 5]) registered5_work 0).map
      (fun r => (r.1, r.2.log.take 4, waits r.2.log)) =
      some (0,
        [Trace.epoll_wait 0, Trace.ufree 3, Trace.epoll_ctl_del 5, Trace.event_handler 1 0 0],
        [0]) ∧
    (xio_ev_loop_run_helper 3 env_kernel_del kernel_registered 0).map
      (fun r => (r.1, r.2.log.take 4, waits r.2.log)) =
      some (0,
        [Trace.ufree 3, Trace.epoll_ctl_del 5, Trace.handler 8 15 6 1 16, Trace.epoll_wait 0],
        [0]) := by
  decide

/-- C18, amended: `xio_ev_loop_del` puts the record in the deletion-deferral
buffer (when there is room) and frees nothing; with an allocator that returns
fresh addresses a buffered, allocated record stays buffered and allocated
through every call of a callback, through a batch dispatch and through a
deferred-work drain; it is freed by the next free of the buffer, which is
right before the next kernel wait is issued (in the same iteration when the
record was unregistered in the drain of step 1) or in the shutdown epilogue,
after the shutdown drain. -/
theorem C18_deferred_free (env : Env) (hA : AllocatorFresh env) :
    (∀ (s : State) (fd : Int) (tev : Nat), fd ≠ s.wakeup_event →
      xio_event_lookup s fd = some tev → s.deleted_events_nr < MAX_DELETED_EVENTS →
      (xio_ev_loop_del env s fd).2.log = Trace.epoll_ctl_del fd :: s.log ∧
      InDeleted (xio_ev_loop_del env s fd).2 tev) ∧
    (∀ (s : State) (p : Nat), InDeleted s p → p ∈ live env.ucalloc s.log →
      (∀ ops, InDeleted (run_ops env s ops) p ∧ p ∈ live env.ucalloc (run_ops env s ops).log) ∧
      (∀ batch, InDeleted (dispatch_batch env s batch) p ∧
        p ∈ live env.ucalloc (dispatch_batch env s batch).log) ∧
      (∀ fuel r, xio_ev_loop_exec_scheduled fuel env s = some r →
        InDeleted r.2 p ∧ p ∈ live env.ucalloc r.2.log)) ∧
    (∀ (s : State) (p : Nat) (tmout : Int), InDeleted s p →
      ∃ new, (run_helper_wait s tmout).log = Trace.epoll_wait tmout :: (new ++ s.log) ∧
        Trace.ufree p ∈ new ∧ (run_helper_wait s tmout).deleted_events_nr = 0) ∧
    (∀ (fuel : Nat) (s : State) (r : Int × State), run_helper_exit env fuel s = some r →
      ∃ s1 new, run_helper_drain env fuel s = some s1 ∧ r.2.log = new ++ s1.log ∧
        (∀ p, InDeleted s1 p → Trace.ufree p ∈ new) ∧ r.2.deleted_events_nr = 0) := by
  refine ⟨?_, ?_, ?_, ?_⟩
  · intro s fd tev hfd hl hroom
    exact ⟨(del_found env s fd tev hfd hl).2.1, del_buffers env s fd tev hfd hl hroom⟩
  · intro s p hd hl
    refine ⟨fun ops => ⟨?_, ?_⟩, fun batch => ⟨?_, ?_⟩, fun fuel r he => ⟨?_, ?_⟩⟩
    · exact cbinv_run_ops env _ (inDeleted_callback env p) ops s hd
    · exact cbinv_run_ops env _ (live_callback env hA p) ops s hl
    · exact cbinv_dispatch_batch env _ (inDeleted_callback env p) batch s hd
    · exact cbinv_dispatch_batch env _ (live_callback env hA p) batch s hl
    · exact cbinv_exec_scheduled env _ (inDeleted_callback env p) fuel s r hd he
    · exact cbinv_exec_scheduled env _ (live_callback env hA p) fuel s r hl he
  · intro s p tmout h
    exact run_helper_wait_frees s p tmout h
  · intro fuel s r he
    unfold run_helper_exit at he
    cases hd : run_helper_drain env fuel s with
    | none => rw [hd] at he; simp at he
    | some s1 =>
      rw [hd] at he
      simp only [Option.some.injEq] at he
      subst he
      obtain ⟨new, h1, h2, _⟩ := free_deleted_events_log s1
      exact ⟨s1, new, rfl, h1, h2, (free_deleted_events_spec s1).1⟩

/-- C18, amended, at the reactor in which descriptor 5 is registered with
record 3: unregistering descriptor 5 records the kernel delete only and
buffers record 3; the next wait frees it first. -/
theorem C18_deferred_free_witness :
    ((xio_ev_loop_del Env.quiet registered5 5).2.log =
        Trace.epoll_ctl_del 5 :: registered5.log ∧
      InDeleted (xio_ev_loop_del Env.quiet registered5 5).2 3) ∧
    ((run_helper_wait (xio_ev_loop_del Env.quiet registered5 5).2 0).log.take 2 =
      [Trace.epoll_wait 0, Trace.ufree 3]) :=
  ⟨(C18_deferred_free Env.quiet (allocatorFresh_length Env.quiet rfl)).1 registered5 5 3
    (by decide) (by decide) (by decide), by decide⟩

end XioEvLoop
